import Mathlib

/-!
# ipc-timings: a verification development

A shallow embedding of the six benchmark programs `memcpy.c`, `shmemcpy.c`,
`tcpmemcpy.c`, `udpmemcpy.c`, `zmqmemcpy.c` and `dbusmemcpy.c`.

Modelling conventions.
* `long` and `int` values are integers (`Int`).  The subtractions and the borrow step of
  the elapsed-time computation are `long` operations and wrap around modulo `2^64`
  (`wrap_long`), as the two's-complement machine does.
* Unsigned conversions are explicit (`uint8_of_int`, `uint32_of_int`, `size_t_of_int`).
* A `double` is the rational number it holds.  Every conversion to `double` and every
  `double` operation rounds its exact result to the nearest binary64 value, ties to even
  (`round_double`).
* A byte is a natural number below 256; memory is a list of bytes.
* The target is the LP64 little-endian ABI: `long` has 8 bytes, `struct timeval`
  16 bytes, `buf_data_t` 40 bytes with the flexible array member at offset 36.
-/

set_option linter.unnecessarySeqFocus false

namespace IpcTimings

/-! ## Machine integers -/

/-- Conversion `(uint8_t)x`. -/
def uint8_of_int (x : Int) : Nat := (x % 256).toNat

/-- Conversion `(uint32_t)x`. -/
def uint32_of_int (x : Int) : Nat := (x % 4294967296).toNat

/-- Conversion `(size_t)x` on a 64-bit target. -/
def size_t_of_int (x : Int) : Nat := (x % 18446744073709551616).toNat

/-- Largest value of the C type `int`. -/
def INT_MAX : Int := 2147483647

/-- Smallest value of the C type `long`. -/
def LONG_MIN : Int := -9223372036854775808

/-- Largest value of the C type `long`. -/
def LONG_MAX : Int := 9223372036854775807

/-- Exit status `EXIT_SUCCESS`. -/
def EXIT_SUCCESS : Int := 0

/-- Exit status `EXIT_FAILURE`. -/
def EXIT_FAILURE : Int := 1

/-! ## Time stamps and the benchmark result -/

/-- The C type `struct timeval`: seconds and microseconds, both `long`. -/
structure timeval where
  tv_sec : Int
  tv_usec : Int
  deriving DecidableEq, Repr

/-- A time stamp whose fields are representable in a `long`. -/
def timeval.in_range (t : timeval) : Prop :=
  LONG_MIN ≤ t.tv_sec ∧ t.tv_sec ≤ LONG_MAX ∧ LONG_MIN ≤ t.tv_usec ∧ t.tv_usec ≤ LONG_MAX

/-- The time stamp as a count of microseconds, `sec * 1000000 + usec`. -/
def timeval.micros (t : timeval) : Int := t.tv_sec * 1000000 + t.tv_usec

/-- The value a `long` holds after an operation whose exact result is `x`: the
representative of `x` modulo `2^64` in `[LONG_MIN, LONG_MAX]`. -/
def wrap_long (x : Int) : Int :=
  (x + 9223372036854775808) % 18446744073709551616 - 9223372036854775808

/-- The elapsed-time computation shared by all six programs
(`memcpy.c` 79-84, `shmemcpy.c` 134-139, `tcpmemcpy.c` 164-169, `udpmemcpy.c` 129-134,
`zmqmemcpy.c` 111-116, `dbusmemcpy.c` 149-154):
`sec = end.tv_sec - start.tv_sec; usec = end.tv_usec - start.tv_usec;
if (usec < 0) { sec--; usec += 1000000; }`, all in `long`.  The result is the pair
`(sec, usec)`. -/
def elapsed_sec_usec (start end_ : timeval) : Int × Int :=
  let sec := wrap_long (end_.tv_sec - start.tv_sec)
  let usec := wrap_long (end_.tv_usec - start.tv_usec)
  if usec < 0 then (wrap_long (sec - 1), wrap_long (usec + 1000000)) else (sec, usec)

/-- The integer nearest to `x`, the even one of the two when `x` lies half-way. -/
def round_half_even (x : ℚ) : Int :=
  if x - ⌊x⌋ < 1 / 2 then ⌊x⌋
  else if 1 / 2 < x - ⌊x⌋ then ⌊x⌋ + 1
  else if ⌊x⌋ % 2 = 0 then ⌊x⌋ else ⌊x⌋ + 1

/-- The exponent of the unit in the last place of the binary64 values of magnitude about
`a > 0`: with `2^L <= a < 2^(L+1)` it is `L - 52` (53 significant bits), and `-1074` for
the subnormal values below `2^-1022`. -/
def ulp_exponent (a : ℚ) : Int := max (Int.log 2 a) (-1022) - 52

/-- Rounding of the exact value `q` to binary64, to nearest with ties to even: the
multiple of the unit in the last place nearest to `q`.  (A binary64 result of magnitude
`2^1024` or more would be an infinity; the values the programs compute stay far below, see
`report_in_double_range`.) -/
def round_double (q : ℚ) : ℚ :=
  if q = 0 then 0
  else (round_half_even (q / 2 ^ ulp_exponent |q|) : ℚ) * 2 ^ ulp_exponent |q|

/-- The conversion of an integer operand to `double`. -/
def double_of_int (x : Int) : ℚ := round_double (x : ℚ)

/-- The sum `a + b` of two `double` operands. -/
def fadd (a b : ℚ) : ℚ := round_double (a + b)

/-- The value `double elapsed = sec + usec / 1e6`: `usec` is converted and divided by
`1e6`, `sec` is converted and the quotient added to it. -/
def elapsed (start end_ : timeval) : ℚ :=
  let p := elapsed_sec_usec start end_
  fadd (double_of_int p.1) (round_double (double_of_int p.2 / 1000000))

/-- The expression `sec + usec / 1000000` of the `sec` and `usec` that the code computes,
read as an exact rational. -/
def elapsed_as_rational (start end_ : timeval) : ℚ :=
  let p := elapsed_sec_usec start end_
  (p.1 : ℚ) + (p.2 : ℚ) / 1000000

/-- Fault raised by a division whose divisor is zero. -/
inductive ArithFault where
  | division_by_zero
  deriving DecidableEq, Repr

/-- Division of two `double` operands; a zero divisor is a fault. -/
def fdiv (a b : ℚ) : Except ArithFault ℚ :=
  if b = 0 then .error .division_by_zero else .ok (round_double (a / b))

/-- The throughput expression `elapsed > 0 ? (bytes / elapsed) : 0` shared by all six
programs (`memcpy.c` 88, `shmemcpy.c` 142, `tcpmemcpy.c` 172, `udpmemcpy.c` 137,
`zmqmemcpy.c` 119, `dbusmemcpy.c` 157).  The byte count is converted to `double`; the
division is evaluated in the first branch only. -/
def bps (bytes : Nat) (elapsed : ℚ) : Except ArithFault ℚ :=
  if elapsed > 0 then fdiv (double_of_int (bytes : Int)) elapsed else .ok 0

/-- The figures a responder prints on standard output. -/
structure Report where
  elapsed : ℚ
  bytes : Nat
  bps : ℚ
  mbps : ℚ
  deriving DecidableEq

/-- The result computation of a responder: elapsed time, throughput in bytes per second
and in megabytes per second (`bps / 1e6`), from the two time stamps and the byte count. -/
def report (start end_ : timeval) (bytes : Nat) : Except ArithFault Report :=
  let e := elapsed start end_
  match bps bytes e with
  | .error f => .error f
  | .ok b => .ok { elapsed := e, bytes := bytes, bps := b, mbps := round_double (b / 1000000) }

/-! ## The benchmark buffer -/

/-- The C type `buf_data_t`: two time stamps, a `uint32_t` size and the flexible array
member `data`. -/
structure buf_data_t where
  start : timeval
  end_ : timeval
  size : Nat
  data : List Nat
  deriving DecidableEq

/-- The fill loop `for (int i = 0; i < size; i++) data[i] = (uint8_t)i;`, entered with
loop variable `i` and `n = size - i` iterations left. -/
def fill_loop (data : List Nat) (i : Nat) : Nat → List Nat
  | 0 => data
  | n + 1 => fill_loop (data.set i (uint8_of_int (i : Int))) (i + 1) n

/-- The source buffer after `src->size = size;` and the fill loop.  `raw` is the block
as `malloc` returned it, with arbitrary contents. -/
def build_src (size : Int) (raw : buf_data_t) : buf_data_t :=
  { raw with size := uint32_of_int size, data := fill_loop raw.data 0 size.toNat }

/-- The fill pattern of `n` bytes as the specification describes it: `0, 1, ..., 255, 0,
1, ...`, byte `i` being `i mod 256`. -/
def pattern (n : Nat) : List Nat := (List.range n).map (fun i => i % 256)

/-- The source buffer as a parent hands it to the transport: built by `build_src` and then
stamped by `gettimeofday(&src->start, NULL)`, which stores `start`. -/
def stamped_src (size : Int) (raw : buf_data_t) (start : timeval) : buf_data_t :=
  { build_src size raw with start := start }

/-! ## Memory representation (LP64, little-endian) -/

/-- The `n` little-endian bytes of the unsigned value `v`. -/
def le_bytes : Nat → Nat → List Nat
  | 0, _ => []
  | n + 1, v => v % 256 :: le_bytes n (v / 256)

/-- The unsigned value of a little-endian byte sequence. -/
def le_value : List Nat → Nat
  | [] => 0
  | b :: bs => b + 256 * le_value bs

/-- The eight bytes of a `long` in memory (two's complement). -/
def long_bytes (x : Int) : List Nat := le_bytes 8 (size_t_of_int x)

/-- The `long` stored in the first eight bytes of `bs`. -/
def long_of_bytes (bs : List Nat) : Int :=
  let u := le_value (bs.take 8)
  if u < 9223372036854775808 then (u : Int) else (u : Int) - 18446744073709551616

/-- The value of `sizeof(struct timeval)`. -/
def sizeof_timeval : Nat := 16

/-- The value of `sizeof(buf_data_t)`: two time stamps, the size word, four bytes of
padding. -/
def sizeof_buf_data_t : Nat := 40

/-- The offset of the flexible array member `data` in `buf_data_t`. -/
def offsetof_data : Nat := 36

/-- The sixteen bytes of a `struct timeval` in memory: seconds word, microseconds word. -/
def timeval.bytes (t : timeval) : List Nat := long_bytes t.tv_sec ++ long_bytes t.tv_usec

/-- The `struct timeval` stored in the first sixteen bytes of `bs`
(`memcpy(&start, buf, sizeof(struct timeval))`). -/
def timeval.of_bytes (bs : List Nat) : timeval :=
  { tv_sec := long_of_bytes bs, tv_usec := long_of_bytes (bs.drop 8) }

/-- The memory block of a `buf_data_t`: `start` at offset 0, `end` at 16, `size` at 32 and
the bytes from offset 36 on, which hold `data` and run to the end of the block. -/
def buf_data_t.bytes (b : buf_data_t) : List Nat :=
  b.start.bytes ++ b.end_.bytes ++ le_bytes 4 b.size ++ b.data

/-- The field `start` read from a memory block holding a `buf_data_t`. -/
def load_start (mem : List Nat) : timeval := timeval.of_bytes (mem.take 16)

/-- The field `size` read from a memory block holding a `buf_data_t`. -/
def load_size (mem : List Nat) : Nat := le_value ((mem.drop 32).take 4)

/-- The bytes `mem[off .. off + bs.length)` overwritten with `bs`. -/
def store (mem : List Nat) (off : Nat) (bs : List Nat) : List Nat :=
  mem.take off ++ bs ++ mem.drop (off + bs.length)

/-- The `total_size = sizeof(buf_data_t) + size` bytes at `src`, the buffer the TCP, UDP
and shared-memory parents pass to `full_write`, `sendto` and `memcpy`. -/
def block_bytes (size : Int) (src : buf_data_t) : List Nat :=
  src.bytes.take (size_t_of_int (sizeof_buf_data_t + size))

/-- The wire layout as the specification describes it: the 16 bytes of the start time stamp
`t` followed immediately by exactly `size` data bytes, so that the length is `16 + size`
and byte `16 + i` is `i mod 256` for every `i < size`. -/
def is_timestamp_then_data (bytes : List Nat) (size : Int) (t : timeval) : Prop :=
  bytes.take 16 = t.bytes ∧ bytes.length = 16 + size.toNat ∧
  ∀ i : Nat, i < size.toNat → bytes[16 + i]? = some (i % 256)

/-- The layout of the whole buffer record: `40 + size` bytes, the start time stamp `t` in
bytes 0 to 15, the `end` field in bytes 16 to 31, the size word in bytes 32 to 35 and data
byte `i` at offset `36 + i`. -/
def is_buffer_record (bytes : List Nat) (size : Int) (t end_field : timeval) : Prop :=
  bytes.length = 40 + size.toNat ∧ bytes.take 16 = t.bytes ∧
  (bytes.drop 16).take 16 = end_field.bytes ∧ (load_size bytes : Int) = size ∧
  ∀ i : Nat, i < size.toNat → bytes[36 + i]? = some (i % 256)

/-! ## Processes, events and the command line -/

/-- Signals used for the handshake. -/
inductive Signal where
  | SIGUSR1
  | SIGIO
  deriving DecidableEq, Repr

/-- Library and system calls made by the programs. -/
inductive Call where
  | malloc | free | fork | wait | signal | gettimeofday | memcpy
  | socket | setsockopt | bind | listen | accept | connect | close
  | full_read | full_write | recvfrom | sendto
  | shm_open | ftruncate | shm_unlink | mmap | munmap
  | zmq_ctx_new | zmq_socket | zmq_bind | zmq_connect | zmq_recv | zmq_send
  | zmq_close | zmq_ctx_term
  | dbus_bus_get | dbus_bus_request_name | dbus_connection_read_write
  | dbus_connection_pop_message | dbus_message_new_method_call | dbus_connection_send
  | dbus_connection_flush | dbus_connection_unref | dbus_message_unref
  deriving DecidableEq, Repr

/-- An argument of a D-Bus message: a `uint32`; an array of bytes; an array of `count`
elements of another fixed-size type (`int16`, `uint32`, `double`, ...), whose values occupy
the bytes `raw`; or an argument of some other type.  (An array whose elements have no
fixed size, for which `dbus_message_iter_get_fixed_array` is not defined, is not
modelled.) -/
inductive DBusArg where
  | uint32 (v : Nat)
  | byte_array (bs : List Nat)
  | fixed_array (count : Nat) (raw : List Nat)
  | other
  deriving DecidableEq, Repr

/-- A D-Bus message: whether it is a method call, its interface, its member and its
arguments. -/
structure DBusMessage where
  method_call : Bool
  interface : String
  member : String
  args : List DBusArg
  deriving DecidableEq, Repr

/-- What a process does that another process or the user can observe. -/
inductive Event where
  | call (c : Call)
  | kill (s : Signal)
  | await (s : Signal)
  | transmit (c : Call) (bytes : List Nat)
  | dbus_send (msg : DBusMessage)
  | stderr (msg : String)
  | stdout_time (t : timeval)
  | stdout_result (r : Report)
  | fault (f : ArithFault)
  deriving DecidableEq

/-- The run of one process: its events in order and its exit status, `none` when the
process does not exit (it blocks for ever, or it is killed). -/
structure Run where
  trace : List Event
  status : Option Int
  deriving DecidableEq

/-- The run `r` preceded by the events `es`. -/
def Run.pre (es : List Event) (r : Run) : Run := { trace := es ++ r.trace, status := r.status }

/-- The runs of a program: the process started by the user (the parent once it has
forked) and the forked child, if any. -/
structure Outcome where
  parent : Run
  child : Option Run
  deriving DecidableEq

/-- All events of an outcome: those of the parent, then those of the child. -/
def Outcome.events (o : Outcome) : List Event :=
  o.parent.trace ++ (match o.child with
    | none => []
    | some c => c.trace)

/-- The event reports a benchmark result on standard output. -/
def Event.is_result : Event → Bool
  | .stdout_result _ => true
  | _ => false

/-- The event is an arithmetic fault. -/
def Event.is_fault : Event → Bool
  | .fault _ => true
  | _ => false

/-- The process has terminated: it has exited, or an arithmetic fault has killed it. -/
def Run.terminated (r : Run) : Bool := r.status.isSome || r.trace.any Event.is_fault

/-- The call `wait(NULL)` of a parent and what follows it.  `wait` returns when the child
has terminated, whatever its status, which `wait(NULL)` discards; the parent then goes on
with `rest`.  If the child never terminates the parent stays blocked in `wait`. -/
def wait_then (child : Run) (rest : Run) : Run :=
  Run.pre [.call .wait] (if child.terminated then rest else { trace := [], status := none })

/-- The event respects "throughput is 0 when the elapsed time is 0, never a division
fault": it is not a fault, and if it is a result with elapsed time 0 its throughput is 0. -/
def Event.zero_elapsed_ok : Event → Prop
  | .fault _ => False
  | .stdout_result r => r.elapsed = 0 → r.bps = 0
  | _ => True

/-- The event forks the responder or creates or opens a transport resource. -/
def Event.is_fork_or_transport : Event → Bool
  | .call c =>
    c = .fork || c = .shm_open || c = .ftruncate || c = .mmap || c = .socket || c = .bind
      || c = .listen || c = .accept || c = .connect || c = .full_read || c = .full_write
      || c = .recvfrom || c = .sendto || c = .dbus_bus_get || c = .dbus_bus_request_name
      || c = .dbus_connection_read_write || c = .dbus_connection_pop_message
      || c = .dbus_message_new_method_call || c = .dbus_connection_send
      || c = .zmq_ctx_new || c = .zmq_socket || c = .zmq_bind || c = .zmq_connect
      || c = .zmq_recv || c = .zmq_send
  | .transmit _ _ => true
  | .dbus_send _ => true
  | _ => false

/-- One result of `getopt_long(argc, argv, "s:", long_options, &option_index)` other than
`-1`: the option `-s`/`--size`, given here with the value `atoi(optarg)`, or anything
else (`'?'`). -/
inductive GetoptResult where
  | size_option (atoi_optarg : Int)
  | unrecognised
  deriving DecidableEq, Repr

/-- The option loop of `main`, identical in the six programs: `size` after the options
are consumed, `none` when the `default:` case prints the usage line and returns. -/
def parse_args : List GetoptResult → Int → Option Int
  | [], size => some size
  | .size_option v :: rest, _ => parse_args rest v
  | .unrecognised :: _, _ => none

/-- The `--size` value of a command line, read off the option list: the value of the last
`-s`/`--size` option, `none` when the command line gives no such option. -/
def last_size : List GetoptResult → Option Int
  | [] => none
  | .size_option v :: rest =>
    match last_size rest with
    | some w => some w
    | none => some v
  | .unrecognised :: rest => last_size rest

/-- The usage line of the `default:` case. -/
def usage_line : String := "Usage: %s --size NUMBER"

/-- The message printed for `size <= 0`. -/
def invalid_size_line : String := "Invalid size specified."

/-- The responder tail shared by the programs: compute the report from the two time
stamps and the byte count, print it, run the clean-up calls, exit successfully.  A fault
in the computation kills the process. -/
def report_and_exit (start end_ : timeval) (bytes : Nat) (cleanup : List Event) : Run :=
  match report start end_ bytes with
  | .ok r => { trace := .stdout_result r :: cleanup, status := some EXIT_SUCCESS }
  | .error f => { trace := [.fault f], status := none }

/-! ## memcpy.c: the in-process baseline -/

namespace memcpy

/-- What the environment decides in a run of `memcpy`. -/
structure Env where
  malloc_src : Option buf_data_t
  malloc_dst : Option buf_data_t
  start_time : timeval
  end_time : timeval

/-- The function `main` of `memcpy.c`. -/
def main (opts : List GetoptResult) (env : Env) : Run :=
  match parse_args opts 0 with
  | none => { trace := [.stderr usage_line], status := some EXIT_FAILURE }
  | some size =>
    if size ≤ 0 then { trace := [.stderr invalid_size_line], status := some EXIT_FAILURE }
    else
      Run.pre [.call .malloc, .call .malloc] <|
      match env.malloc_src, env.malloc_dst with
      | some raw, some _ =>
        let src := { build_src size raw with start := env.start_time }
        let bytes_copied := size_t_of_int size
        Run.pre [.call .gettimeofday, .stdout_time src.start, .call .memcpy,
                 .call .gettimeofday, .stdout_time env.end_time] <|
        report_and_exit src.start env.end_time bytes_copied [.call .free, .call .free]
      | _, _ =>
        { trace := [.stderr "Memory allocation failed.", .call .free, .call .free],
          status := some EXIT_FAILURE }

end memcpy

/-! ## tcpmemcpy.c -/

namespace tcpmemcpy

/-- One result of `read`: the return value and, when it is positive, the bytes stored. -/
structure ReadOutcome where
  res : Int
  data : List Nat

/-- The loop of `full_read`, entered before the `k`-th call of `read` with `read_bytes`
bytes stored so far.  `reads k` is the outcome of the `k`-th call.  The result is the
return value and the buffer.  (`count` is `total_size`, far below `2^63`, so the
conversion of `read_bytes` to the `ssize_t` result keeps the value.) -/
def full_read_loop (reads : Nat → ReadOutcome) (count : Nat) (k read_bytes : Nat)
    (buf : List Nat) : Int × List Nat :=
  if read_bytes < count then
    if (reads k).res ≤ 0 then ((reads k).res, buf)
    else full_read_loop reads count (k + 1) (read_bytes + (reads k).res.toNat)
           (store buf read_bytes (reads k).data)
  else ((read_bytes : Int), buf)
termination_by count - read_bytes
decreasing_by
  simp_wf
  omega

/-- The function `full_read(fd, buf, count)`. -/
def full_read (reads : Nat → ReadOutcome) (buf : List Nat) (count : Nat) : Int × List Nat :=
  full_read_loop reads count 0 0 buf

/-- What a run of `full_write` leaves behind: the return value, the number of calls of
`write` it made and the final value of the local variable `written`, the number of bytes
accepted in total. -/
structure WriteRun where
  ret : Int
  calls : Nat
  written : Nat
  deriving DecidableEq, Repr

/-- The loop of `full_write`, entered before the `k`-th call of `write` with `written`
bytes accepted so far.  `writes k` is the return value of the `k`-th call.  (`count` is
`total_size`, far below `2^63`, so the conversion of `written` to the `ssize_t` result
keeps the value.) -/
def full_write_loop (writes : Nat → Int) (count : Nat) (k written : Nat) : WriteRun :=
  if written < count then
    if writes k ≤ 0 then { ret := writes k, calls := k + 1, written := written }
    else full_write_loop writes count (k + 1) (written + (writes k).toNat)
  else { ret := (written : Int), calls := k, written := written }
termination_by count - written
decreasing_by
  simp_wf
  omega

/-- The run of `full_write(fd, buf, count)` from its initial state `written = 0`. -/
def full_write_run (writes : Nat → Int) (count : Nat) : WriteRun :=
  full_write_loop writes count 0 0

/-- The function `full_write(fd, buf, count)`: the value it returns. -/
def full_write (writes : Nat → Int) (count : Nat) : Int :=
  (full_write_run writes count).ret

/-- The number of bytes the first `k` calls of `write` accept: the sum of their return
values. -/
def accepted (writes : Nat → Int) : Nat → Int
  | 0 => 0
  | k + 1 => accepted writes k + writes k

/-- The results are those of `write` called by `full_write` for `count` bytes: as long as
bytes are unsent, a positive result is at most the number of bytes still unsent. -/
def writes_fit (writes : Nat → Int) (count : Nat) : Prop :=
  ∀ k, (∀ j, j < k → 0 < writes j) → accepted writes k < count → 0 < writes k →
    accepted writes k + writes k ≤ count

/-- The number of bytes the first `k` calls of `read` deliver: the sum of their return
values. -/
def delivered (reads : Nat → ReadOutcome) : Nat → Int
  | 0 => 0
  | k + 1 => delivered reads k + (reads k).res

/-- The bytes the first `k` calls of `read` deliver, in arrival order. -/
def arrived (reads : Nat → ReadOutcome) : Nat → List Nat
  | 0 => []
  | k + 1 => arrived reads k ++ (reads k).data

/-- The results are those of `read` called by `full_read` for `count` bytes: as long as
bytes are missing, a positive result is at most the number of bytes still missing and
comes with that many bytes. -/
def reads_fit (reads : Nat → ReadOutcome) (count : Nat) : Prop :=
  ∀ k, (∀ j, j < k → 0 < (reads j).res) → delivered reads k < count → 0 < (reads k).res →
    delivered reads k + (reads k).res ≤ count ∧ ((reads k).data.length : Int) = (reads k).res

/-- What the environment decides in a run of `tcpmemcpy`.  `writes k` is the value the
`k`-th call of `write` returns.  `sigpipe_at` is the call of `write`, if any, during which
the kernel raises SIGPIPE because the child has closed the connection: that call does not
return. -/
structure Env where
  malloc_src : Option buf_data_t
  fork_ok : Bool
  child_socket_ok : Bool
  bind_ok : Bool
  listen_ok : Bool
  accept_ok : Bool
  malloc_dst : Option (List Nat)
  reads : Nat → ReadOutcome
  end_time : timeval
  sigusr1_received : Bool
  parent_socket_ok : Bool
  connect_ok : Bool
  start_time : timeval
  writes : Nat → Int
  sigpipe_at : Option Nat := none

/-- The child branch of `main` (TCP server). -/
def child (size : Int) (env : Env) : Run :=
  let total_size := size_t_of_int (sizeof_buf_data_t + size)
  Run.pre [.call .socket] <|
  if !env.child_socket_ok then
    { trace := [.stderr "Child socket"], status := some EXIT_FAILURE }
  else
  Run.pre [.call .setsockopt, .call .bind] <|
  if !env.bind_ok then
    { trace := [.stderr "Child bind", .call .close], status := some EXIT_FAILURE }
  else
  Run.pre [.call .listen] <|
  if !env.listen_ok then
    { trace := [.stderr "Child listen", .call .close], status := some EXIT_FAILURE }
  else
  Run.pre [.kill .SIGUSR1, .call .accept] <|
  if !env.accept_ok then
    { trace := [.stderr "Child accept", .call .close], status := some EXIT_FAILURE }
  else
  Run.pre [.call .malloc] <|
  match env.malloc_dst with
  | none =>
    { trace := [.stderr "Child malloc", .call .close, .call .close],
      status := some EXIT_FAILURE }
  | some raw =>
    let r := full_read env.reads raw total_size
    let n := r.1
    let dst := r.2
    Run.pre [.call .full_read] <|
    if size_t_of_int n ≠ total_size then
      { trace := [.stderr "Child: Failed to read complete buffer", .call .free, .call .close,
                  .call .close],
        status := some EXIT_FAILURE }
    else
      Run.pre [.call .gettimeofday] <|
      report_and_exit (load_start dst) env.end_time (load_size dst)
        [.call .free, .call .close, .call .close]

/-- The parent branch of `main` (TCP client), every call of `write` returning; `src` is
the source buffer.  The parent waits for the child of the same run. -/
def parent (size : Int) (src : buf_data_t) (env : Env) : Run :=
  let total_size := size_t_of_int (sizeof_buf_data_t + size)
  Run.pre [.call .signal, .await .SIGUSR1] <|
  if !env.sigusr1_received then { trace := [], status := none }
  else
  Run.pre [.call .socket] <|
  if !env.parent_socket_ok then
    { trace := [.stderr "Parent socket", .call .free], status := some EXIT_FAILURE }
  else
  Run.pre [.call .connect] <|
  if !env.connect_ok then
    { trace := [.stderr "Parent connect", .call .close, .call .free],
      status := some EXIT_FAILURE }
  else
    let src := { src with start := env.start_time }
    let sent := full_write env.writes total_size
    Run.pre [.call .gettimeofday, .transmit .full_write (block_bytes size src)] <|
    Run.pre (if size_t_of_int sent ≠ total_size
             then [.stderr "Parent: Failed to send complete buffer"] else []) <|
    Run.pre [.call .close] <|
    wait_then (child size env) { trace := [.call .free], status := some EXIT_SUCCESS }

/-- One of the calls of `write` that `full_write` makes raises SIGPIPE. -/
def sigpipe_raised (size : Int) (env : Env) : Bool :=
  match env.sigpipe_at with
  | some k => decide (k < (full_write_run env.writes
      (size_t_of_int (sizeof_buf_data_t + size))).calls)
  | none => false

/-- The run of the parent process.  The program installs no handler for SIGPIPE and does
not ignore it: if the parent gets as far as `full_write` and one of the calls of `write`
raises the signal, the process is killed inside `full_write`, without printing, waiting or
returning.  Otherwise the run is the one of the parent branch. -/
def parent_process (size : Int) (src : buf_data_t) (env : Env) : Run :=
  if env.sigusr1_received && env.parent_socket_ok && env.connect_ok
      && sigpipe_raised size env then
    { trace := [.call .signal, .await .SIGUSR1, .call .socket, .call .connect,
                .call .gettimeofday,
                .transmit .full_write (block_bytes size { src with start := env.start_time })],
      status := none }
  else parent size src env

/-- The function `main` of `tcpmemcpy.c`. -/
def main (opts : List GetoptResult) (env : Env) : Outcome :=
  match parse_args opts 0 with
  | none => { parent := { trace := [.stderr usage_line], status := some EXIT_FAILURE },
              child := none }
  | some size =>
    if size ≤ 0 then
      { parent := { trace := [.stderr invalid_size_line], status := some EXIT_FAILURE },
        child := none }
    else
      match env.malloc_src with
      | none =>
        { parent := { trace := [.call .malloc, .stderr "malloc"], status := some EXIT_FAILURE },
          child := none }
      | some raw =>
        let src := build_src size raw
        if !env.fork_ok then
          { parent := { trace := [.call .malloc, .call .fork, .stderr "fork", .call .free],
                        status := some EXIT_FAILURE },
            child := none }
        else
          { parent := Run.pre [.call .malloc, .call .fork] (parent_process size src env),
            child := some (child size env) }

end tcpmemcpy

/-! ## udpmemcpy.c -/

namespace udpmemcpy

/-- What the environment decides in a run of `udpmemcpy`.  `datagram` is what `recvfrom`
receives, `none` when it fails; `sendto_ok` is false when `sendto` returns a negative
value; `recvfrom_returns` is false when no datagram ever arrives and the child stays
blocked in `recvfrom`. -/
structure Env where
  malloc_src : Option buf_data_t
  fork_ok : Bool
  child_socket_ok : Bool
  bind_ok : Bool
  malloc_dst : Option (List Nat)
  datagram : Option (List Nat)
  end_time : timeval
  sigusr1_received : Bool
  parent_socket_ok : Bool
  start_time : timeval
  sendto_ok : Bool
  recvfrom_returns : Bool := true

/-- The child branch of `main` (UDP receiver). -/
def child (size : Int) (env : Env) : Run :=
  let total_size := size_t_of_int (sizeof_buf_data_t + size)
  Run.pre [.call .socket] <|
  if !env.child_socket_ok then
    { trace := [.stderr "Child socket"], status := some EXIT_FAILURE }
  else
  Run.pre [.call .bind] <|
  if !env.bind_ok then
    { trace := [.stderr "Child bind", .call .close], status := some EXIT_FAILURE }
  else
  Run.pre [.kill .SIGUSR1, .call .malloc] <|
  match env.malloc_dst with
  | none => { trace := [.stderr "Child malloc", .call .close], status := some EXIT_FAILURE }
  | some raw =>
    Run.pre [.call .recvfrom] <|
    if !env.recvfrom_returns then { trace := [], status := none }
    else
    match env.datagram with
    | none =>
      { trace := [.stderr "Child recvfrom", .call .free, .call .close],
        status := some EXIT_FAILURE }
    | some dgram =>
      let dst := store raw 0 (dgram.take total_size)
      Run.pre [.call .gettimeofday] <|
      report_and_exit (load_start dst) env.end_time (load_size dst)
        [.call .free, .call .close]

/-- The parent branch of `main` (UDP sender); `src` is the source buffer.  The parent
waits for the child of the same run. -/
def parent (size : Int) (src : buf_data_t) (env : Env) : Run :=
  Run.pre [.call .signal, .await .SIGUSR1] <|
  if !env.sigusr1_received then { trace := [], status := none }
  else
  Run.pre [.call .socket] <|
  if !env.parent_socket_ok then
    { trace := [.stderr "Parent socket", .call .free], status := some EXIT_FAILURE }
  else
    let src := { src with start := env.start_time }
    Run.pre [.call .gettimeofday, .transmit .sendto (block_bytes size src)] <|
    Run.pre (if !env.sendto_ok then [.stderr "Parent sendto"] else []) <|
    Run.pre [.call .close] <|
    wait_then (child size env) { trace := [.call .free], status := some EXIT_SUCCESS }

/-- The function `main` of `udpmemcpy.c`. -/
def main (opts : List GetoptResult) (env : Env) : Outcome :=
  match parse_args opts 0 with
  | none => { parent := { trace := [.stderr usage_line], status := some EXIT_FAILURE },
              child := none }
  | some size =>
    if size ≤ 0 then
      { parent := { trace := [.stderr invalid_size_line], status := some EXIT_FAILURE },
        child := none }
    else
      match env.malloc_src with
      | none =>
        { parent := { trace := [.call .malloc, .stderr "malloc"], status := some EXIT_FAILURE },
          child := none }
      | some raw =>
        let src := build_src size raw
        if !env.fork_ok then
          { parent := { trace := [.call .malloc, .call .fork, .stderr "fork", .call .free],
                        status := some EXIT_FAILURE },
            child := none }
        else
          { parent := Run.pre [.call .malloc, .call .fork] (parent size src env),
            child := some (child size env) }

end udpmemcpy

/-! ## shmemcpy.c -/

namespace shmemcpy

/-- What the environment decides in a run of `shmemcpy`.  `region` is the content of the
shared region when the child reads it. -/
structure Env where
  malloc_src : Option buf_data_t
  shm_open_ok : Bool
  ftruncate_ok : Bool
  fork_ok : Bool
  child_shm_open_ok : Bool
  child_mmap_ok : Bool
  sigio_received : Bool
  region : List Nat
  end_time : timeval
  sigusr1_received : Bool
  parent_mmap_ok : Bool
  start_time : timeval

/-- The child branch of `main` (reader of the shared region). -/
def child (env : Env) : Run :=
  Run.pre [.call .signal, .call .shm_open] <|
  if !env.child_shm_open_ok then
    { trace := [.stderr "child shm_open"], status := some EXIT_FAILURE }
  else
  Run.pre [.call .mmap] <|
  if !env.child_mmap_ok then
    { trace := [.stderr "child mmap"], status := some EXIT_FAILURE }
  else
  Run.pre [.kill .SIGUSR1, .await Signal.SIGIO] <|
  if !env.sigio_received then { trace := [], status := none }
  else
    let dst := env.region
    Run.pre [.call .gettimeofday] <|
    report_and_exit (load_start dst) env.end_time (load_size dst)
      [.call .munmap, .call .close]

/-- The parent branch of `main` (writer of the shared region); `src` is the source
buffer.  The parent waits for the child of the same run. -/
def parent (size : Int) (src : buf_data_t) (env : Env) : Run :=
  Run.pre [.call .signal, .await .SIGUSR1] <|
  if !env.sigusr1_received then { trace := [], status := none }
  else
  Run.pre [.call .mmap] <|
  if !env.parent_mmap_ok then
    { trace := [.stderr "parent mmap", .call .shm_unlink, .call .free],
      status := some EXIT_FAILURE }
  else
    let src := { src with start := env.start_time }
    Run.pre [.call .gettimeofday, .transmit .memcpy (block_bytes size src),
             .kill Signal.SIGIO] <|
    wait_then (child env)
      { trace := [.call .munmap, .call .close, .call .shm_unlink, .call .free],
        status := some EXIT_SUCCESS }

/-- The function `main` of `shmemcpy.c`. -/
def main (opts : List GetoptResult) (env : Env) : Outcome :=
  match parse_args opts 0 with
  | none => { parent := { trace := [.stderr usage_line], status := some EXIT_FAILURE },
              child := none }
  | some size =>
    if size ≤ 0 then
      { parent := { trace := [.stderr invalid_size_line], status := some EXIT_FAILURE },
        child := none }
    else
      match env.malloc_src with
      | none =>
        { parent := { trace := [.call .malloc, .stderr "malloc"], status := some EXIT_FAILURE },
          child := none }
      | some raw =>
        let src := build_src size raw
        if !env.shm_open_ok then
          { parent := { trace := [.call .malloc, .call .shm_open, .stderr "shm_open",
                                  .call .free],
                        status := some EXIT_FAILURE },
            child := none }
        else if !env.ftruncate_ok then
          { parent := { trace := [.call .malloc, .call .shm_open, .call .ftruncate,
                                  .stderr "ftruncate", .call .shm_unlink, .call .free],
                        status := some EXIT_FAILURE },
            child := none }
        else if !env.fork_ok then
          { parent := { trace := [.call .malloc, .call .shm_open, .call .ftruncate,
                                  .call .fork, .stderr "fork", .call .shm_unlink, .call .free],
                        status := some EXIT_FAILURE },
            child := none }
        else
          { parent := Run.pre [.call .malloc, .call .shm_open, .call .ftruncate, .call .fork]
                        (parent size src env),
            child := some (child env) }

end shmemcpy

/-! ## zmqmemcpy.c -/

namespace zmqmemcpy

/-- What the environment decides in a run of `zmqmemcpy`.  `message` is the message
`zmq_recv` receives, `none` when it fails; `zmq_recv_returns` is false when no message ever
arrives and the child stays blocked in `zmq_recv`. -/
structure Env where
  malloc_src : Option buf_data_t
  fork_ok : Bool
  zmq_bind_ok : Bool
  malloc_recv_buf : Option (List Nat)
  message : Option (List Nat)
  end_time : timeval
  sigusr1_received : Bool
  zmq_connect_ok : Bool
  start_time : timeval
  malloc_payload_ok : Bool
  zmq_recv_returns : Bool := true

/-- The call `zmq_recv(receiver, recv_buf, max_recv, 0)`: the return value (the length of
the message, `-1` on failure) and the buffer, which takes at most `max_recv` bytes. -/
def zmq_recv (message : Option (List Nat)) (recv_buf : List Nat) (max_recv : Nat) :
    Int × List Nat :=
  match message with
  | none => (-1, recv_buf)
  | some m => ((m.length : Int), store recv_buf 0 (m.take max_recv))

/-- The payload the parent builds: `memcpy(payload, &src->start, sizeof(struct timeval));
memcpy(payload + sizeof(struct timeval), src->data, size);`. -/
def payload (size : Int) (src : buf_data_t) : List Nat :=
  src.start.bytes ++ src.data.take size.toNat

/-- What the child takes from a received message: the return value of `zmq_recv` must be
at least `sizeof(struct timeval)`; the start time stamp is copied from the head of
`recv_buf`, the size is the child's own `size`, and the data are the bytes of `recv_buf`
after the time stamp (the child does not read them). -/
def child_decode (size : Int) (recv_buf : List Nat) (message : Option (List Nat)) :
    Option (Int × timeval × List Nat) :=
  let max_recv := size_t_of_int (sizeof_timeval + size)
  let r := zmq_recv message recv_buf max_recv
  if r.1 < (sizeof_timeval : Int) then none
  else some (size, timeval.of_bytes (r.2.take sizeof_timeval), r.2.drop sizeof_timeval)

/-- The child branch of `main` (receiver).  The branch runs with `size > 0`, so that
`size.toNat` is the value of `size` in `size / elapsed`. -/
def child (size : Int) (env : Env) : Run :=
  Run.pre [.call .zmq_ctx_new, .call .zmq_socket, .call .zmq_bind] <|
  if !env.zmq_bind_ok then { trace := [.stderr "zmq_bind"], status := some EXIT_FAILURE }
  else
  Run.pre [.kill .SIGUSR1, .call .malloc] <|
  match env.malloc_recv_buf with
  | none => { trace := [.stderr "malloc"], status := some EXIT_FAILURE }
  | some recv_buf =>
    Run.pre [.call .zmq_recv] <|
    if !env.zmq_recv_returns then { trace := [], status := none }
    else
    match child_decode size recv_buf env.message with
    | none =>
      { trace := [.stderr "[Child] Incomplete data received"], status := some EXIT_FAILURE }
    | some (_, start, _) =>
      Run.pre [.call .gettimeofday] <|
      report_and_exit start env.end_time size.toNat
        [.call .free, .call .zmq_close, .call .zmq_ctx_term]

/-- The parent branch of `main` (sender); `src` is the source buffer.  The result of
`malloc(payload_size)` is not checked: with a null pointer the first `memcpy` kills the
process.  The parent waits for the child of the same run. -/
def parent (size : Int) (src : buf_data_t) (env : Env) : Run :=
  Run.pre [.call .signal, .await .SIGUSR1] <|
  if !env.sigusr1_received then { trace := [], status := none }
  else
  Run.pre [.call .zmq_ctx_new, .call .zmq_socket, .call .zmq_connect] <|
  if !env.zmq_connect_ok then
    { trace := [.stderr "zmq_connect", .call .free], status := some EXIT_FAILURE }
  else
    let src := { src with start := env.start_time }
    Run.pre [.call .gettimeofday, .call .malloc] <|
    if !env.malloc_payload_ok then { trace := [], status := none }
    else
      Run.pre [.transmit .zmq_send (payload size src), .call .free, .call .zmq_close,
               .call .zmq_ctx_term, .call .free] <|
      wait_then (child size env) { trace := [], status := some EXIT_SUCCESS }

/-- The function `main` of `zmqmemcpy.c`. -/
def main (opts : List GetoptResult) (env : Env) : Outcome :=
  match parse_args opts 0 with
  | none => { parent := { trace := [.stderr usage_line], status := some EXIT_FAILURE },
              child := none }
  | some size =>
    if size ≤ 0 then
      { parent := { trace := [.stderr invalid_size_line], status := some EXIT_FAILURE },
        child := none }
    else
      match env.malloc_src with
      | none =>
        { parent := { trace := [.call .malloc, .stderr "malloc"], status := some EXIT_FAILURE },
          child := none }
      | some raw =>
        let src := build_src size raw
        if !env.fork_ok then
          { parent := { trace := [.call .malloc, .call .fork, .stderr "fork", .call .free],
                        status := some EXIT_FAILURE },
            child := none }
        else
          { parent := Run.pre [.call .malloc, .call .fork] (parent size src env),
            child := some (child size env) }

end zmqmemcpy

/-! ## dbusmemcpy.c -/

namespace dbusmemcpy

/-- The name used as service name, interface name and (with slashes) object path. -/
def transfer_interface : String := "org.example.DBusTransfer"

/-- The method name. -/
def transfer_member : String := "TransferData"

/-- The library function `dbus_message_is_method_call(msg, interface, method)`. -/
def dbus_message_is_method_call (msg : DBusMessage) (interface method : String) : Bool :=
  msg.method_call && msg.interface == interface && msg.member == method

/-- What the environment decides in a run of `dbusmemcpy`.  `incoming` lists what the
successive calls of `dbus_connection_pop_message` return (`none` for a null pointer);
after the last entry no message arrives any more. -/
structure Env where
  malloc_src : Option buf_data_t
  fork_ok : Bool
  child_bus_get_ok : Bool
  request_name_ok : Bool
  incoming : List (Option DBusMessage)
  end_time : timeval
  sigusr1_received : Bool
  parent_bus_get_ok : Bool
  new_method_call_ok : Bool
  start_time : timeval
  malloc_payload_ok : Bool
  send_ok : Bool

/-- The payload the parent builds: `memcpy(payload, &src->start, sizeof(struct timeval));
memcpy(payload + sizeof(struct timeval), src->data, size);`. -/
def payload (size : Int) (src : buf_data_t) : List Nat :=
  src.start.bytes ++ src.data.take size.toNat

/-- The message the parent sends: the method call `TransferData` with the arguments
`src->size` (a `uint32`) and the payload (an array of bytes). -/
def parent_message (size : Int) (src : buf_data_t) : DBusMessage :=
  { method_call := true, interface := transfer_interface, member := transfer_member,
    args := [.uint32 src.size, .byte_array (payload size src)] }

/-- What the child takes from the arguments of a `TransferData` call: the first argument
must be a `uint32` (`received_size`), the second an array, of whatever element type, with
at least `sizeof(struct timeval)` elements (`array_len` counts elements); the start time
stamp is copied from the first 16 bytes of the array, and the data are the bytes of the
array after it (the child does not read them).  The error is the line the child prints. -/
def child_decode (msg : DBusMessage) : Except String (Nat × timeval × List Nat) :=
  match msg.args with
  | .uint32 received_size :: more =>
    match more with
    | .byte_array data :: _ =>
      if data.length < sizeof_timeval then .error "Child: Incomplete timing info"
      else .ok (received_size, timeval.of_bytes (data.take sizeof_timeval),
                data.drop sizeof_timeval)
    | .fixed_array count raw :: _ =>
      if count < sizeof_timeval then .error "Child: Incomplete timing info"
      else .ok (received_size, timeval.of_bytes (raw.take sizeof_timeval),
                raw.drop sizeof_timeval)
    | _ => .error "Child: Expected byte array"
  | _ => .error "Child: Expected uint32_t"

/-- The message loop of the child, `while (1) { ... }`, over the messages still to come.
A message that is not a `TransferData` call is dropped; one that does not decode is
dropped after an error line (`continue`); the first one that decodes is reported and ends
the loop (`break`), after which the child exits successfully. -/
def child_loop (end_time : timeval) : List (Option DBusMessage) → Run
  | [] => { trace := [], status := none }
  | none :: rest =>
    Run.pre [.call .dbus_connection_read_write, .call .dbus_connection_pop_message]
      (child_loop end_time rest)
  | some msg :: rest =>
    Run.pre [.call .dbus_connection_read_write, .call .dbus_connection_pop_message] <|
    if dbus_message_is_method_call msg transfer_interface transfer_member then
      match child_decode msg with
      | .error line =>
        Run.pre [.stderr line, .call .dbus_message_unref] (child_loop end_time rest)
      | .ok (received_size, start, _) =>
        Run.pre [.call .gettimeofday] <|
        report_and_exit start end_time received_size
          [.call .dbus_message_unref, .call .dbus_connection_unref]
    else Run.pre [.call .dbus_message_unref] (child_loop end_time rest)

/-- The child branch of `main` (D-Bus server). -/
def child (env : Env) : Run :=
  Run.pre [.call .dbus_bus_get] <|
  if !env.child_bus_get_ok then
    { trace := [.stderr "Failed to connect to the D-Bus session bus: %s"],
      status := some EXIT_FAILURE }
  else
  Run.pre [.call .dbus_bus_request_name] <|
  if !env.request_name_ok then
    { trace := [.stderr "Failed to request name on D-Bus: %s", .call .dbus_connection_unref],
      status := some EXIT_FAILURE }
  else
  Run.pre [.kill .SIGUSR1] (child_loop env.end_time env.incoming)

/-- The parent branch of `main` (D-Bus client); `src` is the source buffer.  The parent
waits for the child of the same run. -/
def parent (size : Int) (src : buf_data_t) (env : Env) : Run :=
  Run.pre [.call .signal, .await .SIGUSR1] <|
  if !env.sigusr1_received then { trace := [], status := none }
  else
  Run.pre [.call .dbus_bus_get] <|
  if !env.parent_bus_get_ok then
    { trace := [.stderr "Parent: D-Bus connection failed: %s", .call .free],
      status := some EXIT_FAILURE }
  else
  Run.pre [.call .dbus_message_new_method_call] <|
  if !env.new_method_call_ok then
    { trace := [.stderr "Parent: Failed to create message", .call .dbus_connection_unref,
                .call .free],
      status := some EXIT_FAILURE }
  else
    let src := { src with start := env.start_time }
    Run.pre [.call .gettimeofday, .call .malloc] <|
    if !env.malloc_payload_ok then
      { trace := [.stderr "malloc", .call .dbus_message_unref, .call .dbus_connection_unref,
                  .call .free],
        status := some EXIT_FAILURE }
    else
      Run.pre [.dbus_send (parent_message size src)] <|
      Run.pre (if !env.send_ok then [.stderr "Parent: Failed to send message"] else []) <|
      Run.pre [.call .dbus_connection_flush, .call .dbus_message_unref,
               .call .dbus_connection_unref, .call .free, .call .free] <|
      wait_then (child env) { trace := [], status := some EXIT_SUCCESS }

/-- The function `main` of `dbusmemcpy.c`. -/
def main (opts : List GetoptResult) (env : Env) : Outcome :=
  match parse_args opts 0 with
  | none => { parent := { trace := [.stderr usage_line], status := some EXIT_FAILURE },
              child := none }
  | some size =>
    if size ≤ 0 then
      { parent := { trace := [.stderr invalid_size_line], status := some EXIT_FAILURE },
        child := none }
    else
      match env.malloc_src with
      | none =>
        { parent := { trace := [.call .malloc, .stderr "malloc"], status := some EXIT_FAILURE },
          child := none }
      | some raw =>
        let src := build_src size raw
        if !env.fork_ok then
          { parent := { trace := [.call .malloc, .call .fork, .stderr "fork", .call .free],
                        status := some EXIT_FAILURE },
            child := none }
        else
          { parent := Run.pre [.call .malloc, .call .fork] (parent size src env),
            child := some (child env) }

end dbusmemcpy

/-! ## The two processes of a run and their signals -/

/-- The two processes of a run. -/
inductive Proc where
  | parent
  | child
  deriving DecidableEq, Repr

/-- The other process. -/
def Proc.other : Proc → Proc
  | .parent => .child
  | .child => .parent

/-- The events of process `p` in a schedule, in order.  A schedule lists the events of
the two processes in the order in which they happen. -/
def events_of (p : Proc) (sched : List (Proc × Event)) : List Event :=
  (sched.filter (fun x => x.1 = p)).map Prod.snd

/-- The rules a schedule obeys, `seen` being the part that has happened already.  The
child exists only once the parent has called `fork`.  The flag that a wait loop
`while (!flag) pause();` tests is initially 0 and is set only by the handler of the signal,
which runs only when the other process has sent the signal with `kill` (no third process
sends signals): a process that has entered the wait loop for `s` (`await s`) performs its
next event only if the other process has sent `s` before. -/
def legal_from (seen : List (Proc × Event)) : List (Proc × Event) → Prop
  | [] => True
  | (p, e) :: rest =>
    (p = Proc.child → (Proc.parent, Event.call .fork) ∈ seen) ∧
    (∀ s, (p, Event.await s) ∈ seen → (p.other, Event.kill s) ∈ seen) ∧
    legal_from (seen ++ [(p, e)]) rest

/-- The list `sched` is a schedule of the run, or of an initial part of the run, in which
the parent has the trace `parent_trace` and the child the trace `child_trace`: each
process performs the events of its trace in order, and the rules of `legal_from` hold. -/
def is_schedule (parent_trace child_trace : List Event) (sched : List (Proc × Event)) :
    Prop :=
  events_of .parent sched <+: parent_trace ∧ events_of .child sched <+: child_trace ∧
  legal_from [] sched

/-- In the part `a` of a schedule the readiness handshake has taken place: the child has
performed the calls `binds` and after them has sent the readiness signal, and the parent
has entered its wait loop. -/
def handshake_done (binds : List Event) (a : List (Proc × Event)) : Prop :=
  (Proc.parent, Event.await .SIGUSR1) ∈ a ∧
  ∃ a1 a2, a = a1 ++ (Proc.child, Event.kill .SIGUSR1) :: a2 ∧
    ∀ b ∈ binds, (Proc.child, b) ∈ a1

/-- The order of the shared-memory transfer as the specification states it, for the part
`a` of a schedule: the child maps the region (bind), then sends the readiness signal, then
the parent copies `block` into the region (write), then sends the completion signal. -/
def follows_total_order (block : List Nat) (a : List (Proc × Event)) : Prop :=
  ∃ s0 s1 s2 s3 s4,
    a = s0 ++ (Proc.child, Event.call .mmap) :: (s1 ++ (Proc.child, Event.kill .SIGUSR1) ::
      (s2 ++ (Proc.parent, Event.transmit .memcpy block) ::
        (s3 ++ (Proc.parent, Event.kill Signal.SIGIO) :: s4)))

/-- The event is a step of the initiator that the handshake is to precede: creation of its
socket or context, connect, map, bus connection, message set-up, taking of the start time
stamp, or the send. -/
def Event.is_initiator_step : Event → Bool
  | .call c =>
    c = .socket || c = .connect || c = .mmap || c = .gettimeofday || c = .zmq_ctx_new
      || c = .zmq_socket || c = .zmq_connect || c = .dbus_bus_get
      || c = .dbus_message_new_method_call
  | .transmit _ _ => true
  | .dbus_send _ => true
  | _ => false

/-- The event is an access of the shared-memory child to the mapped region: the store of
the end time stamp (`gettimeofday(&dst->end, NULL)`) or the read of `dst->start` and
`dst->size` for the result. -/
def Event.is_region_access : Event → Bool
  | .call c => c = .gettimeofday
  | .stdout_result _ => true
  | _ => false

/-! ## Environments in which every call succeeds -/

/-- A zero-filled block whose data area has `n` bytes. -/
def zero_block (n : Nat) : buf_data_t :=
  { start := ⟨0, 0⟩, end_ := ⟨0, 0⟩, size := 0, data := List.replicate n 0 }

/-- The block the parent transmits when `malloc` returns zero-filled memory. -/
def sent_block (size : Int) (start : timeval) : List Nat :=
  block_bytes size (stamped_src size (zero_block (size.toNat + 4)) start)

/-- A run of `tcpmemcpy` in which every call succeeds: the parent stamps `start`, one
`write` accepts and one `read` delivers the whole block, the child stamps `end_`. -/
def tcpmemcpy.env_ok (size : Int) (start end_ : timeval) : tcpmemcpy.Env :=
  { malloc_src := some (zero_block (size.toNat + 4)), fork_ok := true,
    child_socket_ok := true, bind_ok := true, listen_ok := true, accept_ok := true,
    malloc_dst := some (List.replicate (40 + size.toNat) 0),
    reads := fun _ => { res := 40 + size, data := sent_block size start },
    end_time := end_, sigusr1_received := true, parent_socket_ok := true, connect_ok := true,
    start_time := start, writes := fun _ => 40 + size }

/-- A run of `udpmemcpy` in which every call succeeds and the datagram received is the
block sent. -/
def udpmemcpy.env_ok (size : Int) (start end_ : timeval) : udpmemcpy.Env :=
  { malloc_src := some (zero_block (size.toNat + 4)), fork_ok := true,
    child_socket_ok := true, bind_ok := true,
    malloc_dst := some (List.replicate (40 + size.toNat) 0),
    datagram := some (sent_block size start), end_time := end_, sigusr1_received := true,
    parent_socket_ok := true, start_time := start, sendto_ok := true }

/-- A run of `shmemcpy` in which every call succeeds and the child finds in the region the
block the parent copied. -/
def shmemcpy.env_ok (size : Int) (start end_ : timeval) : shmemcpy.Env :=
  { malloc_src := some (zero_block (size.toNat + 4)), shm_open_ok := true,
    ftruncate_ok := true, fork_ok := true, child_shm_open_ok := true, child_mmap_ok := true,
    sigio_received := true, region := sent_block size start, end_time := end_,
    sigusr1_received := true, parent_mmap_ok := true, start_time := start }

/-- A run of `zmqmemcpy` in which every call succeeds and the message received is the
payload sent. -/
def zmqmemcpy.env_ok (size : Int) (start end_ : timeval) : zmqmemcpy.Env :=
  { malloc_src := some (zero_block (size.toNat + 4)), fork_ok := true, zmq_bind_ok := true,
    malloc_recv_buf := some (List.replicate (16 + size.toNat) 0),
    message := some (zmqmemcpy.payload size
      (stamped_src size (zero_block (size.toNat + 4)) start)),
    end_time := end_, sigusr1_received := true, zmq_connect_ok := true, start_time := start,
    malloc_payload_ok := true }

/-- A run of `dbusmemcpy` in which every call succeeds and the first message the child
pops is the one the parent sent. -/
def dbusmemcpy.env_ok (size : Int) (start end_ : timeval) : dbusmemcpy.Env :=
  { malloc_src := some (zero_block (size.toNat + 4)), fork_ok := true,
    child_bus_get_ok := true, request_name_ok := true,
    incoming := [some (dbusmemcpy.parent_message size
      (stamped_src size (zero_block (size.toNat + 4)) start))],
    end_time := end_, sigusr1_received := true, parent_bus_get_ok := true,
    new_method_call_ok := true, start_time := start, malloc_payload_ok := true,
    send_ok := true }

/-- Reads that deliver the four bytes 1, 2, 3, 4 in two pieces and then report the end of
the stream. -/
def tcpmemcpy.two_reads : Nat → tcpmemcpy.ReadOutcome
  | 0 => { res := 3, data := [1, 2, 3] }
  | 1 => { res := 1, data := [4] }
  | _ => { res := 0, data := [] }

/-- Writes that accept three bytes, then one byte, and then refuse with `-1`. -/
def tcpmemcpy.two_writes : Nat → Int
  | 0 => 3
  | 1 => 1
  | _ => -1

/-- The line the TCP parent prints when `full_write` does not return `total_size`. -/
def tcpmemcpy.short_write_line : String := "Parent: Failed to send complete buffer"

/-- A run of `tcpmemcpy --size 1` in which the handshake, `socket` and `connect` succeed,
the first `write` of the parent fails with `-1`, and the child then reads the end of the
stream. -/
def tcpmemcpy.env_write_fails : tcpmemcpy.Env :=
  { tcpmemcpy.env_ok 1 ⟨10, 900000⟩ ⟨11, 100000⟩ with
    writes := fun _ => -1
    reads := fun _ => { res := 0, data := [] } }

/-- A run of `tcpmemcpy --size 1` in which every call of the parent succeeds and the
`malloc` of the child fails. -/
def tcpmemcpy.env_child_malloc_fails : tcpmemcpy.Env :=
  { tcpmemcpy.env_ok 1 ⟨10, 900000⟩ ⟨11, 100000⟩ with malloc_dst := none }

/-- A run of `tcpmemcpy --size 1` in which the child fails to allocate its buffer and exits,
which closes the connection, and the first `write` of the parent then raises SIGPIPE. -/
def tcpmemcpy.env_sigpipe : tcpmemcpy.Env :=
  { tcpmemcpy.env_ok 1 ⟨10, 900000⟩ ⟨11, 100000⟩ with
    malloc_dst := none
    sigpipe_at := some 0 }

/-- A run of `udpmemcpy --size 1` in which the handshake and `socket` succeed, the `sendto`
of the parent fails and the child, to which no datagram is sent, stays blocked in
`recvfrom`. -/
def udpmemcpy.env_sendto_fails : udpmemcpy.Env :=
  { udpmemcpy.env_ok 1 ⟨10, 900000⟩ ⟨11, 100000⟩ with
    sendto_ok := false
    recvfrom_returns := false }

/-- The opening of a run of `tcpmemcpy` up to the `socket` call of the parent: the parent
forks, installs its handler and waits; the child creates its socket, binds, listens and
sends the readiness signal; the parent creates its socket. -/
def tcpmemcpy.handshake_schedule : List (Proc × Event) :=
  [(.parent, .call .malloc), (.parent, .call .fork), (.parent, .call .signal),
   (.parent, .await .SIGUSR1), (.child, .call .socket), (.child, .call .setsockopt),
   (.child, .call .bind), (.child, .call .listen), (.child, .kill .SIGUSR1),
   (.parent, .call .socket)]

/-- A run of `shmemcpy` up to the first access of the child to the region: the parent
creates the object and forks; the child maps the region and sends the readiness signal;
the parent maps, stamps and copies the buffer and sends the completion signal; the child
stores the end time stamp. -/
def shmemcpy.transfer_schedule (size : Int) (start : timeval) : List (Proc × Event) :=
  [(.parent, .call .malloc), (.parent, .call .shm_open), (.parent, .call .ftruncate),
   (.parent, .call .fork), (.parent, .call .signal), (.parent, .await .SIGUSR1),
   (.child, .call .signal), (.child, .call .shm_open), (.child, .call .mmap),
   (.child, .kill .SIGUSR1), (.child, .await Signal.SIGIO), (.parent, .call .mmap),
   (.parent, .call .gettimeofday), (.parent, .transmit .memcpy (sent_block size start)),
   (.parent, .kill Signal.SIGIO)]

/-- A `TransferData` call that declares 100 bytes while its array holds the time stamp
(10, 900000) and no data byte at all. -/
def dbusmemcpy.mismatched_message : DBusMessage :=
  { method_call := true, interface := dbusmemcpy.transfer_interface,
    member := dbusmemcpy.transfer_member,
    args := [.uint32 100, .byte_array (timeval.bytes ⟨10, 900000⟩)] }

/-- A run of `dbusmemcpy` in which every call succeeds and the child pops
`mismatched_message`. -/
def dbusmemcpy.env_mismatched : dbusmemcpy.Env :=
  { dbusmemcpy.env_ok 1 ⟨10, 900000⟩ ⟨11, 100000⟩ with
    incoming := [some dbusmemcpy.mismatched_message] }

/-! # Theorems -/

/-! ## Machine arithmetic -/

/-- A value in the range of `long` is kept by `wrap_long`. -/
theorem wrap_long_of_range (x : Int) (hlo : LONG_MIN ≤ x) (hhi : x ≤ LONG_MAX) :
    wrap_long x = x := by
  unfold wrap_long
  unfold LONG_MIN at hlo
  unfold LONG_MAX at hhi
  omega

/-- The result of `wrap_long` is in the range of `long`. -/
theorem wrap_long_range (x : Int) : LONG_MIN ≤ wrap_long x ∧ wrap_long x ≤ LONG_MAX := by
  unfold wrap_long LONG_MIN LONG_MAX
  omega

/-- The value of `round_half_even` is the floor or the floor plus one, whichever is within
one half. -/
theorem round_half_even_cases (x : ℚ) :
    round_half_even x = ⌊x⌋ ∧ x - ⌊x⌋ ≤ 1 / 2 ∨
      round_half_even x = ⌊x⌋ + 1 ∧ 1 / 2 ≤ x - ⌊x⌋ := by
  unfold round_half_even
  split_ifs with h1 h2 h3
  · left; exact ⟨rfl, le_of_lt h1⟩
  · right; exact ⟨rfl, le_of_lt h2⟩
  · left; exact ⟨rfl, not_lt.mp h2⟩
  · right; exact ⟨rfl, not_lt.mp h1⟩

/-- Rounding to the nearest integer moves a value by at most one half. -/
theorem round_half_even_abs_sub (x : ℚ) : |(round_half_even x : ℚ) - x| ≤ 1 / 2 := by
  have hf := Int.floor_le x
  have hl := Int.lt_floor_add_one x
  rw [abs_le]
  rcases round_half_even_cases x with ⟨h, hr⟩ | ⟨h, hr⟩
  · rw [h]
    constructor <;> linarith
  · rw [h]
    push_cast
    constructor <;> linarith

/-- An integer less than one half away from `x` is the value of `round_half_even`. -/
theorem round_half_even_eq (x : ℚ) (m : Int) (h : |x - m| < 1 / 2) :
    round_half_even x = m := by
  have h1 := round_half_even_abs_sub x
  rw [abs_lt] at h
  rw [abs_le] at h1
  have h2 : ((round_half_even x - m : Int) : ℚ) < 1 := by
    push_cast
    linarith
  have h3 : (-1 : ℚ) < ((round_half_even x - m : Int) : ℚ) := by
    push_cast
    linarith
  have h4 : round_half_even x - m < 1 := by exact_mod_cast h2
  have h5 : -1 < round_half_even x - m := by exact_mod_cast h3
  omega

/-- An integer is its own rounding. -/
theorem round_half_even_intCast (n : Int) : round_half_even (n : ℚ) = n :=
  round_half_even_eq _ n (by simp)

/-- Rounding to the nearest integer does not go below an integer lower bound. -/
theorem le_round_half_even (x : ℚ) (n : Int) (h : (n : ℚ) ≤ x) : n ≤ round_half_even x := by
  have hn : n ≤ ⌊x⌋ := Int.le_floor.mpr h
  rcases round_half_even_cases x with ⟨h1, _⟩ | ⟨h1, _⟩ <;> omega

/-- Rounding to the nearest integer does not go above an integer upper bound. -/
theorem round_half_even_le (x : ℚ) (n : Int) (h : x ≤ (n : ℚ)) : round_half_even x ≤ n := by
  rcases lt_or_eq_of_le h with hlt | heq
  · have hn : ⌊x⌋ < n := Int.floor_lt.mpr hlt
    rcases round_half_even_cases x with ⟨h1, _⟩ | ⟨h1, _⟩ <;> omega
  · rw [heq, round_half_even_intCast]

/-- A power of two is positive. -/
theorem two_zpow_pos (e : Int) : (0 : ℚ) < 2 ^ e := zpow_pos (by norm_num) e

/-- Zero is a `double`. -/
theorem round_double_zero : round_double 0 = 0 := by simp [round_double]

/-- Rounding keeps a non-negative value non-negative. -/
theorem round_double_nonneg (q : ℚ) (h : 0 ≤ q) : 0 ≤ round_double q := by
  unfold round_double
  split_ifs with h0
  · exact le_refl 0
  · have hp := two_zpow_pos (ulp_exponent |q|)
    have hx : ((0 : Int) : ℚ) ≤ q / 2 ^ ulp_exponent |q| := by
      push_cast
      positivity
    have := le_round_half_even _ 0 hx
    have h2 : (0 : ℚ) ≤ (round_half_even (q / 2 ^ ulp_exponent |q|) : ℚ) := by
      exact_mod_cast this
    positivity

/-- Rounding keeps a non-positive value non-positive. -/
theorem round_double_nonpos (q : ℚ) (h : q ≤ 0) : round_double q ≤ 0 := by
  unfold round_double
  split_ifs with h0
  · exact le_refl 0
  · have hp := two_zpow_pos (ulp_exponent |q|)
    have hx : q / 2 ^ ulp_exponent |q| ≤ ((0 : Int) : ℚ) := by
      push_cast
      exact div_nonpos_of_nonpos_of_nonneg h (le_of_lt hp)
    have := round_half_even_le _ 0 hx
    have h2 : (round_half_even (q / 2 ^ ulp_exponent |q|) : ℚ) ≤ 0 := by exact_mod_cast this
    exact mul_nonpos_of_nonpos_of_nonneg h2 (le_of_lt hp)

/-- The rounding error is at most half a unit in the last place. -/
theorem round_double_abs_sub (q : ℚ) :
    |round_double q - q| ≤ 2 ^ ulp_exponent |q| / 2 := by
  have hp := two_zpow_pos (ulp_exponent |q|)
  unfold round_double
  split_ifs with h0
  · subst h0
    simp only [sub_self, abs_zero]
    positivity
  · have h1 := round_half_even_abs_sub (q / 2 ^ ulp_exponent |q|)
    have h2 : (round_half_even (q / 2 ^ ulp_exponent |q|) : ℚ) * 2 ^ ulp_exponent |q| - q
        = ((round_half_even (q / 2 ^ ulp_exponent |q|) : ℚ) - q / 2 ^ ulp_exponent |q|)
            * 2 ^ ulp_exponent |q| := by
      field_simp
    rw [h2, abs_mul, abs_of_pos hp]
    have h3 := mul_le_mul_of_nonneg_right h1 (le_of_lt hp)
    linarith

/-- The binary logarithm of a value between two consecutive powers of two. -/
theorem log_two_of_bounds (a : ℚ) (L : Int) (h1 : 2 ^ L ≤ a) (h2 : a < 2 ^ (L + 1)) :
    Int.log 2 a = L := by
  have ha : 0 < a := lt_of_lt_of_le (two_zpow_pos L) h1
  have h3 : L ≤ Int.log 2 a := by
    rw [← Int.zpow_le_iff_le_log (by norm_num) ha]
    simpa using h1
  have h4 : Int.log 2 a < L + 1 := by
    rw [← Int.lt_zpow_iff_log_lt (by norm_num) ha]
    simpa using h2
  omega

/-- A positive value is at least the power of two of its binary logarithm. -/
theorem two_zpow_log_le (a : ℚ) (ha : 0 < a) : (2 : ℚ) ^ Int.log 2 a ≤ a := by
  have := Int.zpow_log_le_self (b := 2) (r := a) (by norm_num) ha
  simpa using this

/-- A value is below the next power of two after its binary logarithm. -/
theorem lt_two_zpow_log_succ (a : ℚ) : a < (2 : ℚ) ^ (Int.log 2 a + 1) := by
  have := Int.lt_zpow_succ_log_self (b := 2) (by norm_num) a
  simpa using this

/-- The binary logarithm of a value that is at least `2^k` is at least `k`. -/
theorem le_log_two (a : ℚ) (k : Int) (h : 2 ^ k ≤ a) : k ≤ Int.log 2 a := by
  have ha : 0 < a := lt_of_lt_of_le (two_zpow_pos k) h
  rw [← Int.zpow_le_iff_le_log (by norm_num) ha]
  simpa using h

/-- In the normal range the relative rounding error is at most `2^-53`. -/
theorem round_double_rel_error (q : ℚ) (h : 2 ^ (-1022 : Int) ≤ |q|) :
    |round_double q - q| ≤ |q| / 2 ^ 53 := by
  have ha : 0 < |q| := lt_of_lt_of_le (two_zpow_pos _) h
  have hL := le_log_two |q| (-1022) h
  have h1 := round_double_abs_sub q
  have he : ulp_exponent |q| = Int.log 2 |q| - 52 := by
    unfold ulp_exponent
    rw [max_eq_left hL]
  rw [he] at h1
  have h2 := two_zpow_log_le |q| ha
  have h3 : (2 : ℚ) ^ (Int.log 2 |q| - 52) / 2 = 2 ^ Int.log 2 |q| / 2 ^ 53 := by
    rw [zpow_sub₀ (by norm_num)]
    norm_num
    ring
  rw [h3] at h1
  calc _ ≤ (2 : ℚ) ^ Int.log 2 |q| / 2 ^ 53 := h1
    _ ≤ |q| / 2 ^ 53 := by
      apply div_le_div_of_nonneg_right h2
      positivity

/-- The rounding error of any value is at most the relative error `2^-53` plus half the
spacing `2^-1074` of the subnormal values. -/
theorem round_double_error (q : ℚ) :
    |round_double q - q| ≤ |q| / 2 ^ 53 + 2 ^ (-1075 : Int) := by
  have hp := two_zpow_pos (-1075)
  by_cases hq : q = 0
  · subst hq
    rw [round_double_zero]
    simp only [sub_self, abs_zero, zero_div, zero_add]
    exact le_of_lt hp
  by_cases h : 2 ^ (-1022 : Int) ≤ |q|
  · have := round_double_rel_error q h
    exact le_trans this (le_add_of_nonneg_right (le_of_lt hp))
  · have h1 := round_double_abs_sub q
    have hlog : Int.log 2 |q| ≤ -1022 := by
      by_contra hc
      have hc1 : (-1022 : Int) ≤ Int.log 2 |q| := by omega
      have ha : 0 < |q| := abs_pos.mpr hq
      have h3 := two_zpow_log_le |q| ha
      have h4 : (2 : ℚ) ^ (-1022 : Int) ≤ 2 ^ Int.log 2 |q| :=
        zpow_le_zpow_right₀ (by norm_num) hc1
      exact h (le_trans h4 h3)
    have he : ulp_exponent |q| = -1074 := by
      unfold ulp_exponent
      rw [max_eq_right hlog]
      norm_num
    rw [he] at h1
    have h5 : (2 : ℚ) ^ (-1074 : Int) / 2 = 2 ^ (-1075 : Int) := by
      rw [show (-1074 : Int) = -1075 + 1 by norm_num, zpow_add₀ (by norm_num)]
      norm_num
    rw [h5] at h1
    have : 0 ≤ |q| / 2 ^ 53 := by positivity
    exact le_trans h1 (le_add_of_nonneg_left this)

/-- Evaluation of the rounding: if `2^L <= |q| < 2^(L+1)` with `L >= -1022` and `m` is the
integer nearest to `q / 2^(L-52)`, the result is `m * 2^(L-52)`. -/
theorem round_double_eq (q : ℚ) (L m : Int) (h1 : 2 ^ L ≤ |q|) (h2 : |q| < 2 ^ (L + 1))
    (hL : -1022 ≤ L) (hm : |q / 2 ^ (L - 52) - m| < 1 / 2) :
    round_double q = (m : ℚ) * 2 ^ (L - 52) := by
  have ha : 0 < |q| := lt_of_lt_of_le (two_zpow_pos _) h1
  have hq : q ≠ 0 := abs_pos.mp ha
  have hlog := log_two_of_bounds |q| L h1 h2
  have he : ulp_exponent |q| = L - 52 := by
    unfold ulp_exponent
    rw [hlog, max_eq_left hL]
  unfold round_double
  rw [if_neg hq, he, round_half_even_eq _ m hm]

/-- The magnitude of a rounded value is at most twice that of the exact value, plus one. -/
theorem round_double_abs_le (q : ℚ) : |round_double q| ≤ 2 * |q| + 1 := by
  have h1 := round_double_error q
  have h2 : (2 : ℚ) ^ (-1075 : Int) ≤ 1 := zpow_le_one_of_nonpos₀ (by norm_num) (by norm_num)
  have h3 : |q| / 2 ^ 53 ≤ |q| := div_le_self (abs_nonneg q) (by norm_num)
  have h4 : |round_double q| ≤ |round_double q - q| + |q| := by
    have := abs_add (round_double q - q) q
    simpa using this
  linarith

/-! ## Elapsed time and throughput -/

/-- When the difference of the seconds fields and the borrow do not leave the range of
`long`, the borrow step leaves the microsecond part in `[0, 1000000)` and keeps the
total. -/
theorem elapsed_sec_usec_spec (start end_ : timeval)
    (hs : 0 ≤ start.tv_usec ∧ start.tv_usec < 1000000)
    (he : 0 ≤ end_.tv_usec ∧ end_.tv_usec < 1000000)
    (hd : LONG_MIN < end_.tv_sec - start.tv_sec ∧ end_.tv_sec - start.tv_sec ≤ LONG_MAX) :
    0 ≤ (elapsed_sec_usec start end_).2 ∧ (elapsed_sec_usec start end_).2 < 1000000 ∧
      (elapsed_sec_usec start end_).1 * 1000000 + (elapsed_sec_usec start end_).2
        = end_.micros - start.micros := by
  have h1 : wrap_long (end_.tv_sec - start.tv_sec) = end_.tv_sec - start.tv_sec :=
    wrap_long_of_range _ (le_of_lt hd.1) hd.2
  have h2 : wrap_long (end_.tv_usec - start.tv_usec) = end_.tv_usec - start.tv_usec :=
    wrap_long_of_range _ (by unfold LONG_MIN; omega) (by unfold LONG_MAX; omega)
  have h3 : wrap_long (end_.tv_sec - start.tv_sec - 1) = end_.tv_sec - start.tv_sec - 1 :=
    wrap_long_of_range _ (by have := hd.1; omega) (by have := hd.2; omega)
  unfold elapsed_sec_usec timeval.micros
  simp only [h1, h2]
  by_cases h : end_.tv_usec - start.tv_usec < 0
  · have h4 : wrap_long (end_.tv_usec - start.tv_usec + 1000000)
        = end_.tv_usec - start.tv_usec + 1000000 :=
      wrap_long_of_range _ (by unfold LONG_MIN; omega) (by unfold LONG_MAX; omega)
    simp only [h, if_true, h3, h4]
    refine ⟨by omega, by omega, by ring⟩
  · simp only [h, if_false]
    refine ⟨by omega, by omega, by ring⟩

/-- With time stamps as `gettimeofday` yields them (seconds non-negative and representable,
microseconds in `[0, 1000000)`) no operation of the elapsed-time computation wraps
around: `sec` and `usec` are the exact differences, after the borrow. -/
theorem elapsed_in_long_range (start end_ : timeval)
    (hs : 0 ≤ start.tv_sec ∧ start.tv_sec ≤ LONG_MAX)
    (he : 0 ≤ end_.tv_sec ∧ end_.tv_sec ≤ LONG_MAX)
    (hsu : 0 ≤ start.tv_usec ∧ start.tv_usec < 1000000)
    (heu : 0 ≤ end_.tv_usec ∧ end_.tv_usec < 1000000) :
    (LONG_MIN < end_.tv_sec - start.tv_sec ∧ end_.tv_sec - start.tv_sec ≤ LONG_MAX) ∧
    (elapsed_sec_usec start end_).1 * 1000000 + (elapsed_sec_usec start end_).2
      = end_.micros - start.micros := by
  have hd : LONG_MIN < end_.tv_sec - start.tv_sec ∧ end_.tv_sec - start.tv_sec ≤ LONG_MAX := by
    unfold LONG_MIN LONG_MAX at *
    omega
  exact ⟨hd, (elapsed_sec_usec_spec start end_ hsu heu hd).2.2⟩

/-- The elapsed time the code computes is below `2^66` in magnitude, whatever the time
stamps: `sec` and `usec` are `long` values. -/
theorem elapsed_abs_le (start end_ : timeval) : |elapsed start end_| ≤ 2 ^ 66 := by
  have hb : ∀ x : Int, LONG_MIN ≤ x ∧ x ≤ LONG_MAX → |(x : ℚ)| ≤ 9223372036854775808 := by
    intro x hx
    unfold LONG_MIN LONG_MAX at hx
    rw [abs_le]
    constructor
    · have : (-9223372036854775808 : Int) ≤ x := hx.1
      exact_mod_cast this
    · have : x ≤ (9223372036854775808 : Int) := by omega
      exact_mod_cast this
  have hp : LONG_MIN ≤ (elapsed_sec_usec start end_).1 ∧ (elapsed_sec_usec start end_).1 ≤ LONG_MAX
      ∧ LONG_MIN ≤ (elapsed_sec_usec start end_).2 ∧ (elapsed_sec_usec start end_).2 ≤ LONG_MAX := by
    unfold elapsed_sec_usec
    dsimp only
    split_ifs
    · exact ⟨(wrap_long_range _).1, (wrap_long_range _).2, (wrap_long_range _).1,
        (wrap_long_range _).2⟩
    · exact ⟨(wrap_long_range _).1, (wrap_long_range _).2, (wrap_long_range _).1,
        (wrap_long_range _).2⟩
  unfold elapsed fadd double_of_int
  have hs := hb _ ⟨hp.1, hp.2.1⟩
  have hu := hb _ ⟨hp.2.2.1, hp.2.2.2⟩
  have r1 := round_double_abs_le ((elapsed_sec_usec start end_).1 : ℚ)
  have r2 := round_double_abs_le ((elapsed_sec_usec start end_).2 : ℚ)
  have r3 := round_double_abs_le
    (round_double ((elapsed_sec_usec start end_).2 : ℚ) / 1000000)
  have r4 := round_double_abs_le
    (round_double ((elapsed_sec_usec start end_).1 : ℚ)
      + round_double (round_double ((elapsed_sec_usec start end_).2 : ℚ) / 1000000))
  have a1 := abs_add (round_double ((elapsed_sec_usec start end_).1 : ℚ))
    (round_double (round_double ((elapsed_sec_usec start end_).2 : ℚ) / 1000000))
  have a2 : |round_double ((elapsed_sec_usec start end_).2 : ℚ) / 1000000|
      = |round_double ((elapsed_sec_usec start end_).2 : ℚ)| / 1000000 := by
    rw [abs_div]
    norm_num
  rw [a2] at r3
  generalize |round_double (round_double ((elapsed_sec_usec start end_).1 : ℚ)
      + round_double (round_double ((elapsed_sec_usec start end_).2 : ℚ) / 1000000))| = R at r4 ⊢
  generalize |round_double ((elapsed_sec_usec start end_).1 : ℚ)
      + round_double (round_double ((elapsed_sec_usec start end_).2 : ℚ) / 1000000)| = T at r4 a1
  generalize |round_double (round_double ((elapsed_sec_usec start end_).2 : ℚ) / 1000000)| = U
    at r3 a1
  generalize |round_double ((elapsed_sec_usec start end_).2 : ℚ)| = U0 at r2 r3
  generalize |round_double ((elapsed_sec_usec start end_).1 : ℚ)| = S at r1 a1
  generalize |((elapsed_sec_usec start end_).1 : ℚ)| = s at hs r1
  generalize |((elapsed_sec_usec start end_).2 : ℚ)| = u at hu r2
  have n : (2 : ℚ) ^ 66 = 73786976294838206464 := by norm_num
  rw [n]
  linarith

/-- C1 (counterexample): for start = (LONG_MIN, 0) and end = (1, 0) the microsecond fields
are in range and end >= start, but the subtraction of the seconds wraps around: `sec` is
`-9223372036854775807`, and the elapsed time is negative, read as an exact rational and as
the `double` the code computes. -/
theorem elapsed_negative_after_wrap :
    (⟨LONG_MIN, 0⟩ : timeval).in_range ∧ (⟨1, 0⟩ : timeval).in_range ∧
    (⟨LONG_MIN, 0⟩ : timeval).micros ≤ (⟨1, 0⟩ : timeval).micros ∧
    elapsed_sec_usec ⟨LONG_MIN, 0⟩ ⟨1, 0⟩ = (-9223372036854775807, 0) ∧
    elapsed_as_rational ⟨LONG_MIN, 0⟩ ⟨1, 0⟩ = -9223372036854775807 ∧
    elapsed ⟨LONG_MIN, 0⟩ ⟨1, 0⟩ = -9223372036854775808 ∧
    elapsed ⟨LONG_MIN, 0⟩ ⟨1, 0⟩ < 0 := by
  have hp : elapsed_sec_usec ⟨LONG_MIN, 0⟩ ⟨1, 0⟩ = (-9223372036854775807, 0) := by decide
  have h1 : round_double (-9223372036854775807) = -9223372036854775808 := by
    rw [round_double_eq (-9223372036854775807) 62 (-9007199254740992)
      (by norm_num [abs_of_neg]) (by norm_num [abs_of_neg]) (by norm_num)
      (by norm_num [abs_lt])]
    norm_num
  have h2 : round_double (-9223372036854775808) = -9223372036854775808 := by
    rw [round_double_eq (-9223372036854775808) 63 (-4503599627370496)
      (by norm_num [abs_of_neg]) (by norm_num [abs_of_neg]) (by norm_num)
      (by norm_num [abs_lt])]
    norm_num
  have he : elapsed ⟨LONG_MIN, 0⟩ ⟨1, 0⟩ = -9223372036854775808 := by
    unfold elapsed fadd double_of_int
    rw [hp]
    simp only [Int.cast_zero, round_double_zero, zero_div, add_zero]
    push_cast
    rw [h1, h2]
  refine ⟨by simp [timeval.in_range, LONG_MIN, LONG_MAX],
    by simp [timeval.in_range, LONG_MIN, LONG_MAX], by decide, hp, ?_, he, ?_⟩
  · unfold elapsed_as_rational
    rw [hp]
    norm_num
  · rw [he]
    norm_num

/-- C1 (amended): for time stamps whose microsecond fields lie in `[0, 1000000)`, with
`end >= start` (compared as `sec * 1000000 + usec`) and whose difference of seconds
`e_sec - s_sec` is representable in a `long`, the elapsed time the responder computes is
`>= 0`: the expression `sec + usec / 1000000` after the borrow step read as an exact
rational, and the `double` the code holds. -/
theorem elapsed_nonneg (start end_ : timeval)
    (hs : 0 ≤ start.tv_usec ∧ start.tv_usec < 1000000)
    (he : 0 ≤ end_.tv_usec ∧ end_.tv_usec < 1000000)
    (hle : start.tv_sec * 1000000 + start.tv_usec ≤ end_.tv_sec * 1000000 + end_.tv_usec)
    (hd : end_.tv_sec - start.tv_sec ≤ LONG_MAX) :
    0 ≤ elapsed_as_rational start end_ ∧ 0 ≤ elapsed start end_ := by
  have hd2 : LONG_MIN < end_.tv_sec - start.tv_sec ∧ end_.tv_sec - start.tv_sec ≤ LONG_MAX := by
    refine ⟨?_, hd⟩
    unfold LONG_MIN
    omega
  obtain ⟨h0, h1, h3⟩ := elapsed_sec_usec_spec start end_ hs he hd2
  have hsec : 0 ≤ (elapsed_sec_usec start end_).1 := by
    unfold timeval.micros at h3
    omega
  have a : (0 : ℚ) ≤ ((elapsed_sec_usec start end_).1 : ℚ) := by exact_mod_cast hsec
  have b : (0 : ℚ) ≤ ((elapsed_sec_usec start end_).2 : ℚ) := by exact_mod_cast h0
  constructor
  · unfold elapsed_as_rational
    positivity
  · unfold elapsed fadd double_of_int
    apply round_double_nonneg
    have c := round_double_nonneg _ a
    have d := round_double_nonneg _ b
    have e := round_double_nonneg
      (round_double ((elapsed_sec_usec start end_).2 : ℚ) / 1000000) (by positivity)
    linarith

/-- Witness of `elapsed_nonneg` at start = (10, 900000), end = (11, 100000). -/
theorem elapsed_nonneg_witness :
    0 ≤ elapsed_as_rational ⟨10, 900000⟩ ⟨11, 100000⟩ ∧
    0 ≤ elapsed ⟨10, 900000⟩ ⟨11, 100000⟩ :=
  elapsed_nonneg ⟨10, 900000⟩ ⟨11, 100000⟩ (by decide) (by decide) (by decide) (by decide)

/-- The result computation never faults; it yields the elapsed time, the byte count and,
when the elapsed time is positive, as throughput the `double` quotient of the byte count
by the elapsed time, `0` otherwise. -/
theorem report_spec (start end_ : timeval) (bytes : Nat) :
    ∃ r, report start end_ bytes = .ok r ∧ r.elapsed = elapsed start end_ ∧ r.bytes = bytes ∧
      (0 < r.elapsed → r.bps = round_double (double_of_int (bytes : Int) / r.elapsed)) ∧
      (¬ 0 < r.elapsed → r.bps = 0) := by
  unfold report bps fdiv
  by_cases h : elapsed start end_ > 0
  · have hne : elapsed start end_ ≠ 0 := ne_of_gt h
    simp only [h, hne, if_true, if_false]
    refine ⟨_, rfl, rfl, rfl, ?_, ?_⟩
    · intro _
      rfl
    · intro hn
      exact absurd h hn
  · simp only [h, if_false]
    refine ⟨_, rfl, rfl, rfl, ?_, ?_⟩
    · intro hp
      exact absurd hp h
    · intro _
      rfl

/-- A rounded value is an integer multiple of `2^e` whenever the exact value has magnitude at
least `2^(e + 52)`: its unit in the last place is then `2^e` or a higher power of two. -/
theorem round_double_multiple (q : ℚ) (e : Int) (h : 2 ^ (e + 52) ≤ |q|) :
    ∃ k : Int, round_double q = (k : ℚ) * 2 ^ e := by
  have ha : 0 < |q| := lt_of_lt_of_le (two_zpow_pos _) h
  have hq : q ≠ 0 := abs_pos.mp ha
  have hlog : e + 52 ≤ Int.log 2 |q| := le_log_two _ _ h
  have hu : e ≤ ulp_exponent |q| := by
    unfold ulp_exponent
    have := le_max_left (Int.log 2 |q|) (-1022)
    omega
  obtain ⟨n, hn⟩ : ∃ n : Nat, ulp_exponent |q| = e + (n : Int) :=
    ⟨(ulp_exponent |q| - e).toNat, by omega⟩
  refine ⟨round_half_even (q / 2 ^ ulp_exponent |q|) * 2 ^ n, ?_⟩
  unfold round_double
  rw [if_neg hq]
  rw [show (2 : ℚ) ^ ulp_exponent |q| = 2 ^ (n : Int) * 2 ^ e by
    rw [hn, add_comm, zpow_add₀ (by norm_num)]]
  rw [zpow_natCast]
  push_cast
  ring

/-- A positive elapsed time is at least `2^-73`: the two summands of `sec + usec / 1e6` are
integer multiples of `2^-72`, so the smallest positive sum is `2^-72`, before the rounding
of the sum. -/
theorem elapsed_pos_ge (start end_ : timeval) (h : 0 < elapsed start end_) :
    (1 : ℚ) / 2 ^ 73 ≤ elapsed start end_ := by
  have h72 : (2 : ℚ) ^ (-72 : Int) = 1 / 2 ^ 72 := by norm_num [zpow_neg]
  have ha : ∃ k : Int, double_of_int (elapsed_sec_usec start end_).1 = (k : ℚ) * 2 ^ (-72 : Int) := by
    unfold double_of_int
    by_cases h0 : (elapsed_sec_usec start end_).1 = 0
    · exact ⟨0, by rw [h0]; simp [round_double_zero]⟩
    · apply round_double_multiple
      have h1 : (1 : ℚ) ≤ |(((elapsed_sec_usec start end_).1 : Int) : ℚ)| := by
        have : 1 ≤ |(elapsed_sec_usec start end_).1| := Int.one_le_abs h0
        exact_mod_cast this
      have h2 : (2 : ℚ) ^ ((-72 : Int) + 52) ≤ 1 :=
        zpow_le_one_of_nonpos₀ (by norm_num) (by norm_num)
      exact le_trans h2 h1
  have hb : ∃ k : Int, round_double (double_of_int (elapsed_sec_usec start end_).2 / 1000000)
      = (k : ℚ) * 2 ^ (-72 : Int) := by
    unfold double_of_int
    by_cases h0 : (elapsed_sec_usec start end_).2 = 0
    · exact ⟨0, by rw [h0]; simp [round_double_zero]⟩
    · apply round_double_multiple
      have h1 : (1 : ℚ) ≤ |(((elapsed_sec_usec start end_).2 : Int) : ℚ)| := by
        have : 1 ≤ |(elapsed_sec_usec start end_).2| := Int.one_le_abs h0
        exact_mod_cast this
      have h2 : (2 : ℚ) ^ (-1022 : Int) ≤ |(((elapsed_sec_usec start end_).2 : Int) : ℚ)| :=
        le_trans (zpow_le_one_of_nonpos₀ (by norm_num) (by norm_num)) h1
      have h3 := round_double_rel_error _ h2
      have h4 : |(((elapsed_sec_usec start end_).2 : Int) : ℚ)|
          ≤ |round_double (((elapsed_sec_usec start end_).2 : Int) : ℚ)|
            + |round_double (((elapsed_sec_usec start end_).2 : Int) : ℚ)
                - (((elapsed_sec_usec start end_).2 : Int) : ℚ)| := by
        have := abs_sub_abs_le_abs_sub (((elapsed_sec_usec start end_).2 : Int) : ℚ)
          (round_double (((elapsed_sec_usec start end_).2 : Int) : ℚ))
        rw [abs_sub_comm] at this
        linarith
      rw [abs_div, abs_of_pos (show (0 : ℚ) < 1000000 by norm_num)]
      rw [le_div_iff₀ (by norm_num)]
      have h5 : (2 : ℚ) ^ ((-72 : Int) + 52) * 1000000 ≤ 1 - 1 / 2 ^ 53 := by
        norm_num [zpow_neg]
      generalize |round_double (((elapsed_sec_usec start end_).2 : Int) : ℚ)| = U at h4 ⊢
      generalize |round_double (((elapsed_sec_usec start end_).2 : Int) : ℚ)
                - (((elapsed_sec_usec start end_).2 : Int) : ℚ)| = D at h3 h4
      generalize |(((elapsed_sec_usec start end_).2 : Int) : ℚ)| = V at h1 h3 h4
      generalize (2 : ℚ) ^ ((-72 : Int) + 52) = Z at h5 ⊢
      norm_num at h3 h5 ⊢
      linarith
  obtain ⟨ka, hka⟩ := ha
  obtain ⟨kb, hkb⟩ := hb
  unfold elapsed fadd at h ⊢
  dsimp only at h ⊢
  rw [hka, hkb] at h ⊢
  have hx : (ka : ℚ) * 2 ^ (-72 : Int) + (kb : ℚ) * 2 ^ (-72 : Int)
      = ((ka + kb : Int) : ℚ) * (1 / 2 ^ 72) := by
    rw [h72]
    push_cast
    ring
  rw [hx] at h ⊢
  have hpos : 0 < ((ka + kb : Int) : ℚ) * (1 / 2 ^ 72) := by
    by_contra hc
    exact absurd h (not_lt.mpr (round_double_nonpos _ (not_lt.mp hc)))
  have hk : 1 ≤ ka + kb := by
    have h1 : (0 : ℚ) < ((ka + kb : Int) : ℚ) := by
      have := (mul_pos_iff_of_pos_right (show (0 : ℚ) < 1 / 2 ^ 72 by norm_num)).mp hpos
      exact this
    have h2 : 0 < ka + kb := by exact_mod_cast h1
    omega
  have hk1 : (1 : ℚ) ≤ ((ka + kb : Int) : ℚ) := by exact_mod_cast hk
  have hge : (1 : ℚ) / 2 ^ 72 ≤ ((ka + kb : Int) : ℚ) * (1 / 2 ^ 72) := by
    have := mul_le_mul_of_nonneg_right hk1 (show (0 : ℚ) ≤ 1 / 2 ^ 72 by norm_num)
    linarith
  have hn : (2 : ℚ) ^ (-1022 : Int) ≤ |((ka + kb : Int) : ℚ) * (1 / 2 ^ 72)| := by
    rw [abs_of_pos hpos]
    have h2 : (2 : ℚ) ^ (-1022 : Int) ≤ 2 ^ (-72 : Int) :=
      zpow_le_zpow_right₀ (by norm_num) (by norm_num)
    rw [h72] at h2
    exact le_trans h2 hge
  have herr := round_double_rel_error _ hn
  rw [abs_of_pos hpos] at herr
  have hlow := (abs_le.mp herr).1
  generalize round_double (((ka + kb : Int) : ℚ) * (1 / 2 ^ 72)) = R at hlow ⊢
  generalize ((ka + kb : Int) : ℚ) * (1 / 2 ^ 72) = X at hlow hge
  have h6 : X / 2 ^ 53 = X * (1 / 2 ^ 53) := by ring
  rw [h6] at hlow
  norm_num at hlow hge ⊢
  linarith

/-- No value of the result computation leaves the range of the finite `double` values, so
that no rounding yields an infinity: with a byte count below `2^64` the elapsed time and
the two throughput figures have a magnitude below `2^1024` (indeed below `2^143`). -/
theorem report_in_double_range (start end_ : timeval) (bytes : Nat)
    (hb : bytes < 18446744073709551616) (r : Report) (h : report start end_ bytes = .ok r) :
    |r.elapsed| < 2 ^ 1024 ∧ |r.bps| < 2 ^ 1024 ∧ |r.mbps| < 2 ^ 1024 := by
  have he := elapsed_abs_le start end_
  have hbps : ∀ b, bps bytes (elapsed start end_) = .ok b → |b| ≤ 2 ^ 141 := by
    intro b hbv
    unfold bps fdiv at hbv
    by_cases hp : elapsed start end_ > 0
    · have hne : elapsed start end_ ≠ 0 := ne_of_gt hp
      simp only [hp, hne, if_true, if_false] at hbv
      cases hbv
      have hlow := elapsed_pos_ge start end_ hp
      have h1 := round_double_abs_le (double_of_int (bytes : Int) / elapsed start end_)
      have h2 : |double_of_int (bytes : Int)| ≤ 2 ^ 66 := by
        unfold double_of_int
        have h3 := round_double_abs_le (((bytes : Int) : ℚ))
        have hq : (0 : ℚ) ≤ (((bytes : Int) : ℚ)) := by positivity
        have h4 : (((bytes : Int) : ℚ)) ≤ 18446744073709551616 := by
          exact_mod_cast (le_of_lt hb)
        rw [abs_of_nonneg hq] at h3
        generalize |round_double (((bytes : Int) : ℚ))| = R at h3 ⊢
        generalize (((bytes : Int) : ℚ)) = Y at h3 h4
        norm_num
        linarith
      have h5 : |double_of_int (bytes : Int) / elapsed start end_| ≤ 2 ^ 66 * 2 ^ 73 := by
        rw [abs_div, abs_of_pos hp, div_le_iff₀ hp]
        have h6 : (2 : ℚ) ^ 66 * 2 ^ 73 * (1 / 2 ^ 73) ≤ 2 ^ 66 * 2 ^ 73 * elapsed start end_ :=
          mul_le_mul_of_nonneg_left hlow (by positivity)
        have h7 : (2 : ℚ) ^ 66 * 2 ^ 73 * (1 / 2 ^ 73) = 2 ^ 66 := by norm_num
        linarith
      generalize |round_double (double_of_int (bytes : Int) / elapsed start end_)| = B at h1 ⊢
      generalize |double_of_int (bytes : Int) / elapsed start end_| = Q at h1 h5
      norm_num at h5 ⊢
      linarith
    · simp only [hp, if_false] at hbv
      cases hbv
      norm_num
  unfold report at h
  dsimp only at h
  cases hv : bps bytes (elapsed start end_) with
  | error f => rw [hv] at h; cases h
  | ok b =>
    rw [hv] at h
    cases h
    have hb1 := hbps b hv
    have hm := round_double_abs_le (b / 1000000)
    have hm2 : |b / 1000000| ≤ |b| := by
      rw [abs_div, abs_of_pos (show (0 : ℚ) < 1000000 by norm_num)]
      exact div_le_self (abs_nonneg b) (by norm_num)
    dsimp only
    generalize |round_double (b / 1000000)| = M at hm ⊢
    generalize |b / 1000000| = Q at hm hm2
    generalize |b| = B at hb1 hm2 ⊢
    generalize |elapsed start end_| = E at he ⊢
    norm_num at he hb1 ⊢
    refine ⟨by linarith, by linarith, by linarith⟩

/-! ## The source buffer -/

/-- The conversion `(uint8_t)i` of a non-negative `i` is `i mod 256`. -/
theorem uint8_of_int_natCast (i : Nat) : uint8_of_int (i : Int) = i % 256 := by
  unfold uint8_of_int
  omega

/-- The conversion `(uint32_t)size` of a positive `int` keeps the value. -/
theorem uint32_of_int_of_pos (size : Int) (h0 : 0 < size) (hmax : size ≤ INT_MAX) :
    uint32_of_int size = size.toNat := by
  unfold uint32_of_int
  unfold INT_MAX at hmax
  omega

/-- The conversion `(size_t)x` of a non-negative value below `2^64` keeps the value. -/
theorem size_t_of_int_of_nonneg (x : Int) (h0 : 0 ≤ x) (hmax : x < 18446744073709551616) :
    size_t_of_int x = x.toNat := by
  unfold size_t_of_int
  omega

/-- The length of the buffer is unchanged by the fill loop. -/
theorem fill_loop_length (n : Nat) : ∀ (data : List Nat) (i : Nat),
    (fill_loop data i n).length = data.length := by
  induction n with
  | zero => intro data i; rfl
  | succ n ih =>
    intro data i
    simp only [fill_loop]
    rw [ih]
    simp

/-- The fill loop run for `n` iterations from index `i` writes `j mod 256` at every index
`j` of `[i, i + n)` and leaves the other bytes as they were. -/
theorem fill_loop_get (n : Nat) : ∀ (data : List Nat) (i j : Nat), i + n ≤ data.length →
    (fill_loop data i n)[j]? = if i ≤ j ∧ j < i + n then some (j % 256) else data[j]? := by
  induction n with
  | zero =>
    intro data i j _
    have : ¬ (i ≤ j ∧ j < i + 0) := by omega
    simp only [fill_loop]
    rw [if_neg this]
  | succ n ih =>
    intro data i j hlen
    simp only [fill_loop]
    rw [ih _ (i + 1) j (by simp; omega)]
    by_cases hj : j = i
    · subst hj
      have h1 : ¬ (j + 1 ≤ j ∧ j < j + 1 + n) := by omega
      have h2 : j ≤ j ∧ j < j + (n + 1) := by omega
      have h3 : j < data.length := by omega
      simp [h1, h2, uint8_of_int_natCast, List.getElem?_set, h3]
    · have hne : i ≠ j := fun h => hj h.symm
      by_cases hin : i + 1 ≤ j ∧ j < i + 1 + n
      · have h2 : i ≤ j ∧ j < i + (n + 1) := by omega
        simp [hin, h2]
      · have h2 : ¬ (i ≤ j ∧ j < i + (n + 1)) := by omega
        simp [hin, h2, List.getElem?_set, hne]

/-! ## Memory representation -/

/-- The sequence `le_bytes n v` has `n` bytes. -/
theorem le_bytes_length (n : Nat) : ∀ v, (le_bytes n v).length = n := by
  induction n with
  | zero => intro v; rfl
  | succ n ih => intro v; simp [le_bytes, ih]

/-- Reading back `n` little-endian bytes of `v` gives `v mod 256 ^ n`. -/
theorem le_value_le_bytes (n : Nat) : ∀ v, le_value (le_bytes n v) = v % 256 ^ n := by
  induction n with
  | zero => intro v; simp [le_bytes, le_value, Nat.mod_one]
  | succ n ih =>
    intro v
    simp only [le_bytes, le_value, ih]
    rw [pow_succ, Nat.mul_comm (256 ^ n) 256, Nat.mod_mul]

/-- Every byte of `le_bytes n v` is below 256. -/
theorem le_bytes_lt (n : Nat) : ∀ v, ∀ b ∈ le_bytes n v, b < 256 := by
  induction n with
  | zero => intro v b hb; simp [le_bytes] at hb
  | succ n ih =>
    intro v b hb
    simp only [le_bytes, List.mem_cons] at hb
    rcases hb with rfl | hb
    · exact Nat.mod_lt _ (by decide)
    · exact ih _ b hb

/-- A `long` has eight bytes. -/
theorem long_bytes_length (x : Int) : (long_bytes x).length = 8 := le_bytes_length 8 _

/-- A `struct timeval` has sixteen bytes. -/
theorem timeval_bytes_length (t : timeval) : t.bytes.length = 16 := by
  simp [timeval.bytes, long_bytes_length]

/-- A `long` written to memory and read back is unchanged. -/
theorem long_of_bytes_long_bytes (x : Int) (hlo : LONG_MIN ≤ x) (hhi : x ≤ LONG_MAX)
    (rest : List Nat) : long_of_bytes (long_bytes x ++ rest) = x := by
  unfold long_of_bytes
  have htake : (long_bytes x ++ rest).take 8 = long_bytes x := by
    rw [List.take_append_of_le_length (by rw [long_bytes_length])]
    exact List.take_of_length_le (by rw [long_bytes_length])
  simp only [htake]
  unfold long_bytes
  rw [le_value_le_bytes]
  unfold size_t_of_int
  unfold LONG_MIN at hlo
  unfold LONG_MAX at hhi
  have hpow : (256 : Nat) ^ 8 = 18446744073709551616 := by norm_num
  rw [hpow]
  split_ifs with h <;> omega

/-- A `struct timeval` written to memory and read back is unchanged. -/
theorem timeval_of_bytes_bytes (t : timeval) (ht : t.in_range) (rest : List Nat) :
    timeval.of_bytes (t.bytes ++ rest) = t := by
  obtain ⟨h1, h2, h3, h4⟩ := ht
  unfold timeval.of_bytes timeval.bytes
  have hdrop : (long_bytes t.tv_sec ++ long_bytes t.tv_usec ++ rest).drop 8
      = long_bytes t.tv_usec ++ rest := by
    rw [List.append_assoc, List.drop_append_of_le_length (by rw [long_bytes_length])]
    rw [List.drop_of_length_le (by rw [long_bytes_length])]
    rfl
  rw [hdrop, List.append_assoc, long_of_bytes_long_bytes _ h1 h2,
    long_of_bytes_long_bytes _ h3 h4]

/-- C5: for every size > 0, after the source buffer is built its size field equals `size`
and, for every index `i` with `0 <= i < size`, data byte `i` equals `i mod 256`, for sizes
larger than 256 as well.  (`size` is a C `int`; `raw` is the block `malloc` returned, whose
data area holds at least `size` bytes.) -/
theorem build_src_pattern (size : Int) (h0 : 0 < size) (hmax : size ≤ INT_MAX)
    (raw : buf_data_t) (hraw : size.toNat ≤ raw.data.length) :
    ((build_src size raw).size : Int) = size ∧
    ∀ i : Nat, (i : Int) < size → (build_src size raw).data[i]? = some (i % 256) := by
  constructor
  · simp only [build_src]
    rw [uint32_of_int_of_pos size h0 hmax]
    omega
  · intro i hi
    simp only [build_src]
    rw [fill_loop_get _ _ _ _ (by omega)]
    have : 0 ≤ i ∧ i < 0 + size.toNat := by omega
    rw [if_pos this]

/-- Witness of `build_src_pattern` at size 300 with a zeroed block: byte 299 is 43. -/
theorem build_src_pattern_witness :
    (build_src 300 ⟨⟨0, 0⟩, ⟨0, 0⟩, 0, List.replicate 304 0⟩).data[299]? = some 43 :=
  (build_src_pattern 300 (by decide) (by decide) ⟨⟨0, 0⟩, ⟨0, 0⟩, 0, List.replicate 304 0⟩
    (by rw [List.length_replicate]; decide)).2 299 (by decide)

/-! ## Results and faults in the traces -/

/-- Every event of the shared responder tail is a clean-up call or the result that
`report` computes; there is no fault. -/
theorem report_and_exit_trace (P : Event → Prop) (start end_ : timeval) (bytes : Nat)
    (cleanup : List Event) (hc : ∀ e ∈ cleanup, P e)
    (hr : ∀ r, report start end_ bytes = .ok r → P (.stdout_result r)) :
    ∀ e ∈ (report_and_exit start end_ bytes cleanup).trace, P e := by
  obtain ⟨r, hrep, _⟩ := report_spec start end_ bytes
  unfold report_and_exit
  rw [hrep]
  intro e he
  simp only [List.mem_cons] at he
  rcases he with rfl | he
  · exact hr r hrep
  · exact hc e he

/-- A property that holds of every event other than a result or a fault, and of every
result that `report` computes, holds of every event of `memcpy`. -/
theorem memcpy_main_trace (P : Event → Prop)
    (hP : ∀ e, e.is_result = false → e.is_fault = false → P e)
    (hR : ∀ start end_ bytes r, report start end_ bytes = .ok r → P (.stdout_result r))
    (opts : List GetoptResult) (env : memcpy.Env) :
    ∀ e ∈ (memcpy.main opts env).trace, P e := by
  have hrep := fun s e b c hc => report_and_exit_trace P s e b c hc (hR s e b)
  simp only [memcpy.main, Run.pre]
  split <;> (try split_ifs) <;> (try split) <;>
    simp [List.forall_mem_append, hP, Event.is_result, Event.is_fault, Run.pre] <;>
    exact hrep _ _ _ _ (by simp [hP, Event.is_result, Event.is_fault])

/-- The same for the child of `tcpmemcpy`. -/
theorem tcp_child_trace (P : Event → Prop)
    (hP : ∀ e, e.is_result = false → e.is_fault = false → P e)
    (hR : ∀ start end_ bytes r, report start end_ bytes = .ok r → P (.stdout_result r))
    (size : Int) (env : tcpmemcpy.Env) :
    ∀ e ∈ (tcpmemcpy.child size env).trace, P e := by
  have hrep := fun s e b c hc => report_and_exit_trace P s e b c hc (hR s e b)
  simp only [tcpmemcpy.child, Run.pre]
  split_ifs <;> (try split) <;> (try split_ifs) <;>
    simp [List.forall_mem_append, hP, Event.is_result, Event.is_fault, Run.pre] <;>
    exact hrep _ _ _ _ (by simp [hP, Event.is_result, Event.is_fault])

/-- The same for the child of `udpmemcpy`. -/
theorem udp_child_trace (P : Event → Prop)
    (hP : ∀ e, e.is_result = false → e.is_fault = false → P e)
    (hR : ∀ start end_ bytes r, report start end_ bytes = .ok r → P (.stdout_result r))
    (size : Int) (env : udpmemcpy.Env) :
    ∀ e ∈ (udpmemcpy.child size env).trace, P e := by
  have hrep := fun s e b c hc => report_and_exit_trace P s e b c hc (hR s e b)
  simp only [udpmemcpy.child, Run.pre]
  split_ifs <;> (try split) <;> (try split) <;>
    simp [List.forall_mem_append, hP, Event.is_result, Event.is_fault, Run.pre] <;>
    exact hrep _ _ _ _ (by simp [hP, Event.is_result, Event.is_fault])

/-- The same for the child of `shmemcpy`. -/
theorem shm_child_trace (P : Event → Prop)
    (hP : ∀ e, e.is_result = false → e.is_fault = false → P e)
    (hR : ∀ start end_ bytes r, report start end_ bytes = .ok r → P (.stdout_result r))
    (env : shmemcpy.Env) :
    ∀ e ∈ (shmemcpy.child env).trace, P e := by
  have hrep := fun s e b c hc => report_and_exit_trace P s e b c hc (hR s e b)
  simp only [shmemcpy.child, Run.pre]
  split_ifs <;>
    simp [List.forall_mem_append, hP, Event.is_result, Event.is_fault, Run.pre] <;>
    exact hrep _ _ _ _ (by simp [hP, Event.is_result, Event.is_fault])

/-- The same for the child of `zmqmemcpy`. -/
theorem zmq_child_trace (P : Event → Prop)
    (hP : ∀ e, e.is_result = false → e.is_fault = false → P e)
    (hR : ∀ start end_ bytes r, report start end_ bytes = .ok r → P (.stdout_result r))
    (size : Int) (env : zmqmemcpy.Env) :
    ∀ e ∈ (zmqmemcpy.child size env).trace, P e := by
  have hrep := fun s e b c hc => report_and_exit_trace P s e b c hc (hR s e b)
  simp only [zmqmemcpy.child, Run.pre]
  split_ifs <;> (try split) <;> (try split) <;>
    simp [List.forall_mem_append, hP, Event.is_result, Event.is_fault, Run.pre] <;>
    exact hrep _ _ _ _ (by simp [hP, Event.is_result, Event.is_fault])

/-- The same for the message loop of the child of `dbusmemcpy`. -/
theorem dbus_child_loop_trace (P : Event → Prop)
    (hP : ∀ e, e.is_result = false → e.is_fault = false → P e)
    (hR : ∀ start end_ bytes r, report start end_ bytes = .ok r → P (.stdout_result r))
    (end_time : timeval) (incoming : List (Option DBusMessage)) :
    ∀ e ∈ (dbusmemcpy.child_loop end_time incoming).trace, P e := by
  have hrep := fun s e b c hc => report_and_exit_trace P s e b c hc (hR s e b)
  induction incoming with
  | nil => simp [dbusmemcpy.child_loop]
  | cons m rest ih =>
    cases m with
    | none =>
      simp only [dbusmemcpy.child_loop, Run.pre]
      simp [List.forall_mem_append, hP, Event.is_result, Event.is_fault]
      exact ih
    | some msg =>
      simp only [dbusmemcpy.child_loop, Run.pre]
      split_ifs <;> (try split) <;>
        simp [List.forall_mem_append, hP, Event.is_result, Event.is_fault, Run.pre] <;>
        first
          | exact ih
          | exact hrep _ _ _ _ (by simp [hP, Event.is_result, Event.is_fault])

/-- The same for the child of `dbusmemcpy`. -/
theorem dbus_child_trace (P : Event → Prop)
    (hP : ∀ e, e.is_result = false → e.is_fault = false → P e)
    (hR : ∀ start end_ bytes r, report start end_ bytes = .ok r → P (.stdout_result r))
    (env : dbusmemcpy.Env) :
    ∀ e ∈ (dbusmemcpy.child env).trace, P e := by
  have hloop := dbus_child_loop_trace P hP hR env.end_time env.incoming
  simp only [dbusmemcpy.child, Run.pre]
  split_ifs <;>
    simp [List.forall_mem_append, hP, Event.is_result, Event.is_fault, Run.pre] <;>
    exact hloop

/-- The events of the parent of `tcpmemcpy` are neither results nor faults. -/
theorem tcp_parent_trace (P : Event → Prop)
    (hP : ∀ e, e.is_result = false → e.is_fault = false → P e)
    (size : Int) (src : buf_data_t) (env : tcpmemcpy.Env) :
    ∀ e ∈ (tcpmemcpy.parent size src env).trace, P e := by
  simp only [tcpmemcpy.parent, Run.pre, wait_then]
  split_ifs <;>
    simp [List.forall_mem_append, hP, Event.is_result, Event.is_fault, Run.pre]

/-- The events of the parent process of `tcpmemcpy` are neither results nor faults. -/
theorem tcp_parent_process_trace (P : Event → Prop)
    (hP : ∀ e, e.is_result = false → e.is_fault = false → P e)
    (size : Int) (src : buf_data_t) (env : tcpmemcpy.Env) :
    ∀ e ∈ (tcpmemcpy.parent_process size src env).trace, P e := by
  unfold tcpmemcpy.parent_process
  split_ifs
  · simp [hP, Event.is_result, Event.is_fault]
  · exact tcp_parent_trace P hP size src env

/-- The events of the parent of `udpmemcpy` are neither results nor faults. -/
theorem udp_parent_trace (P : Event → Prop)
    (hP : ∀ e, e.is_result = false → e.is_fault = false → P e)
    (size : Int) (src : buf_data_t) (env : udpmemcpy.Env) :
    ∀ e ∈ (udpmemcpy.parent size src env).trace, P e := by
  simp only [udpmemcpy.parent, Run.pre, wait_then]
  split_ifs <;>
    simp [List.forall_mem_append, hP, Event.is_result, Event.is_fault, Run.pre]

/-- The events of the parent of `shmemcpy` are neither results nor faults. -/
theorem shm_parent_trace (P : Event → Prop)
    (hP : ∀ e, e.is_result = false → e.is_fault = false → P e)
    (size : Int) (src : buf_data_t) (env : shmemcpy.Env) :
    ∀ e ∈ (shmemcpy.parent size src env).trace, P e := by
  simp only [shmemcpy.parent, Run.pre, wait_then]
  split_ifs <;>
    simp [List.forall_mem_append, hP, Event.is_result, Event.is_fault, Run.pre]

/-- The events of the parent of `zmqmemcpy` are neither results nor faults. -/
theorem zmq_parent_trace (P : Event → Prop)
    (hP : ∀ e, e.is_result = false → e.is_fault = false → P e)
    (size : Int) (src : buf_data_t) (env : zmqmemcpy.Env) :
    ∀ e ∈ (zmqmemcpy.parent size src env).trace, P e := by
  simp only [zmqmemcpy.parent, Run.pre, wait_then]
  split_ifs <;>
    simp [List.forall_mem_append, hP, Event.is_result, Event.is_fault, Run.pre]

/-- The events of the parent of `dbusmemcpy` are neither results nor faults. -/
theorem dbus_parent_trace (P : Event → Prop)
    (hP : ∀ e, e.is_result = false → e.is_fault = false → P e)
    (size : Int) (src : buf_data_t) (env : dbusmemcpy.Env) :
    ∀ e ∈ (dbusmemcpy.parent size src env).trace, P e := by
  simp only [dbusmemcpy.parent, Run.pre, wait_then]
  split_ifs <;>
    simp [List.forall_mem_append, hP, Event.is_result, Event.is_fault, Run.pre]

/-- A property that holds of every event other than a result or a fault, and of every
result that `report` computes, holds of every event of both processes of `tcpmemcpy`. -/
theorem tcp_main_events (P : Event → Prop)
    (hP : ∀ e, e.is_result = false → e.is_fault = false → P e)
    (hR : ∀ start end_ bytes r, report start end_ bytes = .ok r → P (.stdout_result r))
    (opts : List GetoptResult) (env : tcpmemcpy.Env) :
    ∀ e ∈ (tcpmemcpy.main opts env).events, P e := by
  have hc := fun size => tcp_child_trace P hP hR size env
  have hp := fun size src => tcp_parent_process_trace P hP size src env
  unfold tcpmemcpy.main
  split <;> (try split_ifs) <;> (try split) <;>
    simp [Outcome.events, List.forall_mem_append, hP, Event.is_result, Event.is_fault,
      Run.pre] <;>
    (intro a ha; rcases ha with h | h; exacts [hp _ _ _ h, hc _ _ h])

/-- The same for `udpmemcpy`. -/
theorem udp_main_events (P : Event → Prop)
    (hP : ∀ e, e.is_result = false → e.is_fault = false → P e)
    (hR : ∀ start end_ bytes r, report start end_ bytes = .ok r → P (.stdout_result r))
    (opts : List GetoptResult) (env : udpmemcpy.Env) :
    ∀ e ∈ (udpmemcpy.main opts env).events, P e := by
  have hc := fun size => udp_child_trace P hP hR size env
  have hp := fun size src => udp_parent_trace P hP size src env
  unfold udpmemcpy.main
  split <;> (try split_ifs) <;> (try split) <;>
    simp [Outcome.events, List.forall_mem_append, hP, Event.is_result, Event.is_fault,
      Run.pre] <;>
    (intro a ha; rcases ha with h | h; exacts [hp _ _ _ h, hc _ _ h])

/-- The same for `shmemcpy`. -/
theorem shm_main_events (P : Event → Prop)
    (hP : ∀ e, e.is_result = false → e.is_fault = false → P e)
    (hR : ∀ start end_ bytes r, report start end_ bytes = .ok r → P (.stdout_result r))
    (opts : List GetoptResult) (env : shmemcpy.Env) :
    ∀ e ∈ (shmemcpy.main opts env).events, P e := by
  have hc := shm_child_trace P hP hR env
  have hp := fun size src => shm_parent_trace P hP size src env
  unfold shmemcpy.main
  split <;> (try split_ifs) <;> (try split) <;>
    simp [Outcome.events, List.forall_mem_append, hP, Event.is_result, Event.is_fault,
      Run.pre] <;>
    (intro a ha; rcases ha with h | h; exacts [hp _ _ _ h, hc _ h])

/-- The same for `zmqmemcpy`. -/
theorem zmq_main_events (P : Event → Prop)
    (hP : ∀ e, e.is_result = false → e.is_fault = false → P e)
    (hR : ∀ start end_ bytes r, report start end_ bytes = .ok r → P (.stdout_result r))
    (opts : List GetoptResult) (env : zmqmemcpy.Env) :
    ∀ e ∈ (zmqmemcpy.main opts env).events, P e := by
  have hc := fun size => zmq_child_trace P hP hR size env
  have hp := fun size src => zmq_parent_trace P hP size src env
  unfold zmqmemcpy.main
  split <;> (try split_ifs) <;> (try split) <;>
    simp [Outcome.events, List.forall_mem_append, hP, Event.is_result, Event.is_fault,
      Run.pre] <;>
    (intro a ha; rcases ha with h | h; exacts [hp _ _ _ h, hc _ _ h])

/-- The same for `dbusmemcpy`. -/
theorem dbus_main_events (P : Event → Prop)
    (hP : ∀ e, e.is_result = false → e.is_fault = false → P e)
    (hR : ∀ start end_ bytes r, report start end_ bytes = .ok r → P (.stdout_result r))
    (opts : List GetoptResult) (env : dbusmemcpy.Env) :
    ∀ e ∈ (dbusmemcpy.main opts env).events, P e := by
  have hc := dbus_child_trace P hP hR env
  have hp := fun size src => dbus_parent_trace P hP size src env
  unfold dbusmemcpy.main
  split <;> (try split_ifs) <;> (try split) <;>
    simp [Outcome.events, List.forall_mem_append, hP, Event.is_result, Event.is_fault,
      Run.pre] <;>
    (intro a ha; rcases ha with h | h; exacts [hp _ _ _ h, hc _ h])

/-- An event that is neither a result nor a fault respects the zero-elapsed rule. -/
theorem zero_elapsed_ok_of_plain (e : Event) (h1 : e.is_result = false)
    (h2 : e.is_fault = false) : e.zero_elapsed_ok := by
  cases e <;> simp_all [Event.zero_elapsed_ok, Event.is_result, Event.is_fault]

/-- From a time stamp to itself the code computes the elapsed time 0. -/
theorem elapsed_self (t : timeval) : elapsed t t = 0 := by
  have hw : wrap_long 0 = 0 := by decide
  simp [elapsed, elapsed_sec_usec, hw, fadd, double_of_int, round_double_zero]

/-- A result that `report` computes respects the zero-elapsed rule. -/
theorem zero_elapsed_ok_of_report (start end_ : timeval) (bytes : Nat) (r : Report)
    (h : report start end_ bytes = .ok r) : (Event.stdout_result r).zero_elapsed_ok := by
  obtain ⟨r1, h1, _, _, _, hz⟩ := report_spec start end_ bytes
  rw [h] at h1
  cases h1
  intro h0
  exact hz (by rw [h0]; exact lt_irrefl 0)

/-- C3: for every payload size, when the computed elapsed time is 0 (for instance when the
end time stamp equals the start time stamp) the reported throughput in bytes per second is
exactly 0 and the division `size / elapsed` is not evaluated (the result is a value, not a
division fault), in every backend and in the in-process baseline: no run of any of the six
programs contains a fault, and every result with elapsed time 0 has throughput 0. -/
theorem zero_elapsed_zero_throughput (bytes : Nat) (start end_ : timeval)
    (h : elapsed start end_ = 0) :
    bps bytes (elapsed start end_) = .ok 0 ∧
    report start end_ bytes = .ok { elapsed := 0, bytes := bytes, bps := 0, mbps := 0 } ∧
    elapsed start start = 0 ∧
    (∀ opts env, ∀ e ∈ (memcpy.main opts env).trace, e.zero_elapsed_ok) ∧
    (∀ opts env, ∀ e ∈ (shmemcpy.main opts env).events, e.zero_elapsed_ok) ∧
    (∀ opts env, ∀ e ∈ (tcpmemcpy.main opts env).events, e.zero_elapsed_ok) ∧
    (∀ opts env, ∀ e ∈ (udpmemcpy.main opts env).events, e.zero_elapsed_ok) ∧
    (∀ opts env, ∀ e ∈ (zmqmemcpy.main opts env).events, e.zero_elapsed_ok) ∧
    (∀ opts env, ∀ e ∈ (dbusmemcpy.main opts env).events, e.zero_elapsed_ok) := by
  refine ⟨?_, ?_, ?_, ?_, ?_, ?_, ?_, ?_, ?_⟩
  · simp [bps, h]
  · have hb : bps bytes 0 = .ok 0 := by simp [bps]
    unfold report
    simp only [h, hb, zero_div, round_double_zero]
  · exact elapsed_self start
  · exact fun opts env =>
      memcpy_main_trace Event.zero_elapsed_ok zero_elapsed_ok_of_plain zero_elapsed_ok_of_report opts env
  · exact fun opts env =>
      shm_main_events Event.zero_elapsed_ok zero_elapsed_ok_of_plain zero_elapsed_ok_of_report opts env
  · exact fun opts env =>
      tcp_main_events Event.zero_elapsed_ok zero_elapsed_ok_of_plain zero_elapsed_ok_of_report opts env
  · exact fun opts env =>
      udp_main_events Event.zero_elapsed_ok zero_elapsed_ok_of_plain zero_elapsed_ok_of_report opts env
  · exact fun opts env =>
      zmq_main_events Event.zero_elapsed_ok zero_elapsed_ok_of_plain zero_elapsed_ok_of_report opts env
  · exact fun opts env =>
      dbus_main_events Event.zero_elapsed_ok zero_elapsed_ok_of_plain zero_elapsed_ok_of_report opts env

/-- Witness of `zero_elapsed_zero_throughput` at start = end = (5, 7) and 1024 bytes. -/
theorem zero_elapsed_zero_throughput_witness :
    elapsed ⟨5, 7⟩ ⟨5, 7⟩ = 0 ∧
    report ⟨5, 7⟩ ⟨5, 7⟩ 1024 = .ok { elapsed := 0, bytes := 1024, bps := 0, mbps := 0 } :=
  ⟨elapsed_self ⟨5, 7⟩,
   (zero_elapsed_zero_throughput 1024 ⟨5, 7⟩ ⟨5, 7⟩ (elapsed_self ⟨5, 7⟩)).2.1⟩

/-! ## The reported throughput -/

/-- The field `size` read from the memory block of a `buf_data_t` is the value stored. -/
theorem load_size_bytes (b : buf_data_t) : load_size b.bytes = b.size % 4294967296 := by
  unfold load_size buf_data_t.bytes
  have h32 : (b.start.bytes ++ b.end_.bytes).length = 32 := by
    simp [timeval_bytes_length]
  have hd : (b.start.bytes ++ b.end_.bytes ++ le_bytes 4 b.size ++ b.data).drop 32
      = le_bytes 4 b.size ++ b.data := by
    rw [List.append_assoc, List.append_assoc]
    rw [← List.append_assoc]
    rw [List.drop_append_of_le_length (by rw [h32])]
    rw [List.drop_of_length_le (by rw [h32])]
    rfl
  rw [hd, List.take_append_of_le_length (by rw [le_bytes_length])]
  rw [List.take_of_length_le (by rw [le_bytes_length]), le_value_le_bytes]
  norm_num

/-- The memory block of a `buf_data_t` has the 36 bytes before `data` and then `data`. -/
theorem buf_bytes_length (b : buf_data_t) : b.bytes.length = 36 + b.data.length := by
  simp only [buf_data_t.bytes, List.length_append, timeval_bytes_length, le_bytes_length]

/-- The source buffer with its start time stamp set holds the command-line size in its
`size` field. -/
theorem load_size_src (size : Int) (h0 : 0 < size) (hmax : size ≤ INT_MAX) (raw : buf_data_t)
    (t : timeval) :
    (load_size (stamped_src size raw t).bytes : Int) = size := by
  rw [load_size_bytes]
  simp only [stamped_src, build_src]
  rw [uint32_of_int_of_pos size h0 hmax]
  unfold INT_MAX at hmax
  omega

/-- The block has at least its 36 header bytes. -/
theorem buf_bytes_length_ge (b : buf_data_t) : 36 ≤ b.bytes.length := by
  rw [buf_bytes_length]
  omega

/-- The total size `sizeof(buf_data_t) + size` of a positive `int` size. -/
theorem total_size_eq (size : Int) (h0 : 0 < size) (hmax : size ≤ INT_MAX) :
    size_t_of_int (sizeof_buf_data_t + size) = 40 + size.toNat := by
  unfold size_t_of_int sizeof_buf_data_t
  unfold INT_MAX at hmax
  omega

/-- The payload of the ZeroMQ and D-Bus parents starts with the sixteen time-stamp bytes. -/
theorem sizeof_timeval_le_payload (size : Int) (src : buf_data_t) :
    sizeof_timeval ≤ (src.start.bytes ++ src.data.take size.toNat).length := by
  simp only [List.length_append, timeval_bytes_length, sizeof_timeval]
  omega

/-- What the D-Bus child takes from the parent's message. -/
theorem dbus_child_decode_parent_message (size : Int) (src : buf_data_t) :
    dbusmemcpy.child_decode (dbusmemcpy.parent_message size src)
      = .ok (src.size, timeval.of_bytes ((dbusmemcpy.payload size src).take sizeof_timeval),
          (dbusmemcpy.payload size src).drop sizeof_timeval) := by
  have hlen : ¬ (dbusmemcpy.payload size src).length < sizeof_timeval :=
    Nat.not_lt.mpr (sizeof_timeval_le_payload size src)
  simp only [dbusmemcpy.child_decode, dbusmemcpy.parent_message]
  rw [if_neg hlen]

/-- When `main` of `tcpmemcpy` forks, the command-line size is positive, the source buffer
was allocated and built, and the two branches run with these values. -/
theorem tcp_main_child (opts : List GetoptResult) (env : tcpmemcpy.Env) (c : Run)
    (h : (tcpmemcpy.main opts env).child = some c) :
    ∃ size raw, parse_args opts 0 = some size ∧ 0 < size ∧ env.malloc_src = some raw ∧
      c = tcpmemcpy.child size env ∧
      (tcpmemcpy.main opts env).parent
        = Run.pre [.call .malloc, .call .fork]
            (tcpmemcpy.parent_process size (build_src size raw) env) := by
  unfold tcpmemcpy.main at h ⊢
  cases hp : parse_args opts 0 with
  | none => simp [hp] at h
  | some size =>
    simp only [hp] at h ⊢
    by_cases hs : size ≤ 0
    · simp [hs] at h
    · cases hm : env.malloc_src with
      | none => simp [hs, hm] at h
      | some raw =>
        by_cases hf : env.fork_ok = true
        · simp only [hs, hm, hf, if_false, Bool.not_true, Bool.false_eq_true] at h ⊢
          exact ⟨size, raw, rfl, by omega, rfl, by simpa using h.symm, rfl⟩
        · simp [hs, hm, hf] at h

/-- When `main` of `udpmemcpy` forks, the command-line size is positive, the source buffer
was allocated and built, and the two branches run with these values. -/
theorem udp_main_child (opts : List GetoptResult) (env : udpmemcpy.Env) (c : Run)
    (h : (udpmemcpy.main opts env).child = some c) :
    ∃ size raw, parse_args opts 0 = some size ∧ 0 < size ∧ env.malloc_src = some raw ∧
      c = udpmemcpy.child size env ∧
      (udpmemcpy.main opts env).parent
        = Run.pre [.call .malloc, .call .fork] (udpmemcpy.parent size (build_src size raw) env) := by
  unfold udpmemcpy.main at h ⊢
  cases hp : parse_args opts 0 with
  | none => simp [hp] at h
  | some size =>
    simp only [hp] at h ⊢
    by_cases hs : size ≤ 0
    · simp [hs] at h
    · cases hm : env.malloc_src with
      | none => simp [hs, hm] at h
      | some raw =>
        by_cases hf : env.fork_ok = true
        · simp only [hs, hm, hf, if_false, Bool.not_true, Bool.false_eq_true] at h ⊢
          exact ⟨size, raw, rfl, by omega, rfl, by simpa using h.symm, rfl⟩
        · simp [hs, hm, hf] at h

/-- When `main` of `zmqmemcpy` forks, the command-line size is positive, the source buffer
was allocated and built, and the two branches run with these values. -/
theorem zmq_main_child (opts : List GetoptResult) (env : zmqmemcpy.Env) (c : Run)
    (h : (zmqmemcpy.main opts env).child = some c) :
    ∃ size raw, parse_args opts 0 = some size ∧ 0 < size ∧ env.malloc_src = some raw ∧
      c = zmqmemcpy.child size env ∧
      (zmqmemcpy.main opts env).parent
        = Run.pre [.call .malloc, .call .fork] (zmqmemcpy.parent size (build_src size raw) env) := by
  unfold zmqmemcpy.main at h ⊢
  cases hp : parse_args opts 0 with
  | none => simp [hp] at h
  | some size =>
    simp only [hp] at h ⊢
    by_cases hs : size ≤ 0
    · simp [hs] at h
    · cases hm : env.malloc_src with
      | none => simp [hs, hm] at h
      | some raw =>
        by_cases hf : env.fork_ok = true
        · simp only [hs, hm, hf, if_false, Bool.not_true, Bool.false_eq_true] at h ⊢
          exact ⟨size, raw, rfl, by omega, rfl, by simpa using h.symm, rfl⟩
        · simp [hs, hm, hf] at h

/-- When `main` of `dbusmemcpy` forks, the command-line size is positive, the source buffer
was allocated and built, and the two branches run with these values. -/
theorem dbus_main_child (opts : List GetoptResult) (env : dbusmemcpy.Env) (c : Run)
    (h : (dbusmemcpy.main opts env).child = some c) :
    ∃ size raw, parse_args opts 0 = some size ∧ 0 < size ∧ env.malloc_src = some raw ∧
      c = dbusmemcpy.child env ∧
      (dbusmemcpy.main opts env).parent
        = Run.pre [.call .malloc, .call .fork] (dbusmemcpy.parent size (build_src size raw) env) := by
  unfold dbusmemcpy.main at h ⊢
  cases hp : parse_args opts 0 with
  | none => simp [hp] at h
  | some size =>
    simp only [hp] at h ⊢
    by_cases hs : size ≤ 0
    · simp [hs] at h
    · cases hm : env.malloc_src with
      | none => simp [hs, hm] at h
      | some raw =>
        by_cases hf : env.fork_ok = true
        · simp only [hs, hm, hf, if_false, Bool.not_true, Bool.false_eq_true] at h ⊢
          exact ⟨size, raw, rfl, by omega, rfl, by simpa using h.symm, rfl⟩
        · simp [hs, hm, hf] at h

/-- When `main` of `shmemcpy` forks, the command-line size is positive, the source buffer
was allocated and built, and the two branches run with these values. -/
theorem shm_main_child (opts : List GetoptResult) (env : shmemcpy.Env) (c : Run)
    (h : (shmemcpy.main opts env).child = some c) :
    ∃ size raw, parse_args opts 0 = some size ∧ 0 < size ∧ env.malloc_src = some raw ∧
      c = shmemcpy.child env ∧
      (shmemcpy.main opts env).parent
        = Run.pre [.call .malloc, .call .shm_open, .call .ftruncate, .call .fork]
            (shmemcpy.parent size (build_src size raw) env) := by
  unfold shmemcpy.main at h ⊢
  cases hp : parse_args opts 0 with
  | none => simp [hp] at h
  | some size =>
    simp only [hp] at h ⊢
    by_cases hs : size ≤ 0
    · simp [hs] at h
    · cases hm : env.malloc_src with
      | none => simp [hs, hm] at h
      | some raw =>
        by_cases ho : env.shm_open_ok = true
        · by_cases ht : env.ftruncate_ok = true
          · by_cases hf : env.fork_ok = true
            · simp only [hs, hm, ho, ht, hf, if_false, Bool.not_true, Bool.false_eq_true] at h ⊢
              exact ⟨size, raw, rfl, by omega, rfl, by simpa using h.symm, rfl⟩
            · simp [hs, hm, ho, ht, hf] at h
          · simp [hs, hm, ho, ht] at h
        · simp [hs, hm, ho] at h

/-- When the option loop completes, `size` is the last `--size` value, or the initial
value if there is none. -/
theorem parse_args_eq_last_size : ∀ (opts : List GetoptResult) (s v : Int),
    parse_args opts s = some v → v = (last_size opts).getD s := by
  intro opts
  induction opts with
  | nil =>
    intro s v h
    simp [parse_args] at h
    simp [last_size, h]
  | cons o rest ih =>
    intro s v h
    cases o with
    | size_option w =>
      simp only [parse_args] at h
      have := ih w v h
      simp only [last_size]
      cases hl : last_size rest with
      | none => simp [hl] at this ⊢; exact this
      | some x => simp [hl] at this ⊢; exact this
    | unrecognised => simp [parse_args] at h

/-- With a `--size` value that is not positive, or none, the option loop ends in the usage
error or with `size <= 0`. -/
theorem parse_args_nonpos (opts : List GetoptResult)
    (h : ∀ v, last_size opts = some v → v ≤ 0) (size : Int)
    (hp : parse_args opts 0 = some size) : size ≤ 0 := by
  have := parse_args_eq_last_size opts 0 size hp
  cases hl : last_size opts with
  | none => simp [hl] at this; omega
  | some x =>
    simp [hl] at this
    rw [this]
    exact h x hl

/-- C6: for every command line whose `--size` value parses to an integer `<= 0`, or that
gives no `--size` at all, each program returns exit code 1 before it forks a responder and
before it creates any transport resource: there is no child, and the trace of the process
is a single line on standard error (the `size <= 0` message, or the usage line when an
unrecognised option comes first). -/
theorem nonpositive_size_rejected (opts : List GetoptResult)
    (h : ∀ v, last_size opts = some v → v ≤ 0) :
    (∀ env, (memcpy.main opts env).status = some 1 ∧
      ((memcpy.main opts env).trace = [.stderr invalid_size_line] ∨
        (memcpy.main opts env).trace = [.stderr usage_line])) ∧
    (∀ env, (shmemcpy.main opts env).child = none ∧
      (shmemcpy.main opts env).parent.status = some 1 ∧
      ((shmemcpy.main opts env).parent.trace = [.stderr invalid_size_line] ∨
        (shmemcpy.main opts env).parent.trace = [.stderr usage_line]) ∧
      ∀ e ∈ (shmemcpy.main opts env).events, e.is_fork_or_transport = false) ∧
    (∀ env, (tcpmemcpy.main opts env).child = none ∧
      (tcpmemcpy.main opts env).parent.status = some 1 ∧
      ((tcpmemcpy.main opts env).parent.trace = [.stderr invalid_size_line] ∨
        (tcpmemcpy.main opts env).parent.trace = [.stderr usage_line]) ∧
      ∀ e ∈ (tcpmemcpy.main opts env).events, e.is_fork_or_transport = false) ∧
    (∀ env, (udpmemcpy.main opts env).child = none ∧
      (udpmemcpy.main opts env).parent.status = some 1 ∧
      ((udpmemcpy.main opts env).parent.trace = [.stderr invalid_size_line] ∨
        (udpmemcpy.main opts env).parent.trace = [.stderr usage_line]) ∧
      ∀ e ∈ (udpmemcpy.main opts env).events, e.is_fork_or_transport = false) ∧
    (∀ env, (zmqmemcpy.main opts env).child = none ∧
      (zmqmemcpy.main opts env).parent.status = some 1 ∧
      ((zmqmemcpy.main opts env).parent.trace = [.stderr invalid_size_line] ∨
        (zmqmemcpy.main opts env).parent.trace = [.stderr usage_line]) ∧
      ∀ e ∈ (zmqmemcpy.main opts env).events, e.is_fork_or_transport = false) ∧
    (∀ env, (dbusmemcpy.main opts env).child = none ∧
      (dbusmemcpy.main opts env).parent.status = some 1 ∧
      ((dbusmemcpy.main opts env).parent.trace = [.stderr invalid_size_line] ∨
        (dbusmemcpy.main opts env).parent.trace = [.stderr usage_line]) ∧
      ∀ e ∈ (dbusmemcpy.main opts env).events, e.is_fork_or_transport = false) := by
  have hsz := parse_args_nonpos opts h
  refine ⟨?_, ?_, ?_, ?_, ?_, ?_⟩
  · intro env
    unfold memcpy.main
    cases hp : parse_args opts 0 with
    | none => simp [EXIT_FAILURE]
    | some size => simp [hsz size hp, EXIT_FAILURE]
  · intro env
    unfold shmemcpy.main
    cases hp : parse_args opts 0 with
    | none => simp [EXIT_FAILURE, Outcome.events, Event.is_fork_or_transport]
    | some size => simp [hsz size hp, EXIT_FAILURE, Outcome.events, Event.is_fork_or_transport]
  · intro env
    unfold tcpmemcpy.main
    cases hp : parse_args opts 0 with
    | none => simp [EXIT_FAILURE, Outcome.events, Event.is_fork_or_transport]
    | some size => simp [hsz size hp, EXIT_FAILURE, Outcome.events, Event.is_fork_or_transport]
  · intro env
    unfold udpmemcpy.main
    cases hp : parse_args opts 0 with
    | none => simp [EXIT_FAILURE, Outcome.events, Event.is_fork_or_transport]
    | some size => simp [hsz size hp, EXIT_FAILURE, Outcome.events, Event.is_fork_or_transport]
  · intro env
    unfold zmqmemcpy.main
    cases hp : parse_args opts 0 with
    | none => simp [EXIT_FAILURE, Outcome.events, Event.is_fork_or_transport]
    | some size => simp [hsz size hp, EXIT_FAILURE, Outcome.events, Event.is_fork_or_transport]
  · intro env
    unfold dbusmemcpy.main
    cases hp : parse_args opts 0 with
    | none => simp [EXIT_FAILURE, Outcome.events, Event.is_fork_or_transport]
    | some size => simp [hsz size hp, EXIT_FAILURE, Outcome.events, Event.is_fork_or_transport]

/-- Witness of `nonpositive_size_rejected`: `udpmemcpy --size 0` creates no socket. -/
theorem nonpositive_size_rejected_witness :
    (udpmemcpy.main [.size_option 0]
      { malloc_src := none, fork_ok := true, child_socket_ok := true, bind_ok := true,
        malloc_dst := none, datagram := none, end_time := ⟨0, 0⟩, sigusr1_received := true,
        parent_socket_ok := true, start_time := ⟨0, 0⟩, sendto_ok := true }).child = none ∧
    (udpmemcpy.main [.size_option 0]
      { malloc_src := none, fork_ok := true, child_socket_ok := true, bind_ok := true,
        malloc_dst := none, datagram := none, end_time := ⟨0, 0⟩, sigusr1_received := true,
        parent_socket_ok := true, start_time := ⟨0, 0⟩, sendto_ok := true }).parent.status
      = some 1 :=
  ⟨((nonpositive_size_rejected [.size_option 0] (by simp [last_size])).2.2.2.1 _).1,
   ((nonpositive_size_rejected [.size_option 0] (by simp [last_size])).2.2.2.1 _).2.1⟩

/-! ## Encoding and decoding of the payload -/

/-- The pattern has `n` bytes. -/
theorem pattern_length (n : Nat) : (pattern n).length = n := by
  simp [pattern]

/-- Byte `i` of the pattern is `i mod 256`. -/
theorem pattern_get (n i : Nat) (h : i < n) : (pattern n)[i]? = some (i % 256) := by
  simp [pattern, List.getElem?_range h]

/-- The first `size` data bytes of the source buffer are the pattern. -/
theorem src_data_take (size : Int) (raw : buf_data_t) (hraw : size.toNat ≤ raw.data.length)
    (t : timeval) :
    (stamped_src size raw t).data.take size.toNat = pattern size.toNat := by
  apply List.ext_getElem?
  intro i
  simp only [stamped_src, build_src, List.getElem?_take]
  by_cases hi : i < size.toNat
  · rw [if_pos hi, fill_loop_get _ _ _ _ (by omega), pattern_get _ _ hi]
    have : 0 ≤ i ∧ i < 0 + size.toNat := by omega
    rw [if_pos this]
  · rw [if_neg hi]
    have : (pattern size.toNat).length ≤ i := by rw [pattern_length]; omega
    rw [List.getElem?_eq_none this]

/-- The payload of the ZeroMQ parent is the time stamp followed by the pattern. -/
theorem zmq_payload_eq (size : Int) (raw : buf_data_t) (hraw : size.toNat ≤ raw.data.length)
    (t : timeval) :
    zmqmemcpy.payload size (stamped_src size raw t) = t.bytes ++ pattern size.toNat := by
  unfold zmqmemcpy.payload
  rw [src_data_take size raw hraw t]
  rfl

/-- The payload of the D-Bus parent is the time stamp followed by the pattern. -/
theorem dbus_payload_eq (size : Int) (raw : buf_data_t) (hraw : size.toNat ≤ raw.data.length)
    (t : timeval) :
    dbusmemcpy.payload size (stamped_src size raw t) = t.bytes ++ pattern size.toNat := by
  unfold dbusmemcpy.payload
  rw [src_data_take size raw hraw t]
  rfl

/-- The first sixteen bytes of a time stamp followed by data are the time stamp. -/
theorem take_timeval_bytes (t : timeval) (rest : List Nat) :
    (t.bytes ++ rest).take sizeof_timeval = t.bytes := by
  unfold sizeof_timeval
  rw [List.take_append_of_le_length (by rw [timeval_bytes_length])]
  exact List.take_of_length_le (by rw [timeval_bytes_length])

/-- What follows the first sixteen bytes of a time stamp followed by data is the data. -/
theorem drop_timeval_bytes (t : timeval) (rest : List Nat) :
    (t.bytes ++ rest).drop sizeof_timeval = rest := by
  unfold sizeof_timeval
  rw [List.drop_append_of_le_length (by rw [timeval_bytes_length])]
  rw [List.drop_of_length_le (by rw [timeval_bytes_length])]
  rfl

/-- A time stamp alone written to memory and read back is unchanged. -/
theorem timeval_of_bytes_self (t : timeval) (ht : t.in_range) : timeval.of_bytes t.bytes = t := by
  have := timeval_of_bytes_bytes t ht []
  rwa [List.append_nil] at this

/-- C7: for every size > 0 and every start time stamp `t`, decoding on the responder the
message the initiator encodes (D-Bus: `uint32` size argument plus byte array of time stamp
and data; ZeroMQ: one message of time stamp and data) yields the same size, the same start
time stamp `t`, and `size` data bytes equal to the pattern-filled bytes.  (`size` is a C
`int`, the fields of `t` are C `long`s, the source block holds at least `size` data bytes
and the receive buffer of the ZeroMQ child has the `max_recv` bytes it was allocated with.) -/
theorem decode_encode_roundtrip (size : Int) (h0 : 0 < size) (hmax : size ≤ INT_MAX)
    (raw : buf_data_t) (hraw : size.toNat ≤ raw.data.length) (t : timeval) (ht : t.in_range) :
    dbusmemcpy.child_decode (dbusmemcpy.parent_message size (stamped_src size raw t))
      = .ok (size.toNat, t, pattern size.toNat) ∧
    (∀ recv_buf : List Nat, recv_buf.length = size_t_of_int (sizeof_timeval + size) →
      zmqmemcpy.child_decode size recv_buf (some (zmqmemcpy.payload size (stamped_src size raw t)))
        = some (size, t, pattern size.toNat)) := by
  constructor
  · rw [dbus_child_decode_parent_message, dbus_payload_eq size raw hraw t, take_timeval_bytes,
      drop_timeval_bytes, timeval_of_bytes_self t ht]
    simp only [stamped_src, build_src]
    rw [uint32_of_int_of_pos size h0 hmax]
  · intro recv_buf hlen
    have hmr : size_t_of_int (sizeof_timeval + size) = 16 + size.toNat := by
      unfold size_t_of_int sizeof_timeval
      unfold INT_MAX at hmax
      omega
    have hpl : (t.bytes ++ pattern size.toNat).length = 16 + size.toNat := by
      rw [List.length_append, timeval_bytes_length, pattern_length]
    rw [hmr] at hlen
    have hstore : store recv_buf 0 ((t.bytes ++ pattern size.toNat).take (16 + size.toNat))
        = t.bytes ++ pattern size.toNat := by
      rw [List.take_of_length_le (by rw [hpl])]
      unfold store
      rw [hpl, List.drop_of_length_le (by omega)]
      simp
    have hnot : ¬ (((t.bytes ++ pattern size.toNat).length : Int) < (sizeof_timeval : Int)) := by
      rw [hpl]
      unfold sizeof_timeval
      omega
    simp only [zmqmemcpy.child_decode, zmqmemcpy.zmq_recv, zmq_payload_eq size raw hraw t, hmr,
      hstore]
    rw [if_neg hnot, take_timeval_bytes, drop_timeval_bytes, timeval_of_bytes_self t ht]

/-- Witness of `decode_encode_roundtrip`: three bytes stamped (10, 900000) over D-Bus. -/
theorem decode_encode_roundtrip_witness :
    dbusmemcpy.child_decode (dbusmemcpy.parent_message 3
        (stamped_src 3 ⟨⟨0, 0⟩, ⟨0, 0⟩, 0, [9, 9, 9, 9, 9, 9, 9]⟩ ⟨10, 900000⟩))
      = .ok (3, ⟨10, 900000⟩, [0, 1, 2]) :=
  (decode_encode_roundtrip 3 (by decide) (by decide) ⟨⟨0, 0⟩, ⟨0, 0⟩, 0, [9, 9, 9, 9, 9, 9, 9]⟩
    (by decide) ⟨10, 900000⟩ (by unfold timeval.in_range; decide)).1

/-! ## What the initiator hands to the transport -/

/-- The time stamp followed by the pattern has the layout of the specification. -/
theorem is_timestamp_then_data_pattern (size : Int) (t : timeval) :
    is_timestamp_then_data (t.bytes ++ pattern size.toNat) size t := by
  refine ⟨take_timeval_bytes t _, ?_, ?_⟩
  · rw [List.length_append, timeval_bytes_length, pattern_length]
  · intro i hi
    rw [List.getElem?_append_right (by rw [timeval_bytes_length]; omega), timeval_bytes_length]
    have : 16 + i - 16 = i := by omega
    rw [this]
    exact pattern_get _ _ hi

/-- The block of a source buffer whose data area has the `size + 4` bytes that
`malloc(sizeof(buf_data_t) + size)` provides is the whole buffer record. -/
theorem is_buffer_record_block (size : Int) (h0 : 0 < size) (hmax : size ≤ INT_MAX)
    (raw : buf_data_t) (hraw : raw.data.length = size.toNat + 4) (t : timeval) :
    is_buffer_record (block_bytes size (stamped_src size raw t)) size t raw.end_ := by
  have hlen : (stamped_src size raw t).bytes.length = 40 + size.toNat := by
    rw [buf_bytes_length]
    simp only [stamped_src, build_src, fill_loop_length]
    omega
  have hb : block_bytes size (stamped_src size raw t) = (stamped_src size raw t).bytes := by
    unfold block_bytes
    rw [total_size_eq size h0 hmax]
    exact List.take_of_length_le (by rw [hlen])
  rw [hb]
  have hbytes : (stamped_src size raw t).bytes
      = t.bytes ++ (raw.end_.bytes ++ (le_bytes 4 (uint32_of_int size)
          ++ fill_loop raw.data 0 size.toNat)) := by
    simp [stamped_src, build_src, buf_data_t.bytes]
  refine ⟨hlen, ?_, ?_, load_size_src size h0 hmax raw t, ?_⟩
  · rw [hbytes]
    exact take_timeval_bytes t _
  · rw [hbytes]
    show List.take sizeof_timeval (List.drop sizeof_timeval _) = _
    rw [drop_timeval_bytes]
    exact take_timeval_bytes raw.end_ _
  · intro i hi
    rw [hbytes]
    rw [List.getElem?_append_right (by rw [timeval_bytes_length]; omega), timeval_bytes_length]
    rw [List.getElem?_append_right (by rw [timeval_bytes_length]; omega), timeval_bytes_length]
    rw [List.getElem?_append_right (by rw [le_bytes_length]; omega), le_bytes_length]
    have : 36 + i - 16 - 16 - 4 = i := by omega
    rw [this, fill_loop_get _ _ _ _ (by omega)]
    have : 0 ≤ i ∧ i < 0 + size.toNat := by omega
    rw [if_pos this]

/-- The run of the TCP parent once the signal has arrived and `socket` and `connect` have
succeeded: it stamps the buffer, calls `full_write`, prints one line if the result is not
`total_size`, closes the socket and waits for the child. -/
theorem tcp_parent_connected (size : Int) (src : buf_data_t) (env : tcpmemcpy.Env)
    (h1 : env.sigusr1_received = true) (h2 : env.parent_socket_ok = true)
    (h3 : env.connect_ok = true) :
    tcpmemcpy.parent size src env
      = Run.pre ([.call .signal, .await .SIGUSR1, .call .socket, .call .connect,
            .call .gettimeofday,
            .transmit .full_write (block_bytes size { src with start := env.start_time })]
            ++ (if size_t_of_int (tcpmemcpy.full_write env.writes
                    (size_t_of_int (sizeof_buf_data_t + size)))
                  ≠ size_t_of_int (sizeof_buf_data_t + size)
                then [.stderr tcpmemcpy.short_write_line] else [])
            ++ [.call .close])
          (wait_then (tcpmemcpy.child size env)
            { trace := [.call .free], status := some EXIT_SUCCESS }) := by
  simp [tcpmemcpy.parent, Run.pre, h1, h2, h3, tcpmemcpy.short_write_line]

/-- The only byte sequence the TCP parent hands to the transport is the block of the stamped
source buffer, passed to `full_write`. -/
theorem tcp_parent_transmit (size : Int) (raw : buf_data_t) (env : tcpmemcpy.Env) (c : Call)
    (bytes : List Nat)
    (h : Event.transmit c bytes ∈ (tcpmemcpy.parent size (build_src size raw) env).trace) :
    c = .full_write ∧ bytes = block_bytes size (stamped_src size raw env.start_time) := by
  simp only [tcpmemcpy.parent, Run.pre, wait_then] at h
  split_ifs at h <;> simp at h <;> exact h

/-- The only byte sequence the UDP parent hands to the transport is the block of the stamped
source buffer, passed to `sendto`. -/
theorem udp_parent_transmit (size : Int) (raw : buf_data_t) (env : udpmemcpy.Env) (c : Call)
    (bytes : List Nat)
    (h : Event.transmit c bytes ∈ (udpmemcpy.parent size (build_src size raw) env).trace) :
    c = .sendto ∧ bytes = block_bytes size (stamped_src size raw env.start_time) := by
  simp only [udpmemcpy.parent, Run.pre, wait_then] at h
  split_ifs at h <;> simp at h <;> exact h

/-- The only byte sequence the shared-memory parent copies into the region is the block of
the stamped source buffer. -/
theorem shm_parent_transmit (size : Int) (raw : buf_data_t) (env : shmemcpy.Env) (c : Call)
    (bytes : List Nat)
    (h : Event.transmit c bytes ∈ (shmemcpy.parent size (build_src size raw) env).trace) :
    c = .memcpy ∧ bytes = block_bytes size (stamped_src size raw env.start_time) := by
  simp only [shmemcpy.parent, Run.pre, wait_then] at h
  split_ifs at h <;> simp at h <;> exact h

/-- The only byte sequence the ZeroMQ parent hands to the transport is the payload of the
stamped source buffer, passed to `zmq_send`. -/
theorem zmq_parent_transmit (size : Int) (raw : buf_data_t) (env : zmqmemcpy.Env) (c : Call)
    (bytes : List Nat)
    (h : Event.transmit c bytes ∈ (zmqmemcpy.parent size (build_src size raw) env).trace) :
    c = .zmq_send ∧ bytes = zmqmemcpy.payload size (stamped_src size raw env.start_time) := by
  simp only [zmqmemcpy.parent, Run.pre, wait_then] at h
  split_ifs at h <;> simp at h <;> exact h

/-- The only message the D-Bus parent sends is the `TransferData` call built from the
stamped source buffer. -/
theorem dbus_parent_send (size : Int) (raw : buf_data_t) (env : dbusmemcpy.Env)
    (msg : DBusMessage)
    (h : Event.dbus_send msg ∈ (dbusmemcpy.parent size (build_src size raw) env).trace) :
    msg = dbusmemcpy.parent_message size (stamped_src size raw env.start_time) := by
  simp only [dbusmemcpy.parent, Run.pre, wait_then] at h
  split_ifs at h <;> simp at h <;> exact h

/-- C8 (counterexample): for size 1 the TCP parent hands to `full_write` the block of 41
bytes, not the 17 bytes "time stamp, then data". -/
theorem tcp_block_not_timestamp_then_data :
    Event.transmit .full_write (sent_block 1 ⟨10, 900000⟩)
      ∈ (tcpmemcpy.parent 1 (build_src 1 (zero_block 5))
          (tcpmemcpy.env_ok 1 ⟨10, 900000⟩ ⟨11, 100000⟩)).trace ∧
    (sent_block 1 ⟨10, 900000⟩).length = 41 ∧
    ¬ is_timestamp_then_data (sent_block 1 ⟨10, 900000⟩) 1 ⟨10, 900000⟩ := by
  refine ⟨?_, by decide, ?_⟩
  · rw [tcp_parent_connected 1 _ _ rfl rfl rfl]
    simp [Run.pre, tcpmemcpy.env_ok, sent_block, stamped_src]
  · intro h
    have h2 := h.2.1
    revert h2
    decide

/-- C8 (amended): for every size > 0 and start time stamp, the ZeroMQ and D-Bus parents
hand to the transport the 16-byte start time stamp followed immediately by exactly `size`
data bytes (length `16 + size`, byte `16 + i` equal to `i mod 256`), the D-Bus message
carrying the size as a separate `uint32` argument; the TCP, UDP and shared-memory parents
hand over the whole buffer record of `sizeof(buf_data_t) + size = 40 + size` bytes: start
time stamp in bytes 0 to 15, `end` field in bytes 16 to 31, size word in bytes 32 to 35 and
data byte `i` at offset `36 + i`. -/
theorem wire_layout (size : Int) (h0 : 0 < size) (hmax : size ≤ INT_MAX) (raw : buf_data_t)
    (hraw : raw.data.length = size.toNat + 4) :
    (∀ (env : zmqmemcpy.Env) (c : Call) (bytes : List Nat),
      Event.transmit c bytes ∈ (zmqmemcpy.parent size (build_src size raw) env).trace →
      c = .zmq_send ∧ is_timestamp_then_data bytes size env.start_time) ∧
    (∀ (env : dbusmemcpy.Env) (msg : DBusMessage),
      Event.dbus_send msg ∈ (dbusmemcpy.parent size (build_src size raw) env).trace →
      ∃ bytes, msg.args = [.uint32 size.toNat, .byte_array bytes] ∧
        is_timestamp_then_data bytes size env.start_time) ∧
    (∀ (env : tcpmemcpy.Env) (c : Call) (bytes : List Nat),
      Event.transmit c bytes ∈ (tcpmemcpy.parent size (build_src size raw) env).trace →
      c = .full_write ∧ is_buffer_record bytes size env.start_time raw.end_) ∧
    (∀ (env : udpmemcpy.Env) (c : Call) (bytes : List Nat),
      Event.transmit c bytes ∈ (udpmemcpy.parent size (build_src size raw) env).trace →
      c = .sendto ∧ is_buffer_record bytes size env.start_time raw.end_) ∧
    (∀ (env : shmemcpy.Env) (c : Call) (bytes : List Nat),
      Event.transmit c bytes ∈ (shmemcpy.parent size (build_src size raw) env).trace →
      c = .memcpy ∧ is_buffer_record bytes size env.start_time raw.end_) := by
  have hraw2 : size.toNat ≤ raw.data.length := by omega
  refine ⟨?_, ?_, ?_, ?_, ?_⟩
  · intro env c bytes h
    obtain ⟨hc, hb⟩ := zmq_parent_transmit size raw env c bytes h
    rw [hb, zmq_payload_eq size raw hraw2]
    exact ⟨hc, is_timestamp_then_data_pattern size _⟩
  · intro env msg h
    rw [dbus_parent_send size raw env msg h]
    refine ⟨_, ?_, is_timestamp_then_data_pattern size env.start_time⟩
    have hp := dbus_payload_eq size raw hraw2 env.start_time
    simp only [dbusmemcpy.parent_message, hp]
    simp only [stamped_src, build_src]
    rw [uint32_of_int_of_pos size h0 hmax]
  · intro env c bytes h
    obtain ⟨hc, hb⟩ := tcp_parent_transmit size raw env c bytes h
    rw [hb]
    exact ⟨hc, is_buffer_record_block size h0 hmax raw hraw _⟩
  · intro env c bytes h
    obtain ⟨hc, hb⟩ := udp_parent_transmit size raw env c bytes h
    rw [hb]
    exact ⟨hc, is_buffer_record_block size h0 hmax raw hraw _⟩
  · intro env c bytes h
    obtain ⟨hc, hb⟩ := shm_parent_transmit size raw env c bytes h
    rw [hb]
    exact ⟨hc, is_buffer_record_block size h0 hmax raw hraw _⟩

/-- Witness of `wire_layout`: the block the TCP parent sends for size 1 is the buffer
record of 41 bytes. -/
theorem wire_layout_witness :
    is_buffer_record (sent_block 1 ⟨10, 900000⟩) 1 ⟨10, 900000⟩ ⟨0, 0⟩ :=
  ((wire_layout 1 (by decide) (by decide) (zero_block 5) (by decide)).2.2.1
    (tcpmemcpy.env_ok 1 ⟨10, 900000⟩ ⟨11, 100000⟩) .full_write (sent_block 1 ⟨10, 900000⟩)
    (by rw [tcp_parent_connected 1 _ _ rfl rfl rfl]
        simp [Run.pre, tcpmemcpy.env_ok, sent_block, stamped_src])).2

/-! ## Malformed messages on the responder -/

/-- The shared responder tail always prints a result, runs the clean-up and exits
successfully. -/
theorem report_and_exit_ok (start end_ : timeval) (bytes : Nat) (cleanup : List Event) :
    ∃ r, report start end_ bytes = .ok r ∧ r.bytes = bytes ∧
      report_and_exit start end_ bytes cleanup
        = { trace := .stdout_result r :: cleanup, status := some EXIT_SUCCESS } := by
  obtain ⟨r, hr, _, hb, _⟩ := report_spec start end_ bytes
  refine ⟨r, hr, hb, ?_⟩
  unfold report_and_exit
  rw [hr]

/-- The ZeroMQ child takes nothing from a failed receive or a message shorter than the
time stamp. -/
theorem zmq_child_decode_short (size : Int) (recv_buf : List Nat) (message : Option (List Nat))
    (hshort : ∀ m, message = some m → m.length < 16) :
    zmqmemcpy.child_decode size recv_buf message = none := by
  unfold zmqmemcpy.child_decode zmqmemcpy.zmq_recv sizeof_timeval
  cases message with
  | none => simp
  | some m =>
    have := hshort m rfl
    have h2 : ((m.length : Int)) < ((16 : Nat) : Int) := by exact_mod_cast this
    simp only [h2, if_true]

/-- The ZeroMQ child takes the time stamp from any message of at least sixteen bytes. -/
theorem zmq_child_decode_long (size : Int) (recv_buf m : List Nat) (hlong : 16 ≤ m.length) :
    ∃ start data, zmqmemcpy.child_decode size recv_buf (some m) = some (size, start, data) := by
  unfold zmqmemcpy.child_decode zmqmemcpy.zmq_recv sizeof_timeval
  have h2 : ¬ ((m.length : Int)) < ((16 : Nat) : Int) := by
    have : ((16 : Nat) : Int) ≤ (m.length : Int) := by exact_mod_cast hlong
    omega
  simp only [h2, if_false]
  exact ⟨_, _, rfl⟩

/-- The D-Bus child accepts a message exactly when its first argument is a `uint32` and
its second argument is an array of at least sixteen elements: sixteen bytes for an array
of bytes, sixteen elements of whatever fixed-size type otherwise. -/
theorem dbus_child_decode_ok_iff (msg : DBusMessage) :
    (∃ v, dbusmemcpy.child_decode msg = .ok v) ↔
      (∃ n data more, msg.args = .uint32 n :: .byte_array data :: more ∧ 16 ≤ data.length) ∨
      (∃ n count raw more, msg.args = .uint32 n :: .fixed_array count raw :: more ∧
        16 ≤ count) := by
  unfold dbusmemcpy.child_decode sizeof_timeval
  generalize msg.args = args
  constructor
  · intro ⟨v, hv⟩
    rcases args with _ | ⟨(n | bs | ⟨c, r⟩ | _), (_ | ⟨(m | data | ⟨count, raw⟩ | _), more⟩)⟩ <;>
      simp at hv
    · split_ifs at hv with hlen
      exact Or.inl ⟨n, data, more, rfl, by omega⟩
    · split_ifs at hv with hlen
      exact Or.inr ⟨n, count, raw, more, rfl, by omega⟩
  · rintro (⟨n, data, more, hargs, hlen⟩ | ⟨n, count, raw, more, hargs, hlen⟩)
    · rw [hargs]
      simp only
      rw [if_neg (by omega)]
      exact ⟨_, rfl⟩
    · rw [hargs]
      simp only
      rw [if_neg (by omega)]
      exact ⟨_, rfl⟩

/-- A `TransferData` call that does not decode is dropped after an error line, and the
D-Bus child goes on with the next message. -/
theorem dbus_child_loop_skip (end_time : timeval) (msg : DBusMessage)
    (rest : List (Option DBusMessage)) (line : String)
    (hcall : dbusmemcpy.dbus_message_is_method_call msg dbusmemcpy.transfer_interface
      dbusmemcpy.transfer_member = true)
    (hdec : dbusmemcpy.child_decode msg = .error line) :
    dbusmemcpy.child_loop end_time (some msg :: rest)
      = Run.pre [.call .dbus_connection_read_write, .call .dbus_connection_pop_message,
          .stderr line, .call .dbus_message_unref] (dbusmemcpy.child_loop end_time rest) := by
  simp only [dbusmemcpy.child_loop, hcall, hdec, if_true, Run.pre]
  simp

/-- A `TransferData` call that decodes is reported with the declared size, and the D-Bus
child exits successfully. -/
theorem dbus_child_loop_report (end_time : timeval) (msg : DBusMessage)
    (rest : List (Option DBusMessage)) (n : Nat) (start : timeval) (data : List Nat)
    (hcall : dbusmemcpy.dbus_message_is_method_call msg dbusmemcpy.transfer_interface
      dbusmemcpy.transfer_member = true)
    (hdec : dbusmemcpy.child_decode msg = .ok (n, start, data)) :
    ∃ r, r.bytes = n ∧ report start end_time n = .ok r ∧
      dbusmemcpy.child_loop end_time (some msg :: rest)
        = { trace := [.call .dbus_connection_read_write, .call .dbus_connection_pop_message,
              .call .gettimeofday, .stdout_result r, .call .dbus_message_unref,
              .call .dbus_connection_unref],
            status := some EXIT_SUCCESS } := by
  obtain ⟨r, hr, hb, hrun⟩ := report_and_exit_ok start end_time n
    [.call .dbus_message_unref, .call .dbus_connection_unref]
  refine ⟨r, hb, hr, ?_⟩
  simp only [dbusmemcpy.child_loop, hcall, hdec, if_true, Run.pre, hrun]
  simp

/-- The D-Bus child that has connected to the bus and obtained its name sends the
readiness signal and enters the message loop. -/
theorem dbus_child_started (env : dbusmemcpy.Env) (h1 : env.child_bus_get_ok = true)
    (h2 : env.request_name_ok = true) :
    dbusmemcpy.child env
      = Run.pre [.call .dbus_bus_get, .call .dbus_bus_request_name, .kill .SIGUSR1]
          (dbusmemcpy.child_loop env.end_time env.incoming) := by
  simp only [dbusmemcpy.child, h1, h2, Run.pre, Bool.not_true, Bool.false_eq_true,
    if_false, List.singleton_append, List.cons_append, List.nil_append]

/-- C9 (counterexample): a D-Bus `TransferData` call whose declared size (100) differs
from the number of bytes that follow the header (0) is not rejected: the responder reports
a result for 100 bytes and exits with status 0. -/
theorem dbus_size_mismatch_is_reported :
    dbusmemcpy.child_decode dbusmemcpy.mismatched_message = .ok (100, ⟨10, 900000⟩, []) ∧
    (dbusmemcpy.child dbusmemcpy.env_mismatched).status = some 0 ∧
    ∃ r, Event.stdout_result r ∈ (dbusmemcpy.child dbusmemcpy.env_mismatched).trace ∧
      r.bytes = 100 := by
  have hdec : dbusmemcpy.child_decode dbusmemcpy.mismatched_message
      = .ok (100, ⟨10, 900000⟩, []) := by rfl
  have hcall : dbusmemcpy.dbus_message_is_method_call dbusmemcpy.mismatched_message
      dbusmemcpy.transfer_interface dbusmemcpy.transfer_member = true := by decide
  obtain ⟨r, hb, _, hrun⟩ := dbus_child_loop_report ⟨11, 100000⟩
    dbusmemcpy.mismatched_message [] 100 ⟨10, 900000⟩ [] hcall hdec
  have h3 : dbusmemcpy.env_mismatched.incoming = [some dbusmemcpy.mismatched_message] := rfl
  have h4 : dbusmemcpy.env_mismatched.end_time = ⟨11, 100000⟩ := rfl
  rw [dbus_child_started _ rfl rfl, h3, h4, hrun]
  exact ⟨hdec, rfl, r, by simp [Run.pre], hb⟩

/-- C9 (amended): the ZeroMQ responder exits with failure and reports nothing when
`zmq_recv` returns a failure or a message of fewer than 16 bytes; the UDP responder does so
when `recvfrom` returns a failure; the D-Bus responder drops a `TransferData` call whose
first argument is not a `uint32`, whose second is not an array or whose array has fewer
than 16 elements (bytes, for an array of bytes), printing one error line and reporting
nothing, and goes on with the next message (it does not exit).  No responder compares a
declared size with the number of bytes after the header: a ZeroMQ message of at least 16
bytes or a D-Bus array of at least 16 elements, of whatever fixed-size element type, is
reported, with the command-line size (ZeroMQ) or the declared size (D-Bus), and the
responder exits with status 0. -/
theorem malformed_message_handling (size : Int) (end_time : timeval) :
    (∀ env : zmqmemcpy.Env, env.zmq_recv_returns = true →
      (∀ m, env.message = some m → m.length < 16) →
      (zmqmemcpy.child size env).status = some 1 ∧
      ∀ e ∈ (zmqmemcpy.child size env).trace, e.is_result = false) ∧
    (∀ (env : zmqmemcpy.Env) (recv_buf m : List Nat), env.zmq_bind_ok = true →
      env.malloc_recv_buf = some recv_buf → env.zmq_recv_returns = true →
      env.message = some m → 16 ≤ m.length →
      (zmqmemcpy.child size env).status = some 0 ∧
      ∃ r, Event.stdout_result r ∈ (zmqmemcpy.child size env).trace ∧ r.bytes = size.toNat) ∧
    (∀ env : udpmemcpy.Env, env.recvfrom_returns = true → env.datagram = none →
      (udpmemcpy.child size env).status = some 1 ∧
      ∀ e ∈ (udpmemcpy.child size env).trace, e.is_result = false) ∧
    (∀ (msg : DBusMessage) (rest : List (Option DBusMessage)),
      dbusmemcpy.dbus_message_is_method_call msg dbusmemcpy.transfer_interface
        dbusmemcpy.transfer_member = true →
      (¬ ∃ n data more, msg.args = .uint32 n :: .byte_array data :: more ∧ 16 ≤ data.length) →
      (¬ ∃ n count raw more, msg.args = .uint32 n :: .fixed_array count raw :: more ∧
        16 ≤ count) →
      ∃ line, dbusmemcpy.child_loop end_time (some msg :: rest)
        = Run.pre [.call .dbus_connection_read_write, .call .dbus_connection_pop_message,
            .stderr line, .call .dbus_message_unref] (dbusmemcpy.child_loop end_time rest)) ∧
    (∀ (msg : DBusMessage) (rest : List (Option DBusMessage)) (n : Nat) (data : List Nat)
      (more : List DBusArg),
      dbusmemcpy.dbus_message_is_method_call msg dbusmemcpy.transfer_interface
        dbusmemcpy.transfer_member = true →
      msg.args = .uint32 n :: .byte_array data :: more → 16 ≤ data.length →
      (dbusmemcpy.child_loop end_time (some msg :: rest)).status = some 0 ∧
      ∃ r, Event.stdout_result r ∈ (dbusmemcpy.child_loop end_time (some msg :: rest)).trace ∧
        r.bytes = n) ∧
    (∀ (msg : DBusMessage) (rest : List (Option DBusMessage)) (n count : Nat) (raw : List Nat)
      (more : List DBusArg),
      dbusmemcpy.dbus_message_is_method_call msg dbusmemcpy.transfer_interface
        dbusmemcpy.transfer_member = true →
      msg.args = .uint32 n :: .fixed_array count raw :: more → 16 ≤ count →
      (dbusmemcpy.child_loop end_time (some msg :: rest)).status = some 0 ∧
      ∃ r, Event.stdout_result r ∈ (dbusmemcpy.child_loop end_time (some msg :: rest)).trace ∧
        r.bytes = n) := by
  refine ⟨?_, ?_, ?_, ?_, ?_, ?_⟩
  · intro env hret hshort
    simp only [zmqmemcpy.child, Run.pre, hret, Bool.not_true, Bool.false_eq_true, if_false]
    split_ifs
    · simp [EXIT_FAILURE, Event.is_result]
    · cases hm : env.malloc_recv_buf with
      | none => simp [EXIT_FAILURE, Event.is_result]
      | some recv_buf =>
        simp only [zmq_child_decode_short size recv_buf env.message hshort]
        simp [EXIT_FAILURE, Event.is_result]
  · intro env recv_buf m hbind hmalloc hret hmsg hlong
    obtain ⟨start, data, hdec⟩ := zmq_child_decode_long size recv_buf m hlong
    obtain ⟨r, _, hb, hrun⟩ := report_and_exit_ok start env.end_time size.toNat
      [.call .free, .call .zmq_close, .call .zmq_ctx_term]
    simp only [zmqmemcpy.child, Run.pre, hbind, hmalloc, hret, hmsg, hdec, hrun,
      Bool.not_true, Bool.false_eq_true, if_false]
    exact ⟨by simp [EXIT_SUCCESS], r, by simp, hb⟩
  · intro env hret hnone
    simp only [udpmemcpy.child, Run.pre, hnone, hret, Bool.not_true, Bool.false_eq_true,
      if_false]
    split_ifs
    · simp [EXIT_FAILURE, Event.is_result]
    · simp [EXIT_FAILURE, Event.is_result]
    · cases hm : env.malloc_dst with
      | none => simp [EXIT_FAILURE, Event.is_result]
      | some raw => simp [EXIT_FAILURE, Event.is_result]
  · intro msg rest hcall hbad1 hbad2
    cases hdec : dbusmemcpy.child_decode msg with
    | error line => exact ⟨line, dbus_child_loop_skip end_time msg rest line hcall hdec⟩
    | ok v =>
      rcases (dbus_child_decode_ok_iff msg).mp ⟨v, hdec⟩ with h | h
      · exact absurd h hbad1
      · exact absurd h hbad2
  · intro msg rest n data more hcall hargs hlen
    have hdec : dbusmemcpy.child_decode msg
        = .ok (n, timeval.of_bytes (data.take sizeof_timeval), data.drop sizeof_timeval) := by
      unfold dbusmemcpy.child_decode
      rw [hargs]
      simp only
      rw [if_neg (by unfold sizeof_timeval; omega)]
    obtain ⟨r, hb, _, hrun⟩ := dbus_child_loop_report end_time msg rest n _ _ hcall hdec
    rw [hrun]
    exact ⟨rfl, r, by simp, hb⟩
  · intro msg rest n count raw more hcall hargs hlen
    have hdec : dbusmemcpy.child_decode msg
        = .ok (n, timeval.of_bytes (raw.take sizeof_timeval), raw.drop sizeof_timeval) := by
      unfold dbusmemcpy.child_decode
      rw [hargs]
      simp only
      rw [if_neg (by unfold sizeof_timeval; omega)]
    obtain ⟨r, hb, _, hrun⟩ := dbus_child_loop_report end_time msg rest n _ _ hcall hdec
    rw [hrun]
    exact ⟨rfl, r, by simp, hb⟩

/-- Witness of `malformed_message_handling`: the ZeroMQ child given a message of three
bytes exits with status 1. -/
theorem malformed_message_handling_witness :
    (zmqmemcpy.child 1
      { zmqmemcpy.env_ok 1 ⟨10, 900000⟩ ⟨11, 100000⟩ with message := some [1, 2, 3] }).status
      = some 1 :=
  ((malformed_message_handling 1 ⟨11, 100000⟩).1
    { zmqmemcpy.env_ok 1 ⟨10, 900000⟩ ⟨11, 100000⟩ with message := some [1, 2, 3] }
    rfl (by intro m hm; cases hm; decide)).1

/-! ## full_read -/

/-- While the results are positive the number of delivered bytes grows strictly. -/
theorem delivered_lt (reads : Nat → tcpmemcpy.ReadOutcome) (b : Nat)
    (hpos : ∀ j, j < b → 0 < (reads j).res) :
    ∀ a, a < b → tcpmemcpy.delivered reads a < tcpmemcpy.delivered reads b := by
  induction b with
  | zero => intro a ha; omega
  | succ b ih =>
    intro a ha
    simp only [tcpmemcpy.delivered]
    have hb := hpos b (by omega)
    by_cases hab : a = b
    · subst hab
      omega
    · have := ih (fun j hj => hpos j (by omega)) a (by omega)
      omega

/-- The loop invariant of `full_read`: from a state reached after `k` positive reads the
loop either completes after some `n` reads that deliver `count` bytes in total, returning
`count` with the buffer holding the bytes in arrival order, or stops at the first read
`n` that returns no byte, returning its result. -/
theorem full_read_loop_spec (reads : Nat → tcpmemcpy.ReadOutcome) (count : Nat)
    (hfit : tcpmemcpy.reads_fit reads count) :
    ∀ (m k rb : Nat) (buf : List Nat), count - rb = m → rb ≤ count →
      (∀ j, j < k → 0 < (reads j).res) → tcpmemcpy.delivered reads k = rb →
      buf.length = count → buf.take rb = tcpmemcpy.arrived reads k →
      (∃ n, (∀ j, j < n → 0 < (reads j).res) ∧ tcpmemcpy.delivered reads n = count ∧
          tcpmemcpy.full_read_loop reads count k rb buf
            = ((count : Int), tcpmemcpy.arrived reads n)) ∨
      (∃ n, (∀ j, j < n → 0 < (reads j).res) ∧ tcpmemcpy.delivered reads n < count ∧
          (reads n).res ≤ 0 ∧
          (tcpmemcpy.full_read_loop reads count k rb buf).1 = (reads n).res) := by
  intro m
  induction m using Nat.strong_induction_on with
  | _ m ih =>
    intro k rb buf hm hle hpos hdel hlen htake
    rw [tcpmemcpy.full_read_loop]
    by_cases h : rb < count
    · rw [if_pos h]
      by_cases hr : (reads k).res ≤ 0
      · rw [if_pos hr]
        exact Or.inr ⟨k, hpos, by omega, hr, rfl⟩
      · rw [if_neg hr]
        have hrpos : 0 < (reads k).res := by omega
        obtain ⟨hsum, hdata⟩ := hfit k hpos (by omega) hrpos
        have hdl : (reads k).data.length = (reads k).res.toNat := by omega
        have hrb : rb + (reads k).res.toNat ≤ count := by omega
        refine ih (count - (rb + (reads k).res.toNat)) (by omega) (k + 1)
          (rb + (reads k).res.toNat) (store buf rb (reads k).data) rfl hrb ?_ ?_ ?_ ?_
        · intro j hj
          by_cases hjk : j = k
          · subst hjk
            exact hrpos
          · exact hpos j (by omega)
        · simp only [tcpmemcpy.delivered]
          omega
        · unfold store
          simp only [List.length_append, List.length_take, List.length_drop]
          omega
        · unfold store
          simp only [tcpmemcpy.arrived]
          rw [← htake, ← hdl]
          have hl : (List.take rb buf ++ (reads k).data).length = rb + (reads k).data.length := by
            simp only [List.length_append, List.length_take]
            omega
          rw [List.take_append_of_le_length (by rw [hl])]
          exact List.take_of_length_le (by rw [hl])
    · rw [if_neg h]
      have hrb : rb = count := by omega
      refine Or.inl ⟨k, hpos, by omega, ?_⟩
      rw [← htake, hrb, List.take_of_length_le (by omega)]

/-- The dichotomy for `full_read` itself. -/
theorem full_read_cases (reads : Nat → tcpmemcpy.ReadOutcome) (count : Nat)
    (hfit : tcpmemcpy.reads_fit reads count) (buf : List Nat) (hbuf : buf.length = count) :
    (∃ n, (∀ j, j < n → 0 < (reads j).res) ∧ tcpmemcpy.delivered reads n = count ∧
        tcpmemcpy.full_read reads buf count = ((count : Int), tcpmemcpy.arrived reads n)) ∨
    (∃ n, (∀ j, j < n → 0 < (reads j).res) ∧ tcpmemcpy.delivered reads n < count ∧
        (reads n).res ≤ 0 ∧ (tcpmemcpy.full_read reads buf count).1 = (reads n).res) :=
  full_read_loop_spec reads count hfit count 0 0 buf rfl (Nat.zero_le _)
    (fun j hj => absurd hj (Nat.not_lt_zero j)) rfl hbuf rfl

/-- Two complete prefixes of positive reads have the same length. -/
theorem complete_unique (reads : Nat → tcpmemcpy.ReadOutcome) (count : Nat) (n1 n2 : Nat)
    (h1 : ∀ j, j < n1 → 0 < (reads j).res) (h2 : ∀ j, j < n2 → 0 < (reads j).res)
    (d1 : tcpmemcpy.delivered reads n1 = count) (d2 : tcpmemcpy.delivered reads n2 = count) :
    n1 = n2 := by
  rcases Nat.lt_trichotomy n1 n2 with h | h | h
  · have := delivered_lt reads n2 h2 n1 h
    omega
  · exact h
  · have := delivered_lt reads n1 h1 n2 h
    omega

/-- A complete prefix of positive reads excludes an earlier or later short read. -/
theorem complete_not_short (reads : Nat → tcpmemcpy.ReadOutcome) (count : Nat) (n1 n2 : Nat)
    (h1 : ∀ j, j < n1 → 0 < (reads j).res) (h2 : ∀ j, j < n2 → 0 < (reads j).res)
    (d1 : tcpmemcpy.delivered reads n1 = count) (d2 : tcpmemcpy.delivered reads n2 < count)
    (hr : (reads n2).res ≤ 0) : False := by
  rcases Nat.lt_trichotomy n1 n2 with h | h | h
  · have := delivered_lt reads n2 h2 n1 h
    omega
  · subst h
    omega
  · have := h1 n2 h
    omega

/-- The first short read is unique. -/
theorem short_unique (reads : Nat → tcpmemcpy.ReadOutcome) (n1 n2 : Nat)
    (h1 : ∀ j, j < n1 → 0 < (reads j).res) (h2 : ∀ j, j < n2 → 0 < (reads j).res)
    (r1 : (reads n1).res ≤ 0) (r2 : (reads n2).res ≤ 0) : n1 = n2 := by
  rcases Nat.lt_trichotomy n1 n2 with h | h | h
  · have := h2 n1 h
    omega
  · exact h
  · have := h1 n2 h
    omega

/-- A non-positive `ssize_t` result never compares equal to `total_size`. -/
theorem size_t_of_nonpos_ne_total (n size : Int) (hn : n ≤ 0) (hlo : LONG_MIN ≤ n)
    (h0 : 0 < size) (hmax : size ≤ INT_MAX) :
    size_t_of_int n ≠ size_t_of_int (sizeof_buf_data_t + size) := by
  unfold size_t_of_int sizeof_buf_data_t
  unfold LONG_MIN at hlo
  unfold INT_MAX at hmax
  omega

/-- When `full_read` does not return `total_size` the TCP child exits with failure and
reports nothing. -/
theorem tcp_child_short_read (size : Int) (env : tcpmemcpy.Env) (dst : List Nat)
    (hm : env.malloc_dst = some dst)
    (hne : size_t_of_int
        (tcpmemcpy.full_read env.reads dst (size_t_of_int (sizeof_buf_data_t + size))).1
      ≠ size_t_of_int (sizeof_buf_data_t + size)) :
    (tcpmemcpy.child size env).status = some 1 ∧
    ∀ e ∈ (tcpmemcpy.child size env).trace, e.is_result = false := by
  simp only [tcpmemcpy.child, Run.pre, hm]
  split_ifs <;> simp [EXIT_FAILURE, Event.is_result]

/-- C10: for every count > 0 and every sequence of results of the underlying `read` (each
positive result at most the bytes still missing), `full_read` returns `count` exactly when
the successive reads delivered `count` bytes in total, filling the buffer in arrival order;
if a read returns 0 (peer closed early) or a negative value before that, `full_read`
returns that non-positive value, and the TCP responder then exits with failure without
reporting a result. -/
theorem full_read_spec (count : Nat) (hc : 0 < count) (reads : Nat → tcpmemcpy.ReadOutcome)
    (hfit : tcpmemcpy.reads_fit reads count) (buf : List Nat) (hbuf : buf.length = count) :
    (∀ n, (∀ j, j < n → 0 < (reads j).res) → tcpmemcpy.delivered reads n = count →
      tcpmemcpy.full_read reads buf count = ((count : Int), tcpmemcpy.arrived reads n)) ∧
    (∀ n, (∀ j, j < n → 0 < (reads j).res) → tcpmemcpy.delivered reads n < count →
      (reads n).res ≤ 0 → (tcpmemcpy.full_read reads buf count).1 = (reads n).res) ∧
    ((tcpmemcpy.full_read reads buf count).1 = count ↔
      ∃ n, (∀ j, j < n → 0 < (reads j).res) ∧ tcpmemcpy.delivered reads n = count) ∧
    ((tcpmemcpy.full_read reads buf count).1 = count ∨
      (tcpmemcpy.full_read reads buf count).1 ≤ 0) ∧
    ¬ ((tcpmemcpy.full_read reads buf count).1 = count ∧
      (tcpmemcpy.full_read reads buf count).1 ≤ 0) ∧
    (∀ (size : Int) (env : tcpmemcpy.Env), 0 < size → size ≤ INT_MAX →
      count = size_t_of_int (sizeof_buf_data_t + size) → env.reads = reads →
      env.malloc_dst = some buf → (∀ k, LONG_MIN ≤ (reads k).res) →
      (tcpmemcpy.full_read reads buf count).1 ≤ 0 →
      (tcpmemcpy.child size env).status = some 1 ∧
      ∀ e ∈ (tcpmemcpy.child size env).trace, e.is_result = false) := by
  have hcases := full_read_cases reads count hfit buf hbuf
  refine ⟨?_, ?_, ?_, ?_, ?_, ?_⟩
  · intro n hpos hdel
    rcases hcases with ⟨n1, h1, d1, hrun⟩ | ⟨n2, h2, d2, r2, _⟩
    · have := complete_unique reads count n n1 hpos h1 hdel d1
      subst this
      exact hrun
    · exact absurd (complete_not_short reads count n n2 hpos h2 hdel d2 r2) id
  · intro n hpos hdel hr
    rcases hcases with ⟨n1, h1, d1, _⟩ | ⟨n2, h2, _, r2, hrun⟩
    · exact absurd (complete_not_short reads count n1 n h1 hpos d1 hdel hr) id
    · have := short_unique reads n n2 hpos h2 hr r2
      subst this
      exact hrun
  · constructor
    · intro hret
      rcases hcases with ⟨n1, h1, d1, _⟩ | ⟨n2, _, _, r2, hrun⟩
      · exact ⟨n1, h1, d1⟩
      · rw [hrun] at hret
        omega
    · intro ⟨n, hpos, hdel⟩
      rcases hcases with ⟨n1, _, _, hrun⟩ | ⟨n2, h2, d2, r2, _⟩
      · rw [hrun]
      · exact absurd (complete_not_short reads count n n2 hpos h2 hdel d2 r2) id
  · rcases hcases with ⟨n1, _, _, hrun⟩ | ⟨n2, _, _, r2, hrun⟩
    · left
      rw [hrun]
    · right
      rw [hrun]
      exact r2
  · intro ⟨h1, h2⟩
    omega
  · intro size env h0 hmax hcount hreads hm hrange hret
    subst hcount
    subst hreads
    refine tcp_child_short_read size env buf hm ?_
    refine size_t_of_nonpos_ne_total _ size hret ?_ h0 hmax
    rcases hcases with ⟨n1, _, _, hrun⟩ | ⟨n2, _, _, _, hrun⟩
    · rw [hrun] at hret ⊢
      unfold LONG_MIN
      omega
    · rw [hrun]
      exact hrange n2

/-- The results `two_reads` suit a request for four bytes. -/
theorem two_reads_fit : tcpmemcpy.reads_fit tcpmemcpy.two_reads 4 := by
  intro k _ _ hpos
  rcases k with _ | _ | k
  · simp [tcpmemcpy.two_reads, tcpmemcpy.delivered]
  · simp [tcpmemcpy.two_reads, tcpmemcpy.delivered]
  · simp [tcpmemcpy.two_reads] at hpos

/-- Witness of `full_read_spec`: two reads of three bytes and one byte fill a buffer of
four bytes in arrival order. -/
theorem full_read_spec_witness :
    tcpmemcpy.full_read tcpmemcpy.two_reads [0, 0, 0, 0] 4 = (4, [1, 2, 3, 4]) :=
  (full_read_spec 4 (by decide) tcpmemcpy.two_reads two_reads_fit [0, 0, 0, 0] rfl).1 2
    (by intro j hj; rcases j with _ | _ | j
        · decide
        · decide
        · omega)
    (by decide)

/-! ## The parent and its child -/

/-- A process that has exited has terminated. -/
theorem terminated_of_status (r : Run) (s : Int) (h : r.status = some s) :
    r.terminated = true := by
  simp [Run.terminated, h]

/-- A process that neither exits nor meets a fault has not terminated. -/
theorem not_terminated_of_blocked (r : Run) (h : r.status = none)
    (hf : ∀ e ∈ r.trace, e.is_fault = false) : r.terminated = false := by
  simp only [Run.terminated, h, Option.isSome_none, Bool.false_or, List.any_eq_false]
  intro e he
  simp [hf e he]

/-- When the child has terminated, `wait` returns and the parent goes on. -/
theorem wait_then_terminated (c rest : Run) (h : c.terminated = true) :
    wait_then c rest = Run.pre [.call .wait] rest := by
  simp [wait_then, h]

/-- When the child never terminates, the parent stays blocked in `wait`. -/
theorem wait_then_blocked (c rest : Run) (h : c.terminated = false) :
    wait_then c rest = { trace := [.call .wait], status := none } := by
  simp [wait_then, h, Run.pre]

/-- The call of `wait` is in the trace, whether it returns or not. -/
theorem wait_mem_wait_then (c rest : Run) : Event.call .wait ∈ (wait_then c rest).trace := by
  simp [wait_then, Run.pre]

/-- The parent leaves `wait_then` with the status of what follows `wait`, and only when
the child has terminated. -/
theorem wait_then_status (c rest : Run) (s : Int) :
    (wait_then c rest).status = some s ↔ c.terminated = true ∧ rest.status = some s := by
  unfold wait_then Run.pre
  cases h : c.terminated <;> simp

/-- No call of `write` raises SIGPIPE: the run of the TCP parent process is the run of the
parent branch. -/
theorem tcp_parent_process_no_sigpipe (size : Int) (src : buf_data_t) (env : tcpmemcpy.Env)
    (h : tcpmemcpy.sigpipe_raised size env = false) :
    tcpmemcpy.parent_process size src env = tcpmemcpy.parent size src env := by
  simp [tcpmemcpy.parent_process, h]

/-- Without the oracle `sigpipe_at` no call of `write` raises SIGPIPE. -/
theorem tcp_sigpipe_raised_none (size : Int) (env : tcpmemcpy.Env)
    (h : env.sigpipe_at = none) : tcpmemcpy.sigpipe_raised size env = false := by
  simp [tcpmemcpy.sigpipe_raised, h]

/-- When `full_read` does not return `total_size` the TCP child terminates. -/
theorem tcp_child_short_read_terminated (size : Int) (env : tcpmemcpy.Env) (dst : List Nat)
    (hm : env.malloc_dst = some dst)
    (hne : size_t_of_int
        (tcpmemcpy.full_read env.reads dst (size_t_of_int (sizeof_buf_data_t + size))).1
      ≠ size_t_of_int (sizeof_buf_data_t + size)) :
    (tcpmemcpy.child size env).terminated = true :=
  terminated_of_status _ 1 (tcp_child_short_read size env dst hm hne).1

/-! ## Failure of a send -/

/-- C11 (the code at the failing input): in the run `env_write_fails` of
`tcpmemcpy --size 1` the first `write` fails, `full_write` returns `-1`, and the parent
prints its error line, performs no further transport operation (it closes the socket,
waits for the child and frees the buffer) and returns `EXIT_SUCCESS`, status 0, where the
claim has a non-zero status. -/
theorem tcp_send_failure_exits_zero :
    tcpmemcpy.full_write tcpmemcpy.env_write_fails.writes
      (size_t_of_int (sizeof_buf_data_t + 1)) = -1 ∧
    (tcpmemcpy.main [.size_option 1] tcpmemcpy.env_write_fails).parent
      = { trace := [.call .malloc, .call .fork, .call .signal, .await .SIGUSR1,
            .call .socket, .call .connect, .call .gettimeofday,
            .transmit .full_write (sent_block 1 ⟨10, 900000⟩),
            .stderr tcpmemcpy.short_write_line, .call .close, .call .wait, .call .free],
          status := some 0 } := by
  have h41 : size_t_of_int (sizeof_buf_data_t + 1) = 41 := by decide
  have hw : tcpmemcpy.full_write tcpmemcpy.env_write_fails.writes
      (size_t_of_int (sizeof_buf_data_t + 1)) = -1 := by
    rw [h41]
    simp [tcpmemcpy.full_write, tcpmemcpy.full_write_run, tcpmemcpy.full_write_loop,
      tcpmemcpy.env_write_fails]
  refine ⟨hw, ?_⟩
  have hchild : (tcpmemcpy.child 1 tcpmemcpy.env_write_fails).terminated = true := by
    refine tcp_child_short_read_terminated 1 _ (List.replicate 41 0) rfl ?_
    have hr : tcpmemcpy.full_read tcpmemcpy.env_write_fails.reads (List.replicate 41 0)
        (size_t_of_int (sizeof_buf_data_t + 1)) = (0, List.replicate 41 0) := by
      rw [h41]
      simp [tcpmemcpy.full_read, tcpmemcpy.full_read_loop, tcpmemcpy.env_write_fails]
    rw [hr, h41]
    decide
  have hmain : (tcpmemcpy.main [.size_option 1] tcpmemcpy.env_write_fails).parent
      = Run.pre [.call .malloc, .call .fork]
          (tcpmemcpy.parent_process 1 (build_src 1 (zero_block 5))
            tcpmemcpy.env_write_fails) := by
    rfl
  rw [hmain, tcp_parent_process_no_sigpipe _ _ _ (tcp_sigpipe_raised_none _ _ rfl),
    tcp_parent_connected 1 _ tcpmemcpy.env_write_fails rfl rfl rfl, hw,
    wait_then_terminated _ _ hchild]
  rfl

/-! ## The exit code of the parent -/

/-- When every call of the TCP child succeeds and `full_read` returns `total_size`, the
child exits with status 0. -/
theorem tcp_child_complete_read (size : Int) (env : tcpmemcpy.Env) (dst : List Nat)
    (h1 : env.child_socket_ok = true) (h2 : env.bind_ok = true) (h3 : env.listen_ok = true)
    (h4 : env.accept_ok = true) (hm : env.malloc_dst = some dst)
    (hn : size_t_of_int
        (tcpmemcpy.full_read env.reads dst (size_t_of_int (sizeof_buf_data_t + size))).1
      = size_t_of_int (sizeof_buf_data_t + size)) :
    (tcpmemcpy.child size env).status = some 0 := by
  obtain ⟨r, _, _, hrun⟩ := report_and_exit_ok
    (load_start (tcpmemcpy.full_read env.reads dst
      (size_t_of_int (sizeof_buf_data_t + size))).2) env.end_time
    (load_size (tcpmemcpy.full_read env.reads dst
      (size_t_of_int (sizeof_buf_data_t + size))).2)
    [.call .free, .call .close, .call .close]
  simp only [tcpmemcpy.child, Run.pre, h1, h2, h3, h4, hm]
  simp only [hn, hrun]
  simp [EXIT_SUCCESS]

/-- When `malloc` fails in the TCP child after `accept`, the child exits with status 1. -/
theorem tcp_child_malloc_fails (size : Int) (env : tcpmemcpy.Env)
    (h1 : env.child_socket_ok = true) (h2 : env.bind_ok = true) (h3 : env.listen_ok = true)
    (h4 : env.accept_ok = true) (hm : env.malloc_dst = none) :
    (tcpmemcpy.child size env).status = some 1 := by
  simp [tcpmemcpy.child, Run.pre, h1, h2, h3, h4, hm, EXIT_FAILURE]

/-- The run of the TCP parent process depends on the child only through whether the child
terminates. -/
theorem tcp_parent_congr (size : Int) (src : buf_data_t) (env1 env2 : tcpmemcpy.Env)
    (h3 : env1.sigusr1_received = env2.sigusr1_received)
    (h4 : env1.parent_socket_ok = env2.parent_socket_ok) (h5 : env1.connect_ok = env2.connect_ok)
    (h6 : env1.start_time = env2.start_time) (h7 : env1.writes = env2.writes)
    (h8 : env1.sigpipe_at = env2.sigpipe_at)
    (hT : (tcpmemcpy.child size env1).terminated = (tcpmemcpy.child size env2).terminated) :
    tcpmemcpy.parent_process size src env1 = tcpmemcpy.parent_process size src env2 := by
  simp only [tcpmemcpy.parent_process, tcpmemcpy.sigpipe_raised, tcpmemcpy.parent, wait_then,
    h3, h4, h5, h6, h7, h8, hT]

/-- The run of the UDP parent depends on the child only through whether the child
terminates. -/
theorem udp_parent_congr (size : Int) (src : buf_data_t) (env1 env2 : udpmemcpy.Env)
    (h3 : env1.sigusr1_received = env2.sigusr1_received)
    (h4 : env1.parent_socket_ok = env2.parent_socket_ok)
    (h5 : env1.start_time = env2.start_time) (h6 : env1.sendto_ok = env2.sendto_ok)
    (hT : (udpmemcpy.child size env1).terminated = (udpmemcpy.child size env2).terminated) :
    udpmemcpy.parent size src env1 = udpmemcpy.parent size src env2 := by
  simp only [udpmemcpy.parent, wait_then, h3, h4, h5, h6, hT]

/-- The run of the shared-memory parent depends on the child only through whether the
child terminates. -/
theorem shm_parent_congr (size : Int) (src : buf_data_t) (env1 env2 : shmemcpy.Env)
    (h3 : env1.sigusr1_received = env2.sigusr1_received)
    (h4 : env1.parent_mmap_ok = env2.parent_mmap_ok) (h5 : env1.start_time = env2.start_time)
    (hT : (shmemcpy.child env1).terminated = (shmemcpy.child env2).terminated) :
    shmemcpy.parent size src env1 = shmemcpy.parent size src env2 := by
  simp only [shmemcpy.parent, wait_then, h3, h4, h5, hT]

/-- The run of the ZeroMQ parent depends on the child only through whether the child
terminates. -/
theorem zmq_parent_congr (size : Int) (src : buf_data_t) (env1 env2 : zmqmemcpy.Env)
    (h3 : env1.sigusr1_received = env2.sigusr1_received)
    (h4 : env1.zmq_connect_ok = env2.zmq_connect_ok) (h5 : env1.start_time = env2.start_time)
    (h6 : env1.malloc_payload_ok = env2.malloc_payload_ok)
    (hT : (zmqmemcpy.child size env1).terminated = (zmqmemcpy.child size env2).terminated) :
    zmqmemcpy.parent size src env1 = zmqmemcpy.parent size src env2 := by
  simp only [zmqmemcpy.parent, wait_then, h3, h4, h5, h6, hT]

/-- The run of the D-Bus parent depends on the child only through whether the child
terminates. -/
theorem dbus_parent_congr (size : Int) (src : buf_data_t) (env1 env2 : dbusmemcpy.Env)
    (h3 : env1.sigusr1_received = env2.sigusr1_received)
    (h4 : env1.parent_bus_get_ok = env2.parent_bus_get_ok)
    (h5 : env1.new_method_call_ok = env2.new_method_call_ok)
    (h6 : env1.start_time = env2.start_time)
    (h7 : env1.malloc_payload_ok = env2.malloc_payload_ok) (h8 : env1.send_ok = env2.send_ok)
    (hT : (dbusmemcpy.child env1).terminated = (dbusmemcpy.child env2).terminated) :
    dbusmemcpy.parent size src env1 = dbusmemcpy.parent size src env2 := by
  simp only [dbusmemcpy.parent, wait_then, h3, h4, h5, h6, h7, h8, hT]

/-- C12: the exit code of the parent (initiator) depends only on its own execution path:
two runs that agree on the command line and on the outcomes of the parent's own operations
(allocation of the source buffer, creation of the shared object, `fork`, arrival of the
readiness signal, socket, connect, map or bus connection, time stamp, send with its
results and its SIGPIPE, and whether `wait` returns, that is whether the child terminates)
have the same parent run, hence the same exit code, whatever else the child does and
whatever status it exits with: `wait(NULL)` discards the child's status. -/
theorem parent_exit_independent_of_child (opts : List GetoptResult) :
    (∀ env1 env2 : tcpmemcpy.Env, env1.malloc_src = env2.malloc_src →
      env1.fork_ok = env2.fork_ok → env1.sigusr1_received = env2.sigusr1_received →
      env1.parent_socket_ok = env2.parent_socket_ok → env1.connect_ok = env2.connect_ok →
      env1.start_time = env2.start_time → env1.writes = env2.writes →
      env1.sigpipe_at = env2.sigpipe_at →
      (∀ c1 c2, (tcpmemcpy.main opts env1).child = some c1 →
        (tcpmemcpy.main opts env2).child = some c2 → c1.terminated = c2.terminated) →
      (tcpmemcpy.main opts env1).parent = (tcpmemcpy.main opts env2).parent) ∧
    (∀ env1 env2 : shmemcpy.Env, env1.malloc_src = env2.malloc_src →
      env1.shm_open_ok = env2.shm_open_ok → env1.ftruncate_ok = env2.ftruncate_ok →
      env1.fork_ok = env2.fork_ok → env1.sigusr1_received = env2.sigusr1_received →
      env1.parent_mmap_ok = env2.parent_mmap_ok → env1.start_time = env2.start_time →
      (∀ c1 c2, (shmemcpy.main opts env1).child = some c1 →
        (shmemcpy.main opts env2).child = some c2 → c1.terminated = c2.terminated) →
      (shmemcpy.main opts env1).parent = (shmemcpy.main opts env2).parent) ∧
    (∀ env1 env2 : udpmemcpy.Env, env1.malloc_src = env2.malloc_src →
      env1.fork_ok = env2.fork_ok → env1.sigusr1_received = env2.sigusr1_received →
      env1.parent_socket_ok = env2.parent_socket_ok → env1.start_time = env2.start_time →
      env1.sendto_ok = env2.sendto_ok →
      (∀ c1 c2, (udpmemcpy.main opts env1).child = some c1 →
        (udpmemcpy.main opts env2).child = some c2 → c1.terminated = c2.terminated) →
      (udpmemcpy.main opts env1).parent = (udpmemcpy.main opts env2).parent) ∧
    (∀ env1 env2 : zmqmemcpy.Env, env1.malloc_src = env2.malloc_src →
      env1.fork_ok = env2.fork_ok → env1.sigusr1_received = env2.sigusr1_received →
      env1.zmq_connect_ok = env2.zmq_connect_ok → env1.start_time = env2.start_time →
      env1.malloc_payload_ok = env2.malloc_payload_ok →
      (∀ c1 c2, (zmqmemcpy.main opts env1).child = some c1 →
        (zmqmemcpy.main opts env2).child = some c2 → c1.terminated = c2.terminated) →
      (zmqmemcpy.main opts env1).parent = (zmqmemcpy.main opts env2).parent) ∧
    (∀ env1 env2 : dbusmemcpy.Env, env1.malloc_src = env2.malloc_src →
      env1.fork_ok = env2.fork_ok → env1.sigusr1_received = env2.sigusr1_received →
      env1.parent_bus_get_ok = env2.parent_bus_get_ok →
      env1.new_method_call_ok = env2.new_method_call_ok → env1.start_time = env2.start_time →
      env1.malloc_payload_ok = env2.malloc_payload_ok → env1.send_ok = env2.send_ok →
      (∀ c1 c2, (dbusmemcpy.main opts env1).child = some c1 →
        (dbusmemcpy.main opts env2).child = some c2 → c1.terminated = c2.terminated) →
      (dbusmemcpy.main opts env1).parent = (dbusmemcpy.main opts env2).parent) := by
  refine ⟨?_, ?_, ?_, ?_, ?_⟩
  · intro env1 env2 h1 h2 h3 h4 h5 h6 h7 h8 hT
    unfold tcpmemcpy.main at hT ⊢
    cases hp : parse_args opts 0 with
    | none => rfl
    | some size =>
      by_cases hs : size ≤ 0
      · simp only [hs, if_true]
      · simp only [hp, hs, if_false, h1, h2] at hT ⊢
        cases hm : env2.malloc_src with
        | none => rfl
        | some raw =>
          by_cases hf : env2.fork_ok = true
          · simp only [hm, hf, Bool.not_true, Bool.false_eq_true, if_false] at hT ⊢
            rw [tcp_parent_congr size _ env1 env2 h3 h4 h5 h6 h7 h8 (hT _ _ rfl rfl)]
          · simp only [hf, Bool.not_eq_true] at hf ⊢
            simp [hf]
  · intro env1 env2 h1 ho ht h2 h3 h4 h5 hT
    unfold shmemcpy.main at hT ⊢
    cases hp : parse_args opts 0 with
    | none => rfl
    | some size =>
      by_cases hs : size ≤ 0
      · simp only [hs, if_true]
      · simp only [hp, hs, if_false, h1, h2, ho, ht] at hT ⊢
        cases hm : env2.malloc_src with
        | none => rfl
        | some raw =>
          by_cases hso : env2.shm_open_ok = true
          · by_cases hft : env2.ftruncate_ok = true
            · by_cases hf : env2.fork_ok = true
              · simp only [hm, hso, hft, hf, Bool.not_true, Bool.false_eq_true, if_false]
                  at hT ⊢
                rw [shm_parent_congr size _ env1 env2 h3 h4 h5 (hT _ _ rfl rfl)]
              · simp only [Bool.not_eq_true] at hf
                simp [hso, hft, hf]
            · simp only [Bool.not_eq_true] at hft
              simp [hso, hft]
          · simp only [Bool.not_eq_true] at hso
            simp [hso]
  · intro env1 env2 h1 h2 h3 h4 h5 h6 hT
    unfold udpmemcpy.main at hT ⊢
    cases hp : parse_args opts 0 with
    | none => rfl
    | some size =>
      by_cases hs : size ≤ 0
      · simp only [hs, if_true]
      · simp only [hp, hs, if_false, h1, h2] at hT ⊢
        cases hm : env2.malloc_src with
        | none => rfl
        | some raw =>
          by_cases hf : env2.fork_ok = true
          · simp only [hm, hf, Bool.not_true, Bool.false_eq_true, if_false] at hT ⊢
            rw [udp_parent_congr size _ env1 env2 h3 h4 h5 h6 (hT _ _ rfl rfl)]
          · simp only [hf, Bool.not_eq_true] at hf ⊢
            simp [hf]
  · intro env1 env2 h1 h2 h3 h4 h5 h6 hT
    unfold zmqmemcpy.main at hT ⊢
    cases hp : parse_args opts 0 with
    | none => rfl
    | some size =>
      by_cases hs : size ≤ 0
      · simp only [hs, if_true]
      · simp only [hp, hs, if_false, h1, h2] at hT ⊢
        cases hm : env2.malloc_src with
        | none => rfl
        | some raw =>
          by_cases hf : env2.fork_ok = true
          · simp only [hm, hf, Bool.not_true, Bool.false_eq_true, if_false] at hT ⊢
            rw [zmq_parent_congr size _ env1 env2 h3 h4 h5 h6 (hT _ _ rfl rfl)]
          · simp only [hf, Bool.not_eq_true] at hf ⊢
            simp [hf]
  · intro env1 env2 h1 h2 h3 h4 h5 h6 h7 h8 hT
    unfold dbusmemcpy.main at hT ⊢
    cases hp : parse_args opts 0 with
    | none => rfl
    | some size =>
      by_cases hs : size ≤ 0
      · simp only [hs, if_true]
      · simp only [hp, hs, if_false, h1, h2] at hT ⊢
        cases hm : env2.malloc_src with
        | none => rfl
        | some raw =>
          by_cases hf : env2.fork_ok = true
          · simp only [hm, hf, Bool.not_true, Bool.false_eq_true, if_false] at hT ⊢
            rw [dbus_parent_congr size _ env1 env2 h3 h4 h5 h6 h7 h8 (hT _ _ rfl rfl)]
          · simp only [hf, Bool.not_eq_true] at hf ⊢
            simp [hf]

/-- Witness of `parent_exit_independent_of_child`: in the run `env_ok` of
`tcpmemcpy --size 1` the child exits with status 0, in the run `env_child_malloc_fails` it
exits with status 1, and the parent has the same run in both. -/
theorem parent_exit_independent_of_child_witness :
    (tcpmemcpy.child 1 (tcpmemcpy.env_ok 1 ⟨10, 900000⟩ ⟨11, 100000⟩)).status = some 0 ∧
    (tcpmemcpy.child 1 tcpmemcpy.env_child_malloc_fails).status = some 1 ∧
    (tcpmemcpy.main [.size_option 1] (tcpmemcpy.env_ok 1 ⟨10, 900000⟩ ⟨11, 100000⟩)).parent
      = (tcpmemcpy.main [.size_option 1] tcpmemcpy.env_child_malloc_fails).parent := by
  have hs0 : (tcpmemcpy.child 1 (tcpmemcpy.env_ok 1 ⟨10, 900000⟩ ⟨11, 100000⟩)).status
      = some 0 := by
    refine tcp_child_complete_read 1 _ (List.replicate 41 0) rfl rfl rfl rfl rfl ?_
    have h41 : size_t_of_int (sizeof_buf_data_t + 1) = 41 := by decide
    rw [h41]
    simp [tcpmemcpy.full_read, tcpmemcpy.full_read_loop, tcpmemcpy.env_ok, size_t_of_int]
  have hs1 : (tcpmemcpy.child 1 tcpmemcpy.env_child_malloc_fails).status = some 1 :=
    tcp_child_malloc_fails 1 _ rfl rfl rfl rfl rfl
  have hc0 : (tcpmemcpy.main [.size_option 1]
      (tcpmemcpy.env_ok 1 ⟨10, 900000⟩ ⟨11, 100000⟩)).child
      = some (tcpmemcpy.child 1 (tcpmemcpy.env_ok 1 ⟨10, 900000⟩ ⟨11, 100000⟩)) := rfl
  have hc1 : (tcpmemcpy.main [.size_option 1] tcpmemcpy.env_child_malloc_fails).child
      = some (tcpmemcpy.child 1 tcpmemcpy.env_child_malloc_fails) := rfl
  refine ⟨hs0, hs1, (parent_exit_independent_of_child [.size_option 1]).1 _ _
    rfl rfl rfl rfl rfl rfl rfl rfl ?_⟩
  intro c1 c2 h1 h2
  rw [hc0] at h1
  rw [hc1] at h2
  cases h1
  cases h2
  rw [terminated_of_status _ 0 hs0, terminated_of_status _ 1 hs1]

/-! ## The parent and `wait` -/

/-- The UDP child whose datagram never arrives stays blocked in `recvfrom`. -/
theorem udp_child_blocked (size : Int) (env : udpmemcpy.Env) (raw : List Nat)
    (h1 : env.child_socket_ok = true) (h2 : env.bind_ok = true)
    (h3 : env.malloc_dst = some raw) (h4 : env.recvfrom_returns = false) :
    udpmemcpy.child size env
      = { trace := [.call .socket, .call .bind, .kill .SIGUSR1, .call .malloc,
            .call .recvfrom],
          status := none } := by
  simp [udpmemcpy.child, Run.pre, h1, h2, h3, h4]

/-- The run of the UDP parent once the signal has arrived and `socket` has succeeded: it
stamps the buffer, calls `sendto`, prints one line if the call fails, closes the socket
and waits for the child. -/
theorem udp_parent_sent (size : Int) (src : buf_data_t) (env : udpmemcpy.Env)
    (h1 : env.sigusr1_received = true) (h2 : env.parent_socket_ok = true) :
    udpmemcpy.parent size src env
      = Run.pre ([.call .signal, .await .SIGUSR1, .call .socket, .call .gettimeofday,
            .transmit .sendto (block_bytes size { src with start := env.start_time })]
            ++ (if !env.sendto_ok then [.stderr "Parent sendto"] else [])
            ++ [.call .close])
          (wait_then (udpmemcpy.child size env)
            { trace := [.call .free], status := some EXIT_SUCCESS }) := by
  simp [udpmemcpy.parent, Run.pre, h1, h2]

/-- In the run `env_sendto_fails` of `udpmemcpy --size 1` the `sendto` of the parent fails
and the child stays blocked in `recvfrom`: the parent prints its error line, closes the
socket and calls `wait`, which does not return; the parent has no exit status. -/
theorem udp_send_failure_blocks_in_wait :
    (udpmemcpy.child 1 udpmemcpy.env_sendto_fails).status = none ∧
    (udpmemcpy.main [.size_option 1] udpmemcpy.env_sendto_fails).parent
      = { trace := [.call .malloc, .call .fork, .call .signal, .await .SIGUSR1,
            .call .socket, .call .gettimeofday,
            .transmit .sendto (sent_block 1 ⟨10, 900000⟩), .stderr "Parent sendto",
            .call .close, .call .wait],
          status := none } := by
  have hchild := udp_child_blocked 1 udpmemcpy.env_sendto_fails (List.replicate 41 0)
    rfl rfl rfl rfl
  have hmain : (udpmemcpy.main [.size_option 1] udpmemcpy.env_sendto_fails).parent
      = Run.pre [.call .malloc, .call .fork]
          (udpmemcpy.parent 1 (build_src 1 (zero_block 5)) udpmemcpy.env_sendto_fails) := by
    rfl
  have hnt : (udpmemcpy.child 1 udpmemcpy.env_sendto_fails).terminated = false := by
    rw [hchild]
    rfl
  have hs : udpmemcpy.env_sendto_fails.sendto_ok = false := rfl
  refine ⟨by rw [hchild], ?_⟩
  rw [hmain, udp_parent_sent 1 _ udpmemcpy.env_sendto_fails rfl rfl, hs,
    wait_then_blocked _ _ hnt]
  rfl

/-- In the run `env_sigpipe` of `tcpmemcpy --size 1` the first `write` of the parent raises
SIGPIPE: the parent is killed inside `full_write`; it prints nothing, does not call `wait`
and has no exit status. -/
theorem tcp_sigpipe_kills_parent :
    (tcpmemcpy.main [.size_option 1] tcpmemcpy.env_sigpipe).parent
      = { trace := [.call .malloc, .call .fork, .call .signal, .await .SIGUSR1,
            .call .socket, .call .connect, .call .gettimeofday,
            .transmit .full_write (sent_block 1 ⟨10, 900000⟩)],
          status := none } := by
  have h41 : size_t_of_int (sizeof_buf_data_t + 1) = 41 := by decide
  have hraised : tcpmemcpy.sigpipe_raised 1 tcpmemcpy.env_sigpipe = true := by
    have hat : tcpmemcpy.env_sigpipe.sigpipe_at = some 0 := rfl
    simp only [tcpmemcpy.sigpipe_raised, hat, h41]
    simp [tcpmemcpy.full_write_run, tcpmemcpy.full_write_loop, tcpmemcpy.env_sigpipe,
      tcpmemcpy.env_ok]
  have hmain : (tcpmemcpy.main [.size_option 1] tcpmemcpy.env_sigpipe).parent
      = Run.pre [.call .malloc, .call .fork]
          (tcpmemcpy.parent_process 1 (build_src 1 (zero_block 5)) tcpmemcpy.env_sigpipe) := by
    rfl
  have h1 : tcpmemcpy.env_sigpipe.sigusr1_received = true := rfl
  have h2 : tcpmemcpy.env_sigpipe.parent_socket_ok = true := rfl
  have h3 : tcpmemcpy.env_sigpipe.connect_ok = true := rfl
  rw [hmain]
  simp only [tcpmemcpy.parent_process, h1, h2, h3, hraised, Bool.and_self, if_true]
  rfl

/-! ## Schedules of the two processes -/

/-- The events of `p` in a concatenation. -/
theorem events_of_append (p : Proc) (a b : List (Proc × Event)) :
    events_of p (a ++ b) = events_of p a ++ events_of p b := by
  simp [events_of]

/-- The events of `p` in a schedule that starts with an event of `p`. -/
theorem events_of_cons_self (p : Proc) (e : Event) (b : List (Proc × Event)) :
    events_of p ((p, e) :: b) = e :: events_of p b := by
  simp [events_of]

/-- An event of `p` in the schedule is among the events of `p`, and conversely. -/
theorem mem_events_of (p : Proc) (e : Event) (a : List (Proc × Event)) :
    e ∈ events_of p a ↔ (p, e) ∈ a := by
  simp only [events_of, List.mem_map, List.mem_filter, decide_eq_true_eq]
  constructor
  · rintro ⟨⟨q, e1⟩, ⟨hmem, hq⟩, he⟩
    simp only at hq he
    subst hq
    subst he
    exact hmem
  · intro h
    exact ⟨(p, e), ⟨h, rfl⟩, rfl⟩

/-- When `p` performs an event, every signal `p` has waited for has been sent by the other
process before. -/
theorem legal_from_split (a : List (Proc × Event)) : ∀ (seen : List (Proc × Event))
    (p : Proc) (e : Event) (rest : List (Proc × Event)),
    legal_from seen (a ++ (p, e) :: rest) →
    ∀ s, (p, Event.await s) ∈ seen ++ a → (p.other, Event.kill s) ∈ seen ++ a := by
  induction a with
  | nil =>
    intro seen p e rest h s hs
    simp only [List.nil_append, legal_from] at h
    simp only [List.append_nil] at hs ⊢
    exact h.2.1 s hs
  | cons x a ih =>
    intro seen p e rest h s hs
    obtain ⟨q, f⟩ := x
    simp only [List.cons_append, legal_from] at h
    have := ih (seen ++ [(q, f)]) p e rest h.2.2 s (by simpa using hs)
    simpa using this

/-- In a schedule of a run, the events of `p` before one of its events `e`, followed by
`e`, open the trace of `p`. -/
theorem trace_split_of_schedule (p : Proc) (t : List Event) (a : List (Proc × Event))
    (e : Event) (rest : List (Proc × Event))
    (h : events_of p (a ++ (p, e) :: rest) <+: t) :
    ∃ y, t = events_of p a ++ e :: y := by
  obtain ⟨z, hz⟩ := h
  rw [events_of_append, events_of_cons_self] at hz
  exact ⟨events_of p rest ++ z, by rw [← hz]; simp⟩

/-- If a trace opens with `pre` and `e` does not occur in `pre`, then all of `pre` comes
before any occurrence of `e`. -/
theorem pre_before (pre r x y : List Event) (e : Event) (he : e ∉ pre)
    (h : pre ++ r = x ++ e :: y) : ∃ x1, x = pre ++ x1 ∧ r = x1 ++ e :: y := by
  rcases List.append_eq_append_iff.mp h with ⟨a1, hx, hr⟩ | ⟨c1, hpre, hc⟩
  · exact ⟨a1, hx, hr⟩
  · cases c1 with
    | nil =>
      simp only [List.append_nil] at hpre
      simp only [List.nil_append] at hc
      exact ⟨[], by simp [hpre], hc.symm⟩
    | cons c cs =>
      simp only [List.cons_append, List.cons.injEq] at hc
      exfalso
      apply he
      rw [hpre, hc.1]
      simp

/-- The causal chain of a handshake.  Process `p` has the trace `pre ++ r`, where `pre`
contains the wait for `s`; `q` is the other process.  In a schedule, before any event `e`
of `p` that is not one of `pre`, `p` has entered the wait, and `q` has sent `s`, at a point
that splits the trace of `q` and the schedule alike. -/
theorem handshake_chain (p : Proc) (tp tq pre r : List Event) (s : Signal)
    (sched a rest : List (Proc × Event)) (e : Event)
    (htp : tp = pre ++ r) (hawait : Event.await s ∈ pre)
    (hp : events_of p sched <+: tp) (hq : events_of p.other sched <+: tq)
    (hlegal : legal_from [] sched) (hsplit : sched = a ++ (p, e) :: rest) (he : e ∉ pre) :
    (∀ z ∈ pre, (p, z) ∈ a) ∧
    ∃ a1 a2 y, a = a1 ++ (p.other, Event.kill s) :: a2 ∧
      tq = events_of p.other a1 ++ Event.kill s :: y := by
  subst hsplit
  obtain ⟨y0, hy0⟩ := trace_split_of_schedule p tp a e rest hp
  rw [htp] at hy0
  obtain ⟨x1, hx1, _⟩ := pre_before pre r (events_of p a) y0 e he hy0
  have hpre : ∀ z ∈ pre, (p, z) ∈ a := by
    intro z hz
    rw [← mem_events_of, hx1]
    exact List.mem_append_left _ hz
  refine ⟨hpre, ?_⟩
  have hkill : (p.other, Event.kill s) ∈ a := by
    have := legal_from_split a [] p e rest hlegal s (by simpa using hpre _ hawait)
    simpa using this
  obtain ⟨a1, a2, ha⟩ := List.append_of_mem hkill
  subst ha
  have hq2 : events_of p.other (a1 ++ (p.other, Event.kill s) :: (a2 ++ (p, e) :: rest)) <+: tq := by
    simpa using hq
  obtain ⟨y, hy⟩ := trace_split_of_schedule p.other tq a1 (Event.kill s) _ hq2
  exact ⟨a1, a2, y, rfl, hy⟩

/-- An initiator step is none of the events `malloc`, `shm_open`, `ftruncate`, `fork`,
`signal`, and the wait for the readiness signal, with which the trace of the parent
opens. -/
theorem initiator_step_not_opening (e : Event) (he : e.is_initiator_step = true) :
    e ∉ [Event.call .malloc, .call .shm_open, .call .ftruncate, .call .fork, .call .signal,
      .await .SIGUSR1] := by
  intro hmem
  simp only [List.mem_cons, List.mem_singleton, List.not_mem_nil, or_false] at hmem
  rcases hmem with rfl | rfl | rfl | rfl | rfl | rfl <;> simp [Event.is_initiator_step] at he

/-- The TCP child sends the readiness signal only when `socket`, `bind` and `listen` have
succeeded, and after these calls. -/
theorem tcp_child_kill_split (size : Int) (env : tcpmemcpy.Env) (x y : List Event)
    (h : (tcpmemcpy.child size env).trace = x ++ Event.kill .SIGUSR1 :: y) :
    env.child_socket_ok = true ∧ env.bind_ok = true ∧ env.listen_ok = true ∧
    ∃ x1, x = [.call .socket, .call .setsockopt, .call .bind, .call .listen] ++ x1 := by
  have hmem : Event.kill .SIGUSR1 ∈ (tcpmemcpy.child size env).trace := by
    rw [h]
    simp
  simp only [tcpmemcpy.child, Run.pre] at h hmem
  cases h1 : env.child_socket_ok
  · simp [h1] at hmem
  · cases h2 : env.bind_ok
    · simp [h1, h2] at hmem
    · cases h3 : env.listen_ok
      · simp [h1, h2, h3] at hmem
      · refine ⟨rfl, rfl, rfl, ?_⟩
        simp only [h1, h2, h3, Bool.not_true, Bool.false_eq_true, if_false] at h
        have h' : [Event.call .socket, .call .setsockopt, .call .bind, .call .listen]
            ++ (x ++ Event.kill .SIGUSR1 :: y).drop 4
            = x ++ Event.kill .SIGUSR1 :: y := by
          rw [← h]
          simp
        obtain ⟨x1, hx1, _⟩ := pre_before _ _ x y (Event.kill .SIGUSR1) (by decide) h'
        exact ⟨x1, hx1⟩

/-- The UDP child sends the readiness signal only when `socket` and `bind` have succeeded,
and after these calls. -/
theorem udp_child_kill_split (size : Int) (env : udpmemcpy.Env) (x y : List Event)
    (h : (udpmemcpy.child size env).trace = x ++ Event.kill .SIGUSR1 :: y) :
    env.child_socket_ok = true ∧ env.bind_ok = true ∧
    ∃ x1, x = [.call .socket, .call .bind] ++ x1 := by
  have hmem : Event.kill .SIGUSR1 ∈ (udpmemcpy.child size env).trace := by
    rw [h]
    simp
  simp only [udpmemcpy.child, Run.pre] at h hmem
  cases h1 : env.child_socket_ok
  · simp [h1] at hmem
  · cases h2 : env.bind_ok
    · simp [h1, h2] at hmem
    · refine ⟨rfl, rfl, ?_⟩
      simp only [h1, h2, Bool.not_true, Bool.false_eq_true, if_false] at h
      have h' : [Event.call .socket, .call .bind] ++ (x ++ Event.kill .SIGUSR1 :: y).drop 2
          = x ++ Event.kill .SIGUSR1 :: y := by
        rw [← h]
        simp
      obtain ⟨x1, hx1, _⟩ := pre_before _ _ x y (Event.kill .SIGUSR1) (by decide) h'
      exact ⟨x1, hx1⟩

/-- The ZeroMQ child sends the readiness signal only when `zmq_bind` has succeeded, and
after this call. -/
theorem zmq_child_kill_split (size : Int) (env : zmqmemcpy.Env) (x y : List Event)
    (h : (zmqmemcpy.child size env).trace = x ++ Event.kill .SIGUSR1 :: y) :
    env.zmq_bind_ok = true ∧
    ∃ x1, x = [.call .zmq_ctx_new, .call .zmq_socket, .call .zmq_bind] ++ x1 := by
  have hmem : Event.kill .SIGUSR1 ∈ (zmqmemcpy.child size env).trace := by
    rw [h]
    simp
  simp only [zmqmemcpy.child, Run.pre] at h hmem
  cases h1 : env.zmq_bind_ok
  · simp [h1] at hmem
  · refine ⟨rfl, ?_⟩
    simp only [h1, Bool.not_true, Bool.false_eq_true, if_false] at h
    have h' : [Event.call .zmq_ctx_new, .call .zmq_socket, .call .zmq_bind]
        ++ (x ++ Event.kill .SIGUSR1 :: y).drop 3 = x ++ Event.kill .SIGUSR1 :: y := by
      rw [← h]
      simp
    obtain ⟨x1, hx1, _⟩ := pre_before _ _ x y (Event.kill .SIGUSR1) (by decide) h'
    exact ⟨x1, hx1⟩

/-- The D-Bus child sends the readiness signal only when the bus connection and the
request of the name have succeeded, and after these calls. -/
theorem dbus_child_kill_split (env : dbusmemcpy.Env) (x y : List Event)
    (h : (dbusmemcpy.child env).trace = x ++ Event.kill .SIGUSR1 :: y) :
    env.child_bus_get_ok = true ∧ env.request_name_ok = true ∧
    ∃ x1, x = [.call .dbus_bus_get, .call .dbus_bus_request_name] ++ x1 := by
  have hmem : Event.kill .SIGUSR1 ∈ (dbusmemcpy.child env).trace := by
    rw [h]
    simp
  simp only [dbusmemcpy.child, Run.pre] at h hmem
  cases h1 : env.child_bus_get_ok
  · simp [h1] at hmem
  · cases h2 : env.request_name_ok
    · simp [h1, h2] at hmem
    · refine ⟨rfl, rfl, ?_⟩
      simp only [h1, h2, Bool.not_true, Bool.false_eq_true, if_false] at h
      have h' : [Event.call .dbus_bus_get, .call .dbus_bus_request_name]
          ++ (x ++ Event.kill .SIGUSR1 :: y).drop 2 = x ++ Event.kill .SIGUSR1 :: y := by
        rw [← h]
        simp
      obtain ⟨x1, hx1, _⟩ := pre_before _ _ x y (Event.kill .SIGUSR1) (by decide) h'
      exact ⟨x1, hx1⟩

/-- The shared-memory child sends the readiness signal only when it has opened and mapped
the region, and after these calls. -/
theorem shm_child_kill_split (env : shmemcpy.Env) (x y : List Event)
    (h : (shmemcpy.child env).trace = x ++ Event.kill .SIGUSR1 :: y) :
    env.child_shm_open_ok = true ∧ env.child_mmap_ok = true ∧
    ∃ x1, x = [.call .signal, .call .shm_open, .call .mmap] ++ x1 := by
  have hmem : Event.kill .SIGUSR1 ∈ (shmemcpy.child env).trace := by
    rw [h]
    simp
  simp only [shmemcpy.child, Run.pre] at h hmem
  cases h1 : env.child_shm_open_ok
  · simp [h1] at hmem
  · cases h2 : env.child_mmap_ok
    · simp [h1, h2] at hmem
    · refine ⟨rfl, rfl, ?_⟩
      simp only [h1, h2, Bool.not_true, Bool.false_eq_true, if_false] at h
      have h' : [Event.call .signal, .call .shm_open, .call .mmap]
          ++ (x ++ Event.kill .SIGUSR1 :: y).drop 3 = x ++ Event.kill .SIGUSR1 :: y := by
        rw [← h]
        simp
      obtain ⟨x1, hx1, _⟩ := pre_before _ _ x y (Event.kill .SIGUSR1) (by decide) h'
      exact ⟨x1, hx1⟩

/-- From the causal chain to the handshake: if the child's events before its `kill` open
with `pre`, every call of `binds`, taken from `pre`, comes before the `kill`. -/
theorem handshake_done_of_chain (binds pre : List Event) (a a1 a2 : List (Proc × Event))
    (x1 : List Event) (hawait : (Proc.parent, Event.await .SIGUSR1) ∈ a)
    (ha : a = a1 ++ (Proc.child, Event.kill .SIGUSR1) :: a2)
    (hx : events_of .child a1 = pre ++ x1) (hb : ∀ b ∈ binds, b ∈ pre) :
    handshake_done binds a := by
  refine ⟨hawait, a1, a2, ha, ?_⟩
  intro b hbm
  rw [← mem_events_of, hx]
  exact List.mem_append_left _ (hb b hbm)

/-- After the fork the trace of the TCP parent opens with `malloc`, `fork`, `signal` and
the wait for the readiness signal. -/
theorem tcp_parent_opening (opts : List GetoptResult) (env : tcpmemcpy.Env) (c : Run)
    (hc : (tcpmemcpy.main opts env).child = some c) :
    ∃ size r, c = tcpmemcpy.child size env ∧
      (tcpmemcpy.main opts env).parent.trace
        = [.call .malloc, .call .fork, .call .signal, .await .SIGUSR1] ++ r := by
  obtain ⟨size, raw, _, _, _, hceq, hpar⟩ := tcp_main_child opts env c hc
  rw [hpar]
  unfold tcpmemcpy.parent_process
  split_ifs
  · exact ⟨size, _, hceq, rfl⟩
  · exact ⟨size, _, hceq, rfl⟩

/-- After the fork the trace of the UDP parent opens with `malloc`, `fork`, `signal` and
the wait for the readiness signal. -/
theorem udp_parent_opening (opts : List GetoptResult) (env : udpmemcpy.Env) (c : Run)
    (hc : (udpmemcpy.main opts env).child = some c) :
    ∃ size r, c = udpmemcpy.child size env ∧
      (udpmemcpy.main opts env).parent.trace
        = [.call .malloc, .call .fork, .call .signal, .await .SIGUSR1] ++ r := by
  obtain ⟨size, raw, _, _, _, hceq, hpar⟩ := udp_main_child opts env c hc
  rw [hpar]
  exact ⟨size, _, hceq, rfl⟩

/-- After the fork the trace of the ZeroMQ parent opens with `malloc`, `fork`, `signal`
and the wait for the readiness signal. -/
theorem zmq_parent_opening (opts : List GetoptResult) (env : zmqmemcpy.Env) (c : Run)
    (hc : (zmqmemcpy.main opts env).child = some c) :
    ∃ size r, c = zmqmemcpy.child size env ∧
      (zmqmemcpy.main opts env).parent.trace
        = [.call .malloc, .call .fork, .call .signal, .await .SIGUSR1] ++ r := by
  obtain ⟨size, raw, _, _, _, hceq, hpar⟩ := zmq_main_child opts env c hc
  rw [hpar]
  exact ⟨size, _, hceq, rfl⟩

/-- After the fork the trace of the D-Bus parent opens with `malloc`, `fork`, `signal` and
the wait for the readiness signal. -/
theorem dbus_parent_opening (opts : List GetoptResult) (env : dbusmemcpy.Env) (c : Run)
    (hc : (dbusmemcpy.main opts env).child = some c) :
    ∃ r, c = dbusmemcpy.child env ∧
      (dbusmemcpy.main opts env).parent.trace
        = [.call .malloc, .call .fork, .call .signal, .await .SIGUSR1] ++ r := by
  obtain ⟨size, raw, _, _, _, hceq, hpar⟩ := dbus_main_child opts env c hc
  rw [hpar]
  exact ⟨_, hceq, rfl⟩

/-- After the fork the trace of the shared-memory parent opens with `malloc`, `shm_open`,
`ftruncate`, `fork`, `signal` and the wait for the readiness signal. -/
theorem shm_parent_opening (opts : List GetoptResult) (env : shmemcpy.Env) (c : Run)
    (hc : (shmemcpy.main opts env).child = some c) :
    ∃ r, c = shmemcpy.child env ∧
      (shmemcpy.main opts env).parent.trace
        = [.call .malloc, .call .shm_open, .call .ftruncate, .call .fork, .call .signal,
            .await .SIGUSR1] ++ r := by
  obtain ⟨size, raw, _, _, _, hceq, hpar⟩ := shm_main_child opts env c hc
  rw [hpar]
  exact ⟨_, hceq, rfl⟩

/-- An initiator step is none of the four events with which the trace of a socket, ZeroMQ
or D-Bus parent opens. -/
theorem initiator_step_not_opening4 (e : Event) (he : e.is_initiator_step = true) :
    e ∉ [Event.call .malloc, .call .fork, .call .signal, .await .SIGUSR1] := by
  intro hmem
  apply initiator_step_not_opening e he
  simp only [List.mem_cons, List.mem_singleton, List.not_mem_nil, or_false] at hmem ⊢
  tauto

/-- C14: in every backend, the initiator never performs connect or send before the
responder has completed bind (and listen, for TCP): the initiator leaves its wait loop only
once the readiness flag has been set by the notification, and the responder emits the
notification only after bind succeeded; the handshake is complete before the start time
stamp is taken, so it is not counted in the elapsed time.  Stated for every schedule of
the two processes of a run: before any step of the parent (socket or context creation,
connect, map, bus connection, taking of the start time stamp, send) the parent has entered
its wait loop and the child has performed its bind calls, which succeeded, and then sent
the readiness signal. -/
theorem handshake_before_connect (opts : List GetoptResult) (a rest : List (Proc × Event))
    (e : Event) (he : e.is_initiator_step = true) :
    (∀ (env : tcpmemcpy.Env) (c : Run), (tcpmemcpy.main opts env).child = some c →
      is_schedule (tcpmemcpy.main opts env).parent.trace c.trace
        (a ++ (Proc.parent, e) :: rest) →
      env.bind_ok = true ∧ env.listen_ok = true ∧
      handshake_done [.call .bind, .call .listen] a) ∧
    (∀ (env : udpmemcpy.Env) (c : Run), (udpmemcpy.main opts env).child = some c →
      is_schedule (udpmemcpy.main opts env).parent.trace c.trace
        (a ++ (Proc.parent, e) :: rest) →
      env.bind_ok = true ∧ handshake_done [.call .bind] a) ∧
    (∀ (env : zmqmemcpy.Env) (c : Run), (zmqmemcpy.main opts env).child = some c →
      is_schedule (zmqmemcpy.main opts env).parent.trace c.trace
        (a ++ (Proc.parent, e) :: rest) →
      env.zmq_bind_ok = true ∧ handshake_done [.call .zmq_bind] a) ∧
    (∀ (env : dbusmemcpy.Env) (c : Run), (dbusmemcpy.main opts env).child = some c →
      is_schedule (dbusmemcpy.main opts env).parent.trace c.trace
        (a ++ (Proc.parent, e) :: rest) →
      env.child_bus_get_ok = true ∧ env.request_name_ok = true ∧
      handshake_done [.call .dbus_bus_get, .call .dbus_bus_request_name] a) ∧
    (∀ (env : shmemcpy.Env) (c : Run), (shmemcpy.main opts env).child = some c →
      is_schedule (shmemcpy.main opts env).parent.trace c.trace
        (a ++ (Proc.parent, e) :: rest) →
      env.child_shm_open_ok = true ∧ env.child_mmap_ok = true ∧
      handshake_done [.call .shm_open, .call .mmap] a) := by
  have h4 := initiator_step_not_opening4 e he
  have h6 := initiator_step_not_opening e he
  refine ⟨?_, ?_, ?_, ?_, ?_⟩
  · intro env c hc ⟨hp, hq, hl⟩
    obtain ⟨size, r, hceq, htr⟩ := tcp_parent_opening opts env c hc
    obtain ⟨hpre, a1, a2, y, ha, hct⟩ := handshake_chain .parent _ c.trace _ r .SIGUSR1 _ a
      rest e htr (by simp) hp hq hl rfl h4
    subst hceq
    obtain ⟨_, f2, f3, x1, hx1⟩ := tcp_child_kill_split size env _ y hct
    exact ⟨f2, f3, handshake_done_of_chain _ _ a a1 a2 x1 (hpre _ (by simp)) ha hx1
      (by simp)⟩
  · intro env c hc ⟨hp, hq, hl⟩
    obtain ⟨size, r, hceq, htr⟩ := udp_parent_opening opts env c hc
    obtain ⟨hpre, a1, a2, y, ha, hct⟩ := handshake_chain .parent _ c.trace _ r .SIGUSR1 _ a
      rest e htr (by simp) hp hq hl rfl h4
    subst hceq
    obtain ⟨_, f2, x1, hx1⟩ := udp_child_kill_split size env _ y hct
    exact ⟨f2, handshake_done_of_chain _ _ a a1 a2 x1 (hpre _ (by simp)) ha hx1 (by simp)⟩
  · intro env c hc ⟨hp, hq, hl⟩
    obtain ⟨size, r, hceq, htr⟩ := zmq_parent_opening opts env c hc
    obtain ⟨hpre, a1, a2, y, ha, hct⟩ := handshake_chain .parent _ c.trace _ r .SIGUSR1 _ a
      rest e htr (by simp) hp hq hl rfl h4
    subst hceq
    obtain ⟨f1, x1, hx1⟩ := zmq_child_kill_split size env _ y hct
    exact ⟨f1, handshake_done_of_chain _ _ a a1 a2 x1 (hpre _ (by simp)) ha hx1 (by simp)⟩
  · intro env c hc ⟨hp, hq, hl⟩
    obtain ⟨r, hceq, htr⟩ := dbus_parent_opening opts env c hc
    obtain ⟨hpre, a1, a2, y, ha, hct⟩ := handshake_chain .parent _ c.trace _ r .SIGUSR1 _ a
      rest e htr (by simp) hp hq hl rfl h4
    subst hceq
    obtain ⟨f1, f2, x1, hx1⟩ := dbus_child_kill_split env _ y hct
    exact ⟨f1, f2, handshake_done_of_chain _ _ a a1 a2 x1 (hpre _ (by simp)) ha hx1
      (by simp)⟩
  · intro env c hc ⟨hp, hq, hl⟩
    obtain ⟨r, hceq, htr⟩ := shm_parent_opening opts env c hc
    obtain ⟨hpre, a1, a2, y, ha, hct⟩ := handshake_chain .parent _ c.trace _ r .SIGUSR1 _ a
      rest e htr (by simp) hp hq hl rfl h6
    subst hceq
    obtain ⟨f1, f2, x1, hx1⟩ := shm_child_kill_split env _ y hct
    exact ⟨f1, f2, handshake_done_of_chain _ _ a a1 a2 x1 (hpre _ (by simp)) ha hx1
      (by simp)⟩

/-- The trace of the TCP child whose `socket`, `bind` and `listen` succeed opens with these
calls and the readiness signal. -/
theorem tcp_child_opening (size : Int) (env : tcpmemcpy.Env)
    (h1 : env.child_socket_ok = true) (h2 : env.bind_ok = true) (h3 : env.listen_ok = true) :
    ∃ r, (tcpmemcpy.child size env).trace
      = [.call .socket, .call .setsockopt, .call .bind, .call .listen, .kill .SIGUSR1] ++ r := by
  simp only [tcpmemcpy.child, Run.pre, h1, h2, h3, Bool.not_true, Bool.false_eq_true, if_false,
    List.cons_append, List.nil_append, List.singleton_append]
  exact ⟨_, rfl⟩

/-- Witness of `handshake_before_connect`: `handshake_schedule` followed by the `connect`
of the parent is a schedule of the run `env_ok` of `tcpmemcpy --size 1`, and in it the
handshake precedes the `connect`. -/
theorem handshake_before_connect_witness :
    is_schedule
      (tcpmemcpy.main [.size_option 1] (tcpmemcpy.env_ok 1 ⟨10, 900000⟩ ⟨11, 100000⟩)).parent.trace
      (tcpmemcpy.child 1 (tcpmemcpy.env_ok 1 ⟨10, 900000⟩ ⟨11, 100000⟩)).trace
      (tcpmemcpy.handshake_schedule ++ (Proc.parent, Event.call .connect) :: []) ∧
    handshake_done [.call .bind, .call .listen] tcpmemcpy.handshake_schedule := by
  have hs : is_schedule
      (tcpmemcpy.main [.size_option 1] (tcpmemcpy.env_ok 1 ⟨10, 900000⟩ ⟨11, 100000⟩)).parent.trace
      (tcpmemcpy.child 1 (tcpmemcpy.env_ok 1 ⟨10, 900000⟩ ⟨11, 100000⟩)).trace
      (tcpmemcpy.handshake_schedule ++ (Proc.parent, Event.call .connect) :: []) := by
    refine ⟨?_, ?_, ?_⟩
    · have hmain : (tcpmemcpy.main [.size_option 1]
          (tcpmemcpy.env_ok 1 ⟨10, 900000⟩ ⟨11, 100000⟩)).parent
          = Run.pre [.call .malloc, .call .fork]
              (tcpmemcpy.parent_process 1 (build_src 1 (zero_block 5))
                (tcpmemcpy.env_ok 1 ⟨10, 900000⟩ ⟨11, 100000⟩)) := rfl
      rw [hmain, tcp_parent_process_no_sigpipe _ _ _ (tcp_sigpipe_raised_none _ _ rfl),
        tcp_parent_connected 1 _ _ rfl rfl rfl]
      simp [events_of, tcpmemcpy.handshake_schedule, Run.pre]
    · obtain ⟨r, hr⟩ := tcp_child_opening 1
        (tcpmemcpy.env_ok 1 ⟨10, 900000⟩ ⟨11, 100000⟩) rfl rfl rfl
      rw [hr]
      simp [events_of, tcpmemcpy.handshake_schedule]
    · simp [legal_from, tcpmemcpy.handshake_schedule, Proc.other]
  exact ⟨hs, ((handshake_before_connect [.size_option 1] tcpmemcpy.handshake_schedule []
    (.call .connect) rfl).1 (tcpmemcpy.env_ok 1 ⟨10, 900000⟩ ⟨11, 100000⟩) _ rfl hs).2.2⟩

/-! ## The order of the accesses to the shared region -/

/-- A list splits at an event that occurs in it once in one way only. -/
theorem split_unique (e : Event) (q y : List Event) (hq : e ∉ q) : ∀ (p x : List Event),
    e ∉ p → p ++ e :: q = x ++ e :: y → x = p ∧ y = q := by
  intro p
  induction p with
  | nil =>
    intro x _ h
    cases x with
    | nil =>
      simp only [List.nil_append, List.cons.injEq, true_and] at h
      exact ⟨rfl, h.symm⟩
    | cons b x1 =>
      simp only [List.nil_append, List.cons_append, List.cons.injEq] at h
      exfalso
      apply hq
      rw [h.2]
      simp
  | cons b p1 ih =>
    intro x hp h
    cases x with
    | nil =>
      simp only [List.nil_append, List.cons_append, List.cons.injEq] at h
      exfalso
      apply hp
      rw [h.1]
      simp
    | cons b1 x1 =>
      simp only [List.cons_append, List.cons.injEq] at h
      have hp1 : e ∉ p1 := fun hm => hp (List.mem_cons_of_mem _ hm)
      obtain ⟨h1, h2⟩ := ih x1 hp1 h.2
      exact ⟨by rw [h.1, h1], h2⟩

/-- The shared-memory parent sends the completion signal only when it has been woken by
the readiness signal and has mapped the region; before the signal it has copied the
stamped block into the region, and after it it only waits and cleans up. -/
theorem shm_parent_kill_split (opts : List GetoptResult) (env : shmemcpy.Env) (c : Run)
    (x y : List Event) (hc : (shmemcpy.main opts env).child = some c)
    (h : (shmemcpy.main opts env).parent.trace = x ++ Event.kill Signal.SIGIO :: y) :
    ∃ size raw, parse_args opts 0 = some size ∧ env.malloc_src = some raw ∧
      x = [.call .malloc, .call .shm_open, .call .ftruncate, .call .fork, .call .signal,
            .await .SIGUSR1, .call .mmap, .call .gettimeofday,
            .transmit .memcpy (block_bytes size (stamped_src size raw env.start_time))] ∧
      y = (wait_then (shmemcpy.child env)
            { trace := [.call .munmap, .call .close, .call .shm_unlink, .call .free],
              status := some EXIT_SUCCESS }).trace := by
  obtain ⟨size, raw, hp, _, hm, _, hpar⟩ := shm_main_child opts env c hc
  refine ⟨size, raw, hp, hm, ?_⟩
  have hmem : Event.kill Signal.SIGIO ∈ (shmemcpy.main opts env).parent.trace := by
    rw [h]
    simp
  rw [hpar] at h hmem
  simp only [shmemcpy.parent, Run.pre] at h hmem
  cases h1 : env.sigusr1_received
  · simp [h1] at hmem
  · cases h2 : env.parent_mmap_ok
    · simp [h1, h2] at hmem
    · simp only [h1, h2, Bool.not_true, Bool.false_eq_true, if_false] at h
      have hq : Event.kill Signal.SIGIO ∉ (wait_then (shmemcpy.child env)
          { trace := [.call .munmap, .call .close, .call .shm_unlink, .call .free],
            status := some EXIT_SUCCESS }).trace := by
        simp only [wait_then, Run.pre]
        split_ifs <;> simp
      exact split_unique (Event.kill Signal.SIGIO) _ y hq _ x (by simp [stamped_src])
        (by simpa [stamped_src] using h)

/-- The trace of the shared-memory child when it has opened and mapped the region opens
with `signal`, `shm_open`, `mmap`, the readiness signal and the wait for the completion
signal; otherwise the child makes no access to the region. -/
theorem shm_child_opening (env : shmemcpy.Env) :
    (∃ r, (shmemcpy.child env).trace
        = [.call .signal, .call .shm_open, .call .mmap, .kill .SIGUSR1,
            .await Signal.SIGIO] ++ r) ∨
    ∀ e ∈ (shmemcpy.child env).trace, e.is_region_access = false := by
  simp only [shmemcpy.child, Run.pre]
  cases h1 : env.child_shm_open_ok
  · right
    intro e he
    simp at he
    rcases he with rfl | rfl | rfl <;> rfl
  · cases h2 : env.child_mmap_ok
    · right
      intro e he
      simp at he
      rcases he with rfl | rfl | rfl | rfl <;> rfl
    · left
      simp only [Bool.not_true, Bool.false_eq_true, if_false, List.cons_append,
        List.nil_append, List.singleton_append]
      exact ⟨_, rfl⟩

/-- An access of the child to the region is none of the events with which the trace of the
child opens. -/
theorem region_access_not_opening (e : Event) (he : e.is_region_access = true) :
    e ∉ [Event.call .signal, .call .shm_open, .call .mmap, .kill .SIGUSR1,
      .await Signal.SIGIO] := by
  intro hmem
  simp only [List.mem_cons, List.mem_singleton, List.not_mem_nil, or_false] at hmem
  rcases hmem with rfl | rfl | rfl | rfl | rfl <;> simp [Event.is_region_access] at he

/-- In a schedule of a run of `shmemcpy`, before an access of the child to the region the
parent has sent the completion signal. -/
theorem shm_access_after_done (opts : List GetoptResult) (env : shmemcpy.Env) (c : Run)
    (a rest : List (Proc × Event)) (e : Event)
    (hc : (shmemcpy.main opts env).child = some c)
    (hs : is_schedule (shmemcpy.main opts env).parent.trace c.trace
      (a ++ (Proc.child, e) :: rest))
    (he : e.is_region_access = true) :
    ∃ a1 a2, a = a1 ++ (Proc.parent, Event.kill Signal.SIGIO) :: a2 := by
  obtain ⟨hp, hq, hl⟩ := hs
  obtain ⟨_, _, _, _, _, hceq, _⟩ := shm_main_child opts env c hc
  subst hceq
  rcases shm_child_opening env with ⟨r, hr⟩ | hno
  · obtain ⟨_, a1, a2, _, ha, _⟩ := handshake_chain .child _
      (shmemcpy.main opts env).parent.trace _ r Signal.SIGIO _ a rest e hr (by simp) hq hp hl
      rfl (region_access_not_opening e he)
    exact ⟨a1, a2, ha⟩
  · exfalso
    obtain ⟨y, hy⟩ := trace_split_of_schedule .child _ a e rest hq
    have := hno e (by rw [hy]; simp)
    rw [he] at this
    cases this

/-- In a schedule of a run of `shmemcpy`, the completion signal separates the accesses to
the region: the events of the parent before it end with the copy of the stamped block,
the child has made no access before it, and the parent copies nothing after it. -/
theorem shm_done_separates (opts : List GetoptResult) (env : shmemcpy.Env) (c : Run)
    (a1 r2 : List (Proc × Event))
    (hc : (shmemcpy.main opts env).child = some c)
    (hs : is_schedule (shmemcpy.main opts env).parent.trace c.trace
      (a1 ++ (Proc.parent, Event.kill Signal.SIGIO) :: r2)) :
    (∃ size raw, parse_args opts 0 = some size ∧ env.malloc_src = some raw ∧
      events_of .parent a1
        = [.call .malloc, .call .shm_open, .call .ftruncate, .call .fork, .call .signal,
            .await .SIGUSR1, .call .mmap, .call .gettimeofday,
            .transmit .memcpy (block_bytes size (stamped_src size raw env.start_time))]) ∧
    (∀ e1 : Event, e1.is_region_access = true → (Proc.child, e1) ∉ a1) ∧
    (∀ m bytes, (Proc.parent, Event.transmit m bytes) ∉ r2) := by
  obtain ⟨y, hy⟩ := trace_split_of_schedule .parent _ a1 _ r2 hs.1
  obtain ⟨size, raw, hps, hm, hx, hyy⟩ := shm_parent_kill_split opts env c _ y hc hy
  refine ⟨⟨size, raw, hps, hm, hx⟩, ?_, ?_⟩
  · intro e1 he1 hmem
    obtain ⟨u, v, hu⟩ := List.append_of_mem hmem
    have hs2 : is_schedule (shmemcpy.main opts env).parent.trace c.trace
        (u ++ (Proc.child, e1) :: (v ++ (Proc.parent, Event.kill Signal.SIGIO) :: r2)) := by
      rw [hu] at hs
      simpa using hs
    obtain ⟨u1, u2, hu1⟩ := shm_access_after_done opts env c u _ e1 hc hs2 he1
    have hs3 : events_of .parent
        (u1 ++ (Proc.parent, Event.kill Signal.SIGIO) ::
          (u2 ++ (Proc.child, e1) :: (v ++ (Proc.parent, Event.kill Signal.SIGIO) :: r2)))
        <+: (shmemcpy.main opts env).parent.trace := by
      have := hs2.1
      rw [hu1] at this
      simpa using this
    obtain ⟨y1, hy1⟩ := trace_split_of_schedule .parent _ u1 _ _ hs3
    obtain ⟨_, _, _, _, hx1, _⟩ := shm_parent_kill_split opts env c _ y1 hc hy1
    have hlen := congrArg List.length hx
    rw [hu, hu1] at hlen
    have hlen1 := congrArg List.length hx1
    simp only [events_of_append, events_of_cons_self, List.length_append, List.length_cons,
      List.length_nil] at hlen hlen1
    omega
  · intro m bytes hmem
    have hpre : events_of .parent (a1 ++ (Proc.parent, Event.kill Signal.SIGIO) :: r2)
        <+: (shmemcpy.main opts env).parent.trace := hs.1
    rw [hy, events_of_append, events_of_cons_self] at hpre
    have hpre2 : events_of .parent r2 <+: y := by
      have := (List.prefix_append_right_inj _).mp hpre
      simpa using this
    have hin : Event.transmit m bytes ∈ y :=
      hpre2.subset ((mem_events_of _ _ _).mpr hmem)
    rw [hyy] at hin
    simp only [wait_then, Run.pre] at hin
    split_ifs at hin <;> simp at hin

/-- C15: in every schedule of a run of `shmemcpy` the accesses to the shared region follow
the order bind, notify-ready, write, notify-done, read.  Before the parent copies into the
region, the child has opened and mapped it and has then sent the readiness signal.  Before
any access of the child to the region (the store of the end time stamp, the read of the
start time stamp and of the size for the result), the child has mapped the region, then sent
the readiness signal, then the parent has copied the whole stamped block, then sent the
completion signal.  The completion signal separates the accesses: the child makes none
before it and the parent copies nothing after it, so the write and the reads never
overlap. -/
theorem shared_memory_total_order (opts : List GetoptResult) (env : shmemcpy.Env) (c : Run)
    (sched : List (Proc × Event))
    (hc : (shmemcpy.main opts env).child = some c)
    (hs : is_schedule (shmemcpy.main opts env).parent.trace c.trace sched) :
    (∀ a rest bytes, sched = a ++ (Proc.parent, Event.transmit .memcpy bytes) :: rest →
      env.child_shm_open_ok = true ∧ env.child_mmap_ok = true ∧
      handshake_done [.call .shm_open, .call .mmap] a) ∧
    (∀ a rest e, e.is_region_access = true → sched = a ++ (Proc.child, e) :: rest →
      ∃ size raw, parse_args opts 0 = some size ∧ env.malloc_src = some raw ∧
        follows_total_order (block_bytes size (stamped_src size raw env.start_time)) a) ∧
    (∀ a1 r2, sched = a1 ++ (Proc.parent, Event.kill Signal.SIGIO) :: r2 →
      (∀ e1 : Event, e1.is_region_access = true → (Proc.child, e1) ∉ a1) ∧
      (∀ m bytes, (Proc.parent, Event.transmit m bytes) ∉ r2)) := by
  have h1 : ∀ a rest bytes, sched = a ++ (Proc.parent, Event.transmit .memcpy bytes) :: rest →
      env.child_shm_open_ok = true ∧ env.child_mmap_ok = true ∧
      handshake_done [.call .shm_open, .call .mmap] a := by
    intro a rest bytes hsplit
    obtain ⟨hp, hq, hl⟩ := hs
    obtain ⟨r, hceq, htr⟩ := shm_parent_opening opts env c hc
    obtain ⟨hpre, a1, a2, y, ha, hct⟩ := handshake_chain .parent _ c.trace _ r .SIGUSR1 sched a
      rest _ htr (by simp) hp hq hl hsplit (initiator_step_not_opening _ rfl)
    subst hceq
    obtain ⟨f1, f2, x1, hx1⟩ := shm_child_kill_split env _ y hct
    exact ⟨f1, f2, handshake_done_of_chain _ _ a a1 a2 x1 (hpre _ (by simp)) ha hx1
      (by simp)⟩
  refine ⟨h1, ?_, ?_⟩
  · intro a rest e he hsplit
    subst hsplit
    obtain ⟨a1, a2, ha⟩ := shm_access_after_done opts env c a rest e hc hs he
    subst ha
    have hs2 : is_schedule (shmemcpy.main opts env).parent.trace c.trace
        (a1 ++ (Proc.parent, Event.kill Signal.SIGIO) :: (a2 ++ (Proc.child, e) :: rest)) := by
      simpa using hs
    obtain ⟨⟨size, raw, hps, hm, hx⟩, _, _⟩ := shm_done_separates opts env c a1 _ hc hs2
    refine ⟨size, raw, hps, hm, ?_⟩
    have hw : (Proc.parent, Event.transmit .memcpy
        (block_bytes size (stamped_src size raw env.start_time))) ∈ a1 := by
      rw [← mem_events_of, hx]
      simp
    obtain ⟨b1, b2, hb⟩ := List.append_of_mem hw
    subst hb
    obtain ⟨_, _, _, c1, c2, hc1, hbind⟩ := h1 b1
      (b2 ++ (Proc.parent, Event.kill Signal.SIGIO) :: (a2 ++ (Proc.child, e) :: rest))
      (block_bytes size (stamped_src size raw env.start_time)) (by simp)
    subst hc1
    obtain ⟨d1, d2, hd⟩ := List.append_of_mem (hbind (.call .mmap) (by simp))
    subst hd
    exact ⟨d1, d2, c2, b2, a2, by simp⟩
  · intro a1 r2 hsplit
    subst hsplit
    exact (shm_done_separates opts env c a1 r2 hc hs).2

/-- The run of the shared-memory parent once the readiness signal has arrived and the
region is mapped: it stamps and copies the buffer, sends the completion signal and waits
for the child. -/
theorem shm_parent_mapped (size : Int) (src : buf_data_t) (env : shmemcpy.Env)
    (h1 : env.sigusr1_received = true) (h2 : env.parent_mmap_ok = true) :
    shmemcpy.parent size src env
      = Run.pre [.call .signal, .await .SIGUSR1, .call .mmap, .call .gettimeofday,
          .transmit .memcpy (block_bytes size { src with start := env.start_time }),
          .kill Signal.SIGIO]
          (wait_then (shmemcpy.child env)
            { trace := [.call .munmap, .call .close, .call .shm_unlink, .call .free],
              status := some EXIT_SUCCESS }) := by
  simp [shmemcpy.parent, Run.pre, h1, h2]

/-- The trace of the shared-memory child that has mapped the region and received the
completion signal opens with its calls up to the store of the end time stamp. -/
theorem shm_child_awake (env : shmemcpy.Env) (h1 : env.child_shm_open_ok = true)
    (h2 : env.child_mmap_ok = true) (h3 : env.sigio_received = true) :
    ∃ r, (shmemcpy.child env).trace
      = [.call .signal, .call .shm_open, .call .mmap, .kill .SIGUSR1, .await Signal.SIGIO,
          .call .gettimeofday] ++ r := by
  simp only [shmemcpy.child, Run.pre, h1, h2, h3, Bool.not_true, Bool.false_eq_true, if_false,
    List.cons_append, List.nil_append, List.singleton_append]
  exact ⟨_, rfl⟩

/-- Witness of `shared_memory_total_order`: `transfer_schedule` followed by the store of the
end time stamp by the child is a schedule of the run `env_ok` of `shmemcpy --size 1`, and
the part before the store follows the order. -/
theorem shared_memory_total_order_witness :
    is_schedule
      (shmemcpy.main [.size_option 1] (shmemcpy.env_ok 1 ⟨10, 900000⟩ ⟨11, 100000⟩)).parent.trace
      (shmemcpy.child (shmemcpy.env_ok 1 ⟨10, 900000⟩ ⟨11, 100000⟩)).trace
      (shmemcpy.transfer_schedule 1 ⟨10, 900000⟩ ++ (Proc.child, Event.call .gettimeofday) :: []) ∧
    follows_total_order (sent_block 1 ⟨10, 900000⟩)
      (shmemcpy.transfer_schedule 1 ⟨10, 900000⟩) := by
  have hs : is_schedule
      (shmemcpy.main [.size_option 1] (shmemcpy.env_ok 1 ⟨10, 900000⟩ ⟨11, 100000⟩)).parent.trace
      (shmemcpy.child (shmemcpy.env_ok 1 ⟨10, 900000⟩ ⟨11, 100000⟩)).trace
      (shmemcpy.transfer_schedule 1 ⟨10, 900000⟩ ++ (Proc.child, Event.call .gettimeofday) :: [])
      := by
    refine ⟨?_, ?_, ?_⟩
    · have hmain : (shmemcpy.main [.size_option 1]
          (shmemcpy.env_ok 1 ⟨10, 900000⟩ ⟨11, 100000⟩)).parent
          = Run.pre [.call .malloc, .call .shm_open, .call .ftruncate, .call .fork]
              (shmemcpy.parent 1 (build_src 1 (zero_block 5))
                (shmemcpy.env_ok 1 ⟨10, 900000⟩ ⟨11, 100000⟩)) := rfl
      have hblock : block_bytes 1
          { build_src 1 (zero_block 5) with
            start := (shmemcpy.env_ok 1 ⟨10, 900000⟩ ⟨11, 100000⟩).start_time }
          = sent_block 1 ⟨10, 900000⟩ := rfl
      rw [hmain, shm_parent_mapped 1 _ _ rfl rfl, hblock]
      simp [events_of, shmemcpy.transfer_schedule, Run.pre]
    · obtain ⟨r, hr⟩ := shm_child_awake
        (shmemcpy.env_ok 1 ⟨10, 900000⟩ ⟨11, 100000⟩) rfl rfl rfl
      rw [hr]
      simp [events_of, shmemcpy.transfer_schedule]
    · simp [legal_from, shmemcpy.transfer_schedule, Proc.other]
  obtain ⟨size, raw, hsz, hraw, hord⟩ :=
    (shared_memory_total_order [.size_option 1] (shmemcpy.env_ok 1 ⟨10, 900000⟩ ⟨11, 100000⟩)
      _ _ rfl hs).2.1 (shmemcpy.transfer_schedule 1 ⟨10, 900000⟩) [] (.call .gettimeofday)
      rfl rfl
  simp only [parse_args, Option.some.injEq] at hsz
  simp only [shmemcpy.env_ok, Option.some.injEq] at hraw
  subst hsz
  subst hraw
  exact ⟨hs, hord⟩

/-! ## full_write -/

/-- While the results are positive the number of accepted bytes grows strictly. -/
theorem accepted_lt (writes : Nat → Int) (b : Nat) (hpos : ∀ j, j < b → 0 < writes j) :
    ∀ a, a < b → tcpmemcpy.accepted writes a < tcpmemcpy.accepted writes b := by
  induction b with
  | zero => intro a ha; omega
  | succ b ih =>
    intro a ha
    simp only [tcpmemcpy.accepted]
    have hb := hpos b (by omega)
    by_cases hab : a = b
    · subst hab
      omega
    · have := ih (fun j hj => hpos j (by omega)) a (by omega)
      omega

/-- After `n` positive writes at least `n` bytes are accepted. -/
theorem le_accepted (writes : Nat → Int) (n : Nat) (hpos : ∀ j, j < n → 0 < writes j) :
    (n : Int) ≤ tcpmemcpy.accepted writes n := by
  induction n with
  | zero => simp [tcpmemcpy.accepted]
  | succ n ih =>
    simp only [tcpmemcpy.accepted]
    have h1 := ih (fun j hj => hpos j (by omega))
    have h2 := hpos n (by omega)
    push_cast
    omega

/-- The loop invariant of `full_write`: from a state reached after `k` positive writes the
loop either completes after some `n` writes that accept `count` bytes in total, returning
`count`, or stops at the first write `n` that accepts no byte, returning its result after
`n + 1` calls. -/
theorem full_write_loop_spec (writes : Nat → Int) (count : Nat)
    (hfit : tcpmemcpy.writes_fit writes count) :
    ∀ (m k w : Nat), count - w = m → w ≤ count →
      (∀ j, j < k → 0 < writes j) → tcpmemcpy.accepted writes k = w →
      (∃ n, (∀ j, j < n → 0 < writes j) ∧ tcpmemcpy.accepted writes n = count ∧
          tcpmemcpy.full_write_loop writes count k w
            = { ret := (count : Int), calls := n, written := count }) ∨
      (∃ n, (∀ j, j < n → 0 < writes j) ∧ tcpmemcpy.accepted writes n < count ∧
          writes n ≤ 0 ∧
          tcpmemcpy.full_write_loop writes count k w
            = { ret := writes n, calls := n + 1,
                written := (tcpmemcpy.accepted writes n).toNat }) := by
  intro m
  induction m using Nat.strong_induction_on with
  | _ m ih =>
    intro k w hm hle hpos hacc
    rw [tcpmemcpy.full_write_loop]
    by_cases h : w < count
    · rw [if_pos h]
      by_cases hr : writes k ≤ 0
      · rw [if_pos hr]
        refine Or.inr ⟨k, hpos, by omega, hr, ?_⟩
        rw [hacc]
        simp
      · rw [if_neg hr]
        have hrpos : 0 < writes k := by omega
        have hsum := hfit k hpos (by omega) hrpos
        refine ih (count - (w + (writes k).toNat)) (by omega) (k + 1)
          (w + (writes k).toNat) rfl (by omega) ?_ ?_
        · intro j hj
          by_cases hjk : j = k
          · subst hjk
            exact hrpos
          · exact hpos j (by omega)
        · simp only [tcpmemcpy.accepted]
          omega
    · rw [if_neg h]
      have hw : w = count := by omega
      subst hw
      exact Or.inl ⟨k, hpos, hacc, rfl⟩

/-- The dichotomy for a run of `full_write` from its initial state. -/
theorem full_write_cases (writes : Nat → Int) (count : Nat)
    (hfit : tcpmemcpy.writes_fit writes count) :
    (∃ n, (∀ j, j < n → 0 < writes j) ∧ tcpmemcpy.accepted writes n = count ∧
        tcpmemcpy.full_write_run writes count
          = { ret := (count : Int), calls := n, written := count }) ∨
    (∃ n, (∀ j, j < n → 0 < writes j) ∧ tcpmemcpy.accepted writes n < count ∧
        writes n ≤ 0 ∧
        tcpmemcpy.full_write_run writes count
          = { ret := writes n, calls := n + 1,
              written := (tcpmemcpy.accepted writes n).toNat }) :=
  full_write_loop_spec writes count hfit count 0 0 rfl (Nat.zero_le _)
    (fun j hj => absurd hj (Nat.not_lt_zero j)) rfl

/-- A complete sequence of positive writes excludes an earlier or later refused write. -/
theorem write_complete_not_short (writes : Nat → Int) (count : Nat) (n1 n2 : Nat)
    (h1 : ∀ j, j < n1 → 0 < writes j) (h2 : ∀ j, j < n2 → 0 < writes j)
    (d1 : tcpmemcpy.accepted writes n1 = count) (d2 : tcpmemcpy.accepted writes n2 < count)
    (hr : writes n2 ≤ 0) : False := by
  rcases Nat.lt_trichotomy n1 n2 with h | h | h
  · have := accepted_lt writes n2 h2 n1 h
    omega
  · subst h
    omega
  · have := h1 n2 h
    omega

/-- The first refused write is unique. -/
theorem write_short_unique (writes : Nat → Int) (n1 n2 : Nat)
    (h1 : ∀ j, j < n1 → 0 < writes j) (h2 : ∀ j, j < n2 → 0 < writes j)
    (r1 : writes n1 ≤ 0) (r2 : writes n2 ≤ 0) : n1 = n2 := by
  rcases Nat.lt_trichotomy n1 n2 with h | h | h
  · have := h2 n1 h
    omega
  · exact h
  · have := h1 n2 h
    omega

/-- C16: for every count > 0 and every sequence of results of the underlying `write` (each
positive result at most the bytes still unsent), `full_write` terminates (after at most
`count` calls of `write`), never writes more than `count` bytes in total, and returns
`count` exactly when every write before completion accepted a positive number of bytes; at
the first write that returns 0 or a negative value it stops and returns that non-positive
value (a short write), which the caller detects as `sent != total_size`. -/
theorem full_write_spec (count : Nat) (hc : 0 < count) (writes : Nat → Int)
    (hfit : tcpmemcpy.writes_fit writes count) :
    (tcpmemcpy.full_write_run writes count).calls ≤ count ∧
    (tcpmemcpy.full_write_run writes count).written ≤ count ∧
    (tcpmemcpy.full_write writes count = count ↔
      ∃ n, (∀ j, j < n → 0 < writes j) ∧ tcpmemcpy.accepted writes n = count) ∧
    (tcpmemcpy.full_write writes count = count →
      (∀ j, j < (tcpmemcpy.full_write_run writes count).calls → 0 < writes j) ∧
      (tcpmemcpy.full_write_run writes count).written = count) ∧
    (∀ n, (∀ j, j < n → 0 < writes j) → tcpmemcpy.accepted writes n < count →
      writes n ≤ 0 →
      tcpmemcpy.full_write_run writes count
        = { ret := writes n, calls := n + 1,
            written := (tcpmemcpy.accepted writes n).toNat }) ∧
    (tcpmemcpy.full_write writes count = count ∨ tcpmemcpy.full_write writes count ≤ 0) ∧
    ¬ (tcpmemcpy.full_write writes count = count ∧ tcpmemcpy.full_write writes count ≤ 0) ∧
    (∀ (size : Int) (src : buf_data_t) (env : tcpmemcpy.Env), 0 < size → size ≤ INT_MAX →
      count = size_t_of_int (sizeof_buf_data_t + size) → env.writes = writes →
      env.sigusr1_received = true → env.parent_socket_ok = true → env.connect_ok = true →
      (∀ k, LONG_MIN ≤ writes k) →
      (tcpmemcpy.full_write writes count ≤ 0 →
        Event.stderr tcpmemcpy.short_write_line ∈ (tcpmemcpy.parent size src env).trace) ∧
      (tcpmemcpy.full_write writes count = count →
        Event.stderr tcpmemcpy.short_write_line ∉ (tcpmemcpy.parent size src env).trace)) := by
  have hcases := full_write_cases writes count hfit
  unfold tcpmemcpy.full_write
  refine ⟨?_, ?_, ?_, ?_, ?_, ?_, ?_, ?_⟩
  · rcases hcases with ⟨n, hpos, hacc, hrun⟩ | ⟨n, hpos, hacc, _, hrun⟩
    · rw [hrun]
      have := le_accepted writes n hpos
      show n ≤ count
      omega
    · rw [hrun]
      have := le_accepted writes n hpos
      show n + 1 ≤ count
      omega
  · rcases hcases with ⟨n, _, _, hrun⟩ | ⟨n, hpos, hacc, _, hrun⟩
    · rw [hrun]
    · rw [hrun]
      have := le_accepted writes n hpos
      show (tcpmemcpy.accepted writes n).toNat ≤ count
      omega
  · constructor
    · intro hret
      rcases hcases with ⟨n, hpos, hacc, _⟩ | ⟨n, _, _, hr, hrun⟩
      · exact ⟨n, hpos, hacc⟩
      · rw [hrun] at hret
        have : writes n = count := hret
        omega
    · intro ⟨n, hpos, hacc⟩
      rcases hcases with ⟨n1, _, _, hrun⟩ | ⟨n2, h2, d2, r2, _⟩
      · rw [hrun]
      · exact absurd (write_complete_not_short writes count n n2 hpos h2 hacc d2 r2) id
  · intro hret
    rcases hcases with ⟨n, hpos, _, hrun⟩ | ⟨n, _, _, hr, hrun⟩
    · rw [hrun]
      exact ⟨hpos, rfl⟩
    · rw [hrun] at hret
      have : writes n = count := hret
      omega
  · intro n hpos hacc hr
    rcases hcases with ⟨n1, h1, d1, _⟩ | ⟨n2, h2, _, r2, hrun⟩
    · exact absurd (write_complete_not_short writes count n1 n h1 hpos d1 hacc hr) id
    · have := write_short_unique writes n n2 hpos h2 hr r2
      subst this
      exact hrun
  · rcases hcases with ⟨n, _, _, hrun⟩ | ⟨n, _, _, hr, hrun⟩
    · left
      rw [hrun]
    · right
      rw [hrun]
      exact hr
  · intro ⟨h1, h2⟩
    omega
  · intro size src env h0 hmax hcount hwrites hsig hsock hconn hrange
    subst hcount
    subst hwrites
    rw [tcp_parent_connected size src env hsig hsock hconn]
    constructor
    · intro hret
      have hlo : LONG_MIN ≤ (tcpmemcpy.full_write_run env.writes
          (size_t_of_int (sizeof_buf_data_t + size))).ret := by
        rcases hcases with ⟨n, _, _, hrun⟩ | ⟨n, _, _, _, hrun⟩
        · rw [hrun]
          show LONG_MIN ≤ ((size_t_of_int (sizeof_buf_data_t + size) : Nat) : Int)
          unfold LONG_MIN
          omega
        · rw [hrun]
          exact hrange n
      have hne := size_t_of_nonpos_ne_total _ size hret hlo h0 hmax
      simp only [tcpmemcpy.full_write]
      rw [if_pos hne]
      simp [Run.pre]
    · intro hret
      simp only [tcpmemcpy.full_write]
      have hid : size_t_of_int ((size_t_of_int (sizeof_buf_data_t + size) : Nat) : Int)
          = size_t_of_int (sizeof_buf_data_t + size) := by
        rw [total_size_eq size h0 hmax]
        unfold size_t_of_int
        unfold INT_MAX at hmax
        omega
      have hcond : ¬ (size_t_of_int (tcpmemcpy.full_write_run env.writes
            (size_t_of_int (sizeof_buf_data_t + size))).ret
          ≠ size_t_of_int (sizeof_buf_data_t + size)) := by
        rw [hret, hid]
        exact fun h => h rfl
      rw [if_neg hcond]
      simp only [Run.pre, wait_then]
      split_ifs <;> simp [tcpmemcpy.short_write_line]

/-- The results `two_writes` suit a request for four bytes. -/
theorem two_writes_fit : tcpmemcpy.writes_fit tcpmemcpy.two_writes 4 := by
  intro k _ _ hpos
  rcases k with _ | _ | k
  · simp [tcpmemcpy.two_writes, tcpmemcpy.accepted]
  · simp [tcpmemcpy.two_writes, tcpmemcpy.accepted]
  · simp [tcpmemcpy.two_writes] at hpos

/-- Witness of `full_write_spec`: writes of three bytes and one byte send four bytes in
two calls. -/
theorem full_write_spec_witness :
    (tcpmemcpy.full_write_run tcpmemcpy.two_writes 4).calls ≤ 4 ∧
    (tcpmemcpy.full_write tcpmemcpy.two_writes 4 = (4 : Nat) ↔
      ∃ n, (∀ j, j < n → 0 < tcpmemcpy.two_writes j) ∧
        tcpmemcpy.accepted tcpmemcpy.two_writes n = (4 : Nat)) :=
  ⟨(full_write_spec 4 (by decide) tcpmemcpy.two_writes two_writes_fit).1,
   (full_write_spec 4 (by decide) tcpmemcpy.two_writes two_writes_fit).2.2.1⟩

end IpcTimings
